import Mathlib

/-! # LSM parser: a shallow embedding of `same-parser`

The development follows the Go packages of the repository:

* `model`  : `RuMapping`, `RuMappingDAO`, `ElasticDocument`, `Data`;
* `store`  : the enrichment cache (`Store.Init`, `Store.Update`, `Store.Get`);
* `parser` : `ProcessXML`, `emitDocs`, `buildDoc`, `zipResults`, `parseFloat`, ...;
* `es`     : `safeStr`, `indexDateSuffix` and the identifier / index name computed by
  `StartBulkWorker`;
* `main`   : `waitStable` and the goroutine started for one detected file.

Conventions of the embedding.

* A Go `*string` is an `Option String` (`nil` is `none`).
* A Go `map[string]T` is a `GoMap T`: an association list with pairwise distinct keys,
  kept in insertion order.  Go leaves the iteration order of a map unspecified; the model
  iterates in insertion order, and the statements about the rows produced by a `range`
  over a map select them by key, not by position.
* A send on `docChan` is an element of the returned list of documents, in sending order.
* A Go `float64` is idealised as an exact rational (`ℚ`): unbounded range, no rounding of
  arithmetic.  `int(x)` and `int64(x)` are truncation toward zero.
* Library calls (`strconv`, `time`, `strings`) are either modelled from their documentation
  or taken as parameters; each such place is marked.
* The `select` loop of `waitStable` runs over the list of turns the runtime takes; the
  polled sizes and the clock readings, in milliseconds, are part of that input.
-/

namespace LsmParser

/-! ## Go maps -/

/-- A Go `map[string]β`, as an association list in insertion order. -/
abbrev GoMap (β : Type) := List (String × β)

namespace GoMap

variable {β : Type}

/-- The two-valued read `v, ok := m[k]`, as an option. -/
def find : GoMap β → String → Option β
  | [], _ => none
  | (k', v) :: rest, k => if k' = k then some v else find rest k

/-- The plain read `m[k]` with the zero value `z` for a missing key. -/
def read (m : GoMap β) (k : String) (z : β) : β :=
  (m.find k).getD z

/-- The assignment `m[k] = v`. -/
def assign : GoMap β → String → β → GoMap β
  | [], k, v => [(k, v)]
  | (k', v') :: rest, k, v =>
      if k' = k then (k', v) :: rest else (k', v') :: assign rest k v

/-- The keys in iteration order. -/
def keys (m : GoMap β) : List String := m.map Prod.fst

end GoMap

/-! ## package model -/

/-- Go `sql.NullString`. -/
structure NullString where
  String : String
  Valid : Bool
  deriving DecidableEq, Repr

/-- Go `model.RuMapping`. -/
structure RuMapping where
  EMS_Id : Option String
  EMSName : Option String
  DUId : Option String
  RUId : Option String
  DU_NAME : Option String
  RU_NAME : Option String
  CELL_ID : Option String
  CELL_NUM : Option String
  deriving DecidableEq, Repr

/-- Go `model.RuMappingDAO`. -/
structure RuMappingDAO where
  EMS_Id : NullString
  EMSName : NullString
  DUId : NullString
  RUId : NullString
  DU_NAME : NullString
  RU_NAME : NullString
  CELL_ID : NullString
  CELL_NUM : NullString
  deriving DecidableEq, Repr

/-- The dynamic values stored in `Data.Result` (an `interface{}`): the parser only ever
stores a `float64` or an `int`. -/
inductive Result where
  | float (x : ℚ)
  | int (n : ℤ)
  deriving DecidableEq

/-- Go `model.Data`. -/
structure Data where
  Result : Result
  Field : String
  deriving DecidableEq

/-- Go `model.ElasticDocument`. -/
structure ElasticDocument where
  EmsID : Option String
  DuId : Option String
  CellId : Option String
  CellNum : Option String
  RuParam : Option String
  Data : Data
  MeasDate : Option String
  EndTime : Option String
  MontypeName : Option String
  RUName : Option String
  Timestamp : Option String
  EquipID : Option String
  CollectDate : Option String
  deriving DecidableEq

/-! ## package store -/

/-- Go `nilIfInvalid`. -/
def nilIfInvalid (n : NullString) : Option String :=
  if n.Valid then some n.String else none

/-- The `model.RuMapping` literal built from a scanned row in `Init` and `Update`. -/
def mappingOfDAO (d : RuMappingDAO) : RuMapping :=
  { EMS_Id := nilIfInvalid d.EMS_Id
    EMSName := nilIfInvalid d.EMSName
    DUId := nilIfInvalid d.DUId
    RUId := nilIfInvalid d.RUId
    DU_NAME := nilIfInvalid d.DU_NAME
    RU_NAME := nilIfInvalid d.RU_NAME
    CELL_ID := nilIfInvalid d.CELL_ID
    CELL_NUM := nilIfInvalid d.CELL_NUM }

/-- One step of the cursor `rows`: `rows.Next()` was true and `rows.Scan` either filled
`ruParam` and the DAO or returned an error. -/
inductive ScanResult where
  | scanned (ruParam : String) (d : RuMappingDAO)
  | scanErr (err : String)
  deriving DecidableEq

/-- The cursor returned by a successful `db.Query`: the rows it yields while `rows.Next()`
is true, and the value of `rows.Err()` once `rows.Next()` is false. -/
structure Rows where
  items : List ScanResult
  err : Option String

/-- The outcome of `db.Query(getRuMappingQuery)`. -/
abbrev QueryResult := Except String Rows

/-- Go `store.Store` (the mutex is not modelled: the embedding is sequential). -/
structure Store where
  ruMapping : GoMap (List RuMapping)
  deriving DecidableEq

/-- Go `NewStore`. -/
def NewStore : Store := { ruMapping := [] }

/-- The loop `for rows.Next() { ... }` of `Init` and `Update`, on the local map `temp`. -/
def scanLoop : List ScanResult → GoMap (List RuMapping) → Except String (GoMap (List RuMapping))
  | [], temp => .ok temp
  | .scanErr e :: _, _ => .error ("failed to scan row: " ++ e)
  | .scanned ruParam d :: rest, temp =>
      scanLoop rest (temp.assign ruParam (temp.read ruParam [] ++ [mappingOfDAO d]))

/-- Go `(*Store).Init`: the store after the call and the returned error (`none` is `nil`). -/
def Store.Init (s : Store) (db : QueryResult) : Store × Option String :=
  match db with
  | .error e => (s, some ("failed to query ru_mapping: " ++ e))
  | .ok rows =>
      match scanLoop rows.items [] with
      | .error e => (s, some e)
      | .ok temp =>
          match rows.err with
          | some e => (s, some ("error iterating rows: " ++ e))
          | none => ({ s with ruMapping := temp }, none)

/-- Go `(*Store).Update`. -/
def Store.Update (s : Store) (db : QueryResult) : Store × Option String :=
  match db with
  | .error e => (s, some ("failed to query ru_mapping: " ++ e))
  | .ok rows =>
      match scanLoop rows.items [] with
      | .error e => (s, some e)
      | .ok temp =>
          match rows.err with
          | some e => (s, some ("error iterating rows: " ++ e))
          | none => ({ s with ruMapping := temp }, none)

/-- Go `(*Store).Get`: the store after the call, and the pair `(val, ok)`. -/
def Store.Get (s : Store) (key : String) : Store × (List RuMapping × Bool) :=
  match s.ruMapping.find key with
  | some val => (s, (val, true))
  | none => (s, ([], false))

/-! ## package parser: enrichment and document construction -/

/-- Go `buildDoc`. -/
def buildDoc (m : Option RuMapping)
    (ruParam equipID measDate endTime ts collected mType field : String)
    (val : Result) : ElasticDocument :=
  let unknown := "UNKNOWN"
  let ids : Option String × Option String × Option String × Option String × Option String :=
    match m with
    | some m =>
        (if m.EMSName.isSome then m.EMSName else some unknown,
         if m.DUId.isSome then m.DUId else some unknown,
         if m.CELL_ID.isSome then m.CELL_ID else some unknown,
         if m.CELL_NUM.isSome then m.CELL_NUM else some unknown,
         if m.RUId.isSome then m.RUId else some unknown)
    | none => (some unknown, some unknown, some unknown, some unknown, some unknown)
  { EmsID := ids.1
    DuId := ids.2.1
    CellId := ids.2.2.1
    CellNum := ids.2.2.2.1
    RuParam := some ruParam
    Data := { Result := val, Field := field }
    MeasDate := some measDate
    EndTime := some endTime
    MontypeName := some mType
    RUName := ids.2.2.2.2
    Timestamp := some ts
    EquipID := some equipID
    CollectDate := some collected }

/-- Go `emitDocs`: the documents sent on `docChan`, in order.  `managementElement` is
`parsedResult.ManagementElement`. -/
def emitDocs (store : Store) (ruParam managementElement : String)
    (measDate endTime ts collected mType field : String) (val : Result) :
    List ElasticDocument :=
  match (store.Get ruParam).2 with
  | (params, true) =>
      params.map fun p =>
        buildDoc (some p) ruParam managementElement measDate endTime ts collected mType field val
  | (_, false) =>
      [buildDoc none ruParam managementElement measDate endTime ts collected mType field val]

/-! ## package es: identifier and index name -/

/-- Go `safeStr`. -/
def safeStr (p : Option String) : String :=
  match p with
  | none => "NULL"
  | some s => if s = "" then "NULL" else s

/-- The Go slice expression `s[i:j]` (byte offsets) for offsets on character boundaries. -/
def byteSlice (s : String) (i j : Nat) : String :=
  s.extract ⟨i⟩ ⟨j⟩

/-- Go `indexDateSuffix`.  `today` is `time.Now().Format("2006.01.02")`; `len(measDate)`
is the length in bytes. -/
def indexDateSuffix (today : String) (measDate : String) : String :=
  if measDate.utf8ByteSize ≥ 8 then
    byteSlice measDate 0 4 ++ "." ++ byteSlice measDate 4 6 ++ "." ++ byteSlice measDate 6 8
  else
    today

/-- The `idx` computed by `StartBulkWorker` for a document. -/
def bulkIndex (today indexName : String) (doc : ElasticDocument) : String :=
  let measDate := safeStr doc.MeasDate
  indexName ++ "-" ++ indexDateSuffix today measDate

/-- The `id` computed by `StartBulkWorker` for a document. -/
def bulkID (doc : ElasticDocument) : String :=
  let measDate := safeStr doc.MeasDate
  safeStr doc.RuParam ++ "-" ++
    safeStr doc.CellNum ++ "-" ++
    safeStr doc.RUName ++ "-" ++
    doc.Data.Field ++ "-" ++
    measDate

/-! ## Go `strings` and `strconv`, modelled from their documentation -/

/-- Go `unicode.IsSpace`: the white space characters of `strings.Fields` and
`strings.TrimSpace`. -/
def isSpace (c : Char) : Bool :=
  let n := c.toNat
  (9 ≤ n && n ≤ 13) || n == 32 || n == 0x85 || n == 0xA0 || n == 0x1680 ||
    (0x2000 ≤ n && n ≤ 0x200A) || n == 0x2028 || n == 0x2029 || n == 0x202F ||
    n == 0x205F || n == 0x3000

/-- The scan of `strings.Fields`: `cur` is the field being read. -/
def fieldsFrom : List Char → List Char → List (List Char)
  | [], cur => if cur.isEmpty then [] else [cur]
  | c :: cs, cur =>
      if isSpace c then
        if cur.isEmpty then fieldsFrom cs [] else cur :: fieldsFrom cs []
      else fieldsFrom cs (cur ++ [c])

/-- Go `strings.Fields`. -/
def Fields (s : String) : List String :=
  (fieldsFrom s.data []).map String.mk

/-- The scan of `strings.Split` for a one-character separator. -/
def splitFrom (sep : Char) : List Char → List Char → List (List Char)
  | [], cur => [cur]
  | c :: cs, cur =>
      if c = sep then cur :: splitFrom sep cs [] else splitFrom sep cs (cur ++ [c])

/-- Go `strings.Split(s, "/")`. -/
def SplitSlash (s : String) : List String :=
  (splitFrom '/' s.data []).map String.mk

/-- Go `strings.Join(parts, sep)`. -/
def Join (parts : List String) (sep : String) : String :=
  sep.intercalate parts

/-- Go `strings.TrimSpace`. -/
def TrimSpace (s : String) : String :=
  String.mk ((s.data.dropWhile isSpace).reverse.dropWhile isSpace).reverse

/-- The value of a decimal digit character. -/
def digitValue (c : Char) : Nat := c.toNat - 48

/-- The mantissa loop of `strconv`: reads digits and at most one point.  Returns the
digits read as a number, how many of them follow the point, whether a digit was seen,
and the unread rest. -/
def readMantissa : List Char → Nat → Bool → Nat → Bool → Nat × Nat × Bool × List Char
  | [], m, _, fd, sd => (m, fd, sd, [])
  | c :: cs, m, dot, fd, sd =>
      if c = '.' then
        if dot then (m, fd, sd, c :: cs) else readMantissa cs m true fd sd
      else if c.isDigit then
        readMantissa cs (10 * m + digitValue c) dot (if dot then fd + 1 else fd) true
      else (m, fd, sd, c :: cs)

/-- Reads a run of decimal digits that must reach the end of the input. -/
def readAllDigits : List Char → Nat → Option Nat
  | [], n => some n
  | c :: cs, n => if c.isDigit then readAllDigits cs (10 * n + digitValue c) else none

/-- The exponent part: nothing, or `e`/`E`, an optional sign and at least one digit, up to
the end of the input. -/
def readExponent : List Char → Option ℤ
  | [] => some 0
  | c :: cs =>
      if c = 'e' ∨ c = 'E' then
        match cs with
        | [] => none
        | '+' :: d :: ds => (readAllDigits (d :: ds) 0).map fun n => (n : ℤ)
        | '-' :: d :: ds => (readAllDigits (d :: ds) 0).map fun n => -(n : ℤ)
        | d :: ds => (readAllDigits (d :: ds) 0).map fun n => (n : ℤ)
      else none

/-- The unsigned decimal number `mantissa [exponent]`. -/
def readUnsigned (cs : List Char) : Option ℚ :=
  match readMantissa cs 0 false 0 false with
  | (m, fd, true, rest) =>
      (readExponent rest).map fun e => (m : ℚ) * (10 : ℚ) ^ (e - (fd : ℤ))
  | (_, _, false, _) => none

/-- Modelled from the documentation of Go `strconv.ParseFloat(s, 64)`, which is not part of
the repository: the decimal syntax `[+-] digits [. digits] [(e|E) [+-] digits]`, read as an
exact rational; `none` is a non-nil error.  Hexadecimal numbers, infinities and NaN have
no counterpart in the idealisation and are rejected; no statement below depends on them. -/
def strconvParseFloat (s : String) : Option ℚ :=
  match s.data with
  | '+' :: cs => readUnsigned cs
  | '-' :: cs => (readUnsigned cs).map fun q => -q
  | cs => readUnsigned cs

/-- Round to the nearest natural number, ties to even, for a non-negative rational. -/
def roundHalfEven (q : ℚ) : ℕ :=
  let n := q.num.toNat
  let d := q.den
  let k := n / d
  let r := n % d
  if 2 * r < d then k
  else if d < 2 * r then k + 1
  else if k % 2 = 0 then k else k + 1

/-- The decimal digit character of a number below ten. -/
def digitChar (n : Nat) : Char := Char.ofNat (48 + n)

/-- The decimal digits of a number, most significant first; `fuel` bounds the recursion. -/
def decimalFrom : Nat → Nat → List Char → List Char
  | 0, _, acc => acc
  | fuel + 1, n, acc =>
      if n < 10 then digitChar n :: acc
      else decimalFrom fuel (n / 10) (digitChar (n % 10) :: acc)

/-- The decimal representation of a natural number. -/
def decimal (n : Nat) : List Char := decimalFrom (n + 1) n []

/-- Modelled from the documentation of Go `strconv.FormatFloat(v, 'f', 2, 64)`: sign,
integer part, point and exactly two fraction digits, rounded to nearest with ties to
even. -/
def strconvFormatFloat2 (v : ℚ) : String :=
  let n := roundHalfEven (|v| * 100)
  String.mk ((if v < 0 then ['-'] else []) ++ decimal (n / 100) ++
    ['.', digitChar (n % 100 / 10), digitChar (n % 10)])

/-- Go conversion `int(x)` / `int64(x)` of a `float64`: truncation toward zero. -/
def truncate (x : ℚ) : ℤ := Int.tdiv x.num (x.den : ℤ)

/-! ## package parser: tokens and numbers -/

/-- Go `parseFloat`. -/
def parseFloat (value : String) : ℚ :=
  let val := TrimSpace value
  if val = "" then 0
  else
    match strconvParseFloat val with
    | none => 0
    | some f => f

/-- Go `floatToString`. -/
def floatToString (value : ℚ) : String :=
  strconvFormatFloat2 value

/-- Go `roundToTwoDecimalPlaces`. -/
def roundToTwoDecimalPlaces (value : ℚ) : ℚ :=
  let factor : ℚ := 100
  (truncate (value * factor + 1 / 2) : ℚ) / factor

/-- The `switch t` of `zipResults`: the field a metric name is stored under. -/
def metricField (t : String) : Option String :=
  if t = "RuPowerAvg(W)" then some "pmConsumedEnergy"
  else if t = "ConnNoMax(count)" then some "UEMax"
  else if t = "AirMacULByte(Kbytes)" then some "AirMacULKB"
  else if t = "AirMacDLByte(Kbytes)" then some "AirMacDLKB"
  else if t = "EnDc_AddAtt(count)" then some "EnDc_AddAtt"
  else if t = "EnDc_AddSucc(count)" then some "EnDc_AddSucc"
  else if t = "TotPrbDLAvg(%)" then some "PRBDownLinkAverage"
  else if t = "TotPrbULAvg(%)" then some "PRBUpLinkAverage"
  else if t = "ConnEstabAtt(count)" then some "ConnEstabAtt"
  else if t = "ConnEstabSucc(count)" then some "ConnEstabSucc"
  else if t = "ConnReEstabAtt(count)" then some "ConnReEstabAtt"
  else if t = "ConnReEstabSucc(count)" then some "ConnReEstabSucc"
  else none

/-- The loop `for i, t := range types` of `zipResults`, from index `i` on. -/
def zipLoop (values : List String) : List String → Nat → GoMap String → GoMap String
  | [], _, m => m
  | t :: ts, i, m =>
      let val := if i < values.length then values.getD i "" else ""
      match metricField t with
      | some f => zipLoop values ts (i + 1) (m.assign f val)
      | none => zipLoop values ts (i + 1) m

/-- Go `zipResults`. -/
def zipResults (typesStr resultsStr : String) : GoMap String :=
  let types := Fields typesStr
  let values := Fields resultsStr
  zipLoop values types 0 []

/-! ## package parser: the streamed XML and `ProcessXML` -/

/-- The `xmlparser.XMLElement` of the streaming XML library: the fields `ProcessXML`
reads. -/
inductive XMLElement where
  | mk (Name : String) (Attrs : List (String × String)) (InnerText : String)
      (Childs : List (String × List XMLElement)) (Err : Option String)

namespace XMLElement

/-- Field `Name`. -/
def Name : XMLElement → String
  | mk n _ _ _ _ => n

/-- Field `Attrs`. -/
def Attrs : XMLElement → GoMap String
  | mk _ a _ _ _ => a

/-- Field `InnerText`. -/
def InnerText : XMLElement → String
  | mk _ _ t _ _ => t

/-- Field `Childs`. -/
def Childs : XMLElement → GoMap (List XMLElement)
  | mk _ _ _ c _ => c

/-- Field `Err`. -/
def Err : XMLElement → Option String
  | mk _ _ _ _ e => e

end XMLElement

/-- Go `parser.MeasInfo`. -/
structure MeasInfo where
  MontypeName : String
  Values : List (GoMap String)

/-- The part of `config.Config` read by the parser: `cfg.Logging.CollectionPeriod`. -/
structure Logging where
  CollectionPeriod : ℤ

/-- Go `config.Config`. -/
structure Config where
  Logging : Logging

/-- The calls into Go's `time` package made by `ProcessXML`, as a parameter:
`Parse` is `time.Parse("2006-01-02T15:04:05.000-07:00", ·)`, and the three formats are
`t.Format("2006-01-02 15:04")`, `t.Format("200601021504")` and
`t.UTC().Format("2006-01-02T15:04:05.000Z")`. -/
structure TimeLib where
  Time : Type
  Parse : String → Except String Time
  FormatMinute : Time → String
  FormatCompact : Time → String
  FormatUTC : Time → String

/-- Go `firstOrEmpty`. -/
def firstOrEmpty (nodes : List XMLElement) : String :=
  match nodes with
  | [] => ""
  | n :: _ => n.InnerText

/-- The row loop shared by the POWER, MAXUE, MAC and PRB cases: one map per `measValue`,
with the object path stored under `"RU"`. -/
def plainRows (typeText : String) (mvs : List XMLElement) : List (GoMap String) :=
  mvs.map fun mv =>
    let objLdn := mv.Attrs.read "measObjLdn" ""
    let resText := firstOrEmpty (mv.Childs.read "measResults" [])
    let m := zipResults typeText resText
    m.assign "RU" objLdn

/-- The guard `if _, ok := tbl[key]; !ok { tbl[key] = make(map[string]float64) }`. -/
def ensureKey (tbl : GoMap (GoMap ℚ)) (key : String) : GoMap (GoMap ℚ) :=
  if (tbl.find key).isSome then tbl else tbl.assign key []

/-- The statement `tbl[key][k] += x`. -/
def addInto (tbl : GoMap (GoMap ℚ)) (key k : String) (x : ℚ) : GoMap (GoMap ℚ) :=
  let inner := tbl.read key []
  tbl.assign key (inner.assign k (inner.read k 0 + x))

/-- One iteration of the row loop of the EN-DC case, on the local map `aggregated`. -/
def endcRow (typeText : String) (aggregated : GoMap (GoMap ℚ)) (mv : XMLElement) :
    GoMap (GoMap ℚ) :=
  let objLdn := mv.Attrs.read "measObjLdn" ""
  let parts := SplitSlash objLdn
  if parts.length < 3 then aggregated
  else
    let prefixRu := Join (parts.take 3) "/"
    let resText := firstOrEmpty (mv.Childs.read "measResults" [])
    let m := zipResults typeText resText
    let aggregated := ensureKey aggregated prefixRu
    m.foldl (fun agg kv => addInto agg prefixRu kv.1 (parseFloat kv.2)) aggregated

/-- The body of `for prefix, vals := range aggregated`: the output row of one prefix. -/
def endcEntry (pfx : String) (vals : GoMap ℚ) : GoMap String :=
  vals.foldl (fun m kv => m.assign kv.1 (floatToString kv.2)) [("RU", pfx)]

/-- The `Values` of the `ENDC` block built by the EN-DC case. -/
def endcRows (typeText : String) (mvs : List XMLElement) : List (GoMap String) :=
  let aggregated := mvs.foldl (endcRow typeText) []
  aggregated.map fun e => endcEntry e.1 e.2

/-- One iteration of the row loop of the two RRC cases; `att` and `succ` are the counter
names of the case (`ConnEstabAtt`/`ConnEstabSucc` or `ConnReEstabAtt`/`ConnReEstabSucc`). -/
def rrcRow (typeText att succ : String) (rrcMap : GoMap (GoMap ℚ)) (mv : XMLElement) :
    GoMap (GoMap ℚ) :=
  let objLdn := mv.Attrs.read "measObjLdn" ""
  let parts := SplitSlash objLdn
  if parts.length < 3 then rrcMap
  else
    let subRU := parts.getD 1 "" ++ "/" ++ parts.getD 2 ""
    let resText := firstOrEmpty (mv.Childs.read "measResults" [])
    let m := zipResults typeText resText
    let rrcMap := ensureKey rrcMap subRU
    let rrcMap := addInto rrcMap subRU att (parseFloat (m.read att ""))
    addInto rrcMap subRU succ (parseFloat (m.read succ ""))

/-- The local variables of `ProcessXML` that the stream loop updates. -/
structure ParseState where
  EndTime : String
  ManagementElement : String
  parsed : List MeasInfo
  rrcMap : GoMap (GoMap ℚ)

/-- The body of `for node := range parser.Stream()`. -/
def processNode (st : ParseState) (node : XMLElement) : ParseState :=
  if node.Err.isSome then st
  else if node.Name = "measCollec" then
    match node.Attrs.find "endTime" with
    | some t => { st with EndTime := t }
    | none => st
  else if node.Name = "managedElement" then
    match node.Attrs.find "localDn" with
    | some t => { st with ManagementElement := t }
    | none => st
  else if node.Name = "measInfo" then
    let measInfoId := node.Attrs.read "measInfoId" ""
    let typeText := firstOrEmpty (node.Childs.read "measTypes" [])
    let mvs := node.Childs.read "measValue" []
    if measInfoId = "Resource Management/RU Power Consumption" then
      { st with parsed := st.parsed ++ [⟨"POWER", plainRows typeText mvs⟩] }
    else if measInfoId = "RRC/RRC Connection Number" then
      { st with parsed := st.parsed ++ [⟨"MAXUE", plainRows typeText mvs⟩] }
    else if measInfoId = "Packet Statistics/Air MAC Packet" then
      { st with parsed := st.parsed ++ [⟨"MAC", plainRows typeText mvs⟩] }
    else if measInfoId = "E-UTRA-NR Dual Connectivity/EN-DC Addition Information" then
      { st with parsed := st.parsed ++ [⟨"ENDC", endcRows typeText mvs⟩] }
    else if measInfoId = "RRU/Total PRB Usage" then
      { st with parsed := st.parsed ++ [⟨"PRB", plainRows typeText mvs⟩] }
    else if measInfoId = "RRC/RRC Connection Establishment" then
      { st with rrcMap := mvs.foldl (rrcRow typeText "ConnEstabAtt" "ConnEstabSucc") st.rrcMap }
    else if measInfoId = "RRC/RRC Connection Re-establishment" then
      { st with
        rrcMap := mvs.foldl (rrcRow typeText "ConnReEstabAtt" "ConnReEstabSucc") st.rrcMap }
    else st
  else st

/-- The body of `for key, v := range rrcMap`: the merged row of one sub-path. -/
def rrcEntry (key : String) (v : GoMap ℚ) : GoMap String :=
  let rrcEntry : GoMap String := []
  let rrcEntry := rrcEntry.assign "RU" ("/" ++ key)
  let rrcAttempt := v.read "ConnEstabAtt" 0 + v.read "ConnReEstabAtt" 0
  let rrcEntry := rrcEntry.assign "RRCATTEMPT" (floatToString rrcAttempt)
  let rate : ℚ :=
    if rrcAttempt > 0 then
      (v.read "ConnEstabSucc" 0 + v.read "ConnReEstabSucc" 0) / rrcAttempt * 100
    else 0
  rrcEntry.assign "RRCSUCCRATE" (floatToString rate)

/-- The state of `ProcessXML` before the first node. -/
def initialState : ParseState :=
  { EndTime := "", ManagementElement := "", parsed := [], rrcMap := [] }

/-- The list `parsedResult.MeasResult` at the end of the stream: the blocks in stream
order, followed by the merged `RRC` block. -/
def measResultOf (st : ParseState) : List MeasInfo :=
  st.parsed ++ [⟨"RRC", st.rrcMap.map fun e => rrcEntry e.1 e.2⟩]

/-- The body of `for _, measResult := range parsedResult.MeasResult`: the documents sent
for one block. -/
def emitBlock (cfg : Config) (store : Store)
    (managementElement measDate formattedEndTime formattedTimeStamp collectedDateTime : String)
    (measResult : MeasInfo) : List ElasticDocument :=
  let mType := measResult.MontypeName
  let emit := fun (ruParam field : String) (val : Result) =>
    emitDocs store ruParam managementElement measDate formattedEndTime formattedTimeStamp
      collectedDateTime mType field val
  if mType = "POWER" then
    measResult.Values.flatMap fun value =>
      let ruParam := managementElement ++ value.read "RU" ""
      let pm := roundToTwoDecimalPlaces (parseFloat (value.read "pmConsumedEnergy" ""))
      emit ruParam "pmConsumedEnergy" (.float pm)
  else if mType = "MAXUE" ∧ cfg.Logging.CollectionPeriod ≠ 60 then
    measResult.Values.flatMap fun value =>
      let ruParam := managementElement ++ value.read "RU" ""
      emit ruParam "UEMax" (.int (truncate (parseFloat (value.read "UEMax" ""))))
  else if mType = "MAC" ∧ cfg.Logging.CollectionPeriod ≠ 60 then
    measResult.Values.flatMap fun value =>
      let ruParam := managementElement ++ value.read "RU" ""
      let ul := roundToTwoDecimalPlaces (parseFloat (value.read "AirMacULKB" "") / 1024)
      let dl := roundToTwoDecimalPlaces (parseFloat (value.read "AirMacDLKB" "") / 1024)
      emit ruParam "MACUL" (.float ul) ++ emit ruParam "MACDL" (.float dl)
  else if mType = "ENDC" ∧ cfg.Logging.CollectionPeriod ≠ 60 then
    measResult.Values.flatMap fun value =>
      let ruParam := managementElement ++ value.read "RU" ""
      let att := parseFloat (value.read "EnDc_AddAtt" "")
      let succ := parseFloat (value.read "EnDc_AddSucc" "")
      let rate : ℚ := if att > 0 then (succ / att) * 100 else 0
      emit ruParam "ENDCATTEMPT" (.int (truncate att)) ++
        emit ruParam "ENDCSUCCRATE" (.float (roundToTwoDecimalPlaces rate))
  else if mType = "PRB" ∧ cfg.Logging.CollectionPeriod ≠ 60 then
    measResult.Values.flatMap fun value =>
      let ruParam := managementElement ++ value.read "RU" ""
      let dl := roundToTwoDecimalPlaces (parseFloat (value.read "PRBDownLinkAverage" ""))
      let ul := roundToTwoDecimalPlaces (parseFloat (value.read "PRBUpLinkAverage" ""))
      emit ruParam "PRBDL" (.float dl) ++ emit ruParam "PRBUL" (.float ul)
  else if mType = "RRC" ∧ cfg.Logging.CollectionPeriod ≠ 60 then
    measResult.Values.flatMap fun value =>
      let ruParam := managementElement ++ value.read "RU" ""
      let attempt := truncate (parseFloat (value.read "RRCATTEMPT" ""))
      let rate := roundToTwoDecimalPlaces (parseFloat (value.read "RRCSUCCRATE" ""))
      emit ruParam "RRCATTEMPT" (.int attempt) ++ emit ruParam "RRCSUCCRATE" (.float rate)
  else []

/-- Go `ProcessXML`: the documents sent on `docChan`, in order.  `file` is the outcome of
`os.Open` followed by the node stream of the XML parser; `collectedDateTime` is
`time.Now().Format("2006-01-02 15:04")`. -/
def ProcessXML (tl : TimeLib) (collectedDateTime : String) (cfg : Config) (store : Store)
    (file : Except String (List XMLElement)) : List ElasticDocument :=
  match file with
  | .error _ => []
  | .ok nodes =>
      let st := nodes.foldl processNode initialState
      let measResult := measResultOf st
      match tl.Parse st.EndTime with
      | .error _ => []
      | .ok parsedEndTime =>
          let formattedEndTime := tl.FormatMinute parsedEndTime
          let measDate := tl.FormatCompact parsedEndTime
          let formattedTimeStamp := tl.FormatUTC parsedEndTime
          measResult.flatMap
            (emitBlock cfg store st.ManagementElement measDate formattedEndTime
              formattedTimeStamp collectedDateTime)

/-! ## Vocabulary of the statements -/

/-- The object path of a row: `mv.Attrs["measObjLdn"]`. -/
def objLdnOf (mv : XMLElement) : String :=
  mv.Attrs.read "measObjLdn" ""

/-- The result text of a row: `firstOrEmpty(mv.Childs["measResults"])`. -/
def resTextOf (mv : XMLElement) : String :=
  firstOrEmpty (mv.Childs.read "measResults" [])

/-- The first three `/`-separated segments of an object path, joined by `/`; `none` when
the path has fewer than three segments. -/
def prefixRuOf (objLdn : String) : Option String :=
  if (SplitSlash objLdn).length < 3 then none
  else some (Join ((SplitSlash objLdn).take 3) "/")

/-- The sub-path `parts[1] + "/" + parts[2]` of an object path; `none` when the path has
fewer than three segments. -/
def subRUOf (objLdn : String) : Option String :=
  if (SplitSlash objLdn).length < 3 then none
  else some ((SplitSlash objLdn).getD 1 "" ++ "/" ++ (SplitSlash objLdn).getD 2 "")

/-- The counter `name` of a row: the number read from the value paired with `name` (the
empty string, read as `0`, when the name is absent). -/
def rowCounter (typeText name : String) (mv : XMLElement) : ℚ :=
  parseFloat ((zipResults typeText (resTextOf mv)).read name "")

/-- The sum over the rows with the given prefix of the counter `name`. -/
def endcSum (typeText name pfx : String) (mvs : List XMLElement) : ℚ :=
  ((mvs.filter fun mv => prefixRuOf (objLdnOf mv) = some pfx).map
    (rowCounter typeText name)).sum

/-- The metric-name text of a block: `firstOrEmpty(node.Childs["measTypes"])`. -/
def typeTextOf (node : XMLElement) : String :=
  firstOrEmpty (node.Childs.read "measTypes" [])

/-- The rows of a block: `node.Childs["measValue"]`. -/
def rowsOf (node : XMLElement) : List XMLElement :=
  node.Childs.read "measValue" []

/-- A streamed node that is a well-formed `measInfo` block of the family `id`. -/
def isMeasInfo (id : String) (node : XMLElement) : Bool :=
  node.Err.isNone && (node.Name == "measInfo" && node.Attrs.read "measInfoId" "" == id)

/-- The sum over the rows of a block with the given sub-path of the counter `name`. -/
def rrcRowsSum (typeText name sub : String) (mvs : List XMLElement) : ℚ :=
  ((mvs.filter fun mv => subRUOf (objLdnOf mv) = some sub).map (rowCounter typeText name)).sum

/-- The sum over the blocks of family `id` of a file, and over their rows with the given
sub-path, of the counter `name`. -/
def rrcSum (id name sub : String) (nodes : List XMLElement) : ℚ :=
  ((nodes.filter (isMeasInfo id)).map fun node =>
    rrcRowsSum (typeTextOf node) name sub (rowsOf node)).sum

/-! ## A reference instance of the `time` calls -/

/-- A parsed time: the wall-clock fields as written and the zone offset in seconds. -/
structure CivilTime where
  year : Nat
  month : Nat
  day : Nat
  hour : Nat
  minute : Nat
  second : Nat
  millis : Nat
  offset : ℤ
  deriving DecidableEq

/-- Two decimal digits. -/
def pad2 (n : Nat) : List Char := [digitChar (n / 10 % 10), digitChar (n % 10)]

/-- Three decimal digits. -/
def pad3 (n : Nat) : List Char := digitChar (n / 100 % 10) :: pad2 n

/-- Four decimal digits. -/
def pad4 (n : Nat) : List Char := digitChar (n / 1000 % 10) :: pad3 n

/-- The number written by a list of digit characters, if they are all digits. -/
def digitsNumber (cs : List Char) : Option Nat :=
  if cs.all Char.isDigit then some (cs.foldl (fun n c => 10 * n + digitValue c) 0) else none

/-- The number of days of a month of the Gregorian calendar. -/
def daysIn (year month : Nat) : Nat :=
  if month = 2 then
    if year % 4 = 0 ∧ (year % 100 ≠ 0 ∨ year % 400 = 0) then 29 else 28
  else if month = 4 ∨ month = 6 ∨ month = 9 ∨ month = 11 then 30
  else 31

/-- Days since 1970-01-01 of a civil date. -/
def daysFromCivil (y m d : ℤ) : ℤ :=
  let y := if m ≤ 2 then y - 1 else y
  let era := y / 400
  let yoe := y - era * 400
  let doy := (153 * (if m > 2 then m - 3 else m + 9) + 2) / 5 + d - 1
  let doe := yoe * 365 + yoe / 4 - yoe / 100 + doy
  era * 146097 + doe - 719468

/-- The civil date of a number of days since 1970-01-01. -/
def civilFromDays (z : ℤ) : ℤ × ℤ × ℤ :=
  let z := z + 719468
  let era := z / 146097
  let doe := z - era * 146097
  let yoe := (doe - doe / 1460 + doe / 36524 - doe / 146096) / 365
  let doy := doe - (365 * yoe + yoe / 4 - yoe / 100)
  let mp := (5 * doy + 2) / 153
  let d := doy - (153 * mp + 2) / 5 + 1
  let m := if mp < 10 then mp + 3 else mp - 9
  let y := yoe + era * 400
  (if m ≤ 2 then y + 1 else y, m, d)

/-- Reads a time written exactly in the form `2006-01-02T15:04:05.000-07:00`. -/
def parseLayout (cs : List Char) : Except String CivilTime :=
  match cs with
  | [y1, y2, y3, y4, '-', m1, m2, '-', d1, d2, 'T', h1, h2, ':', n1, n2, ':', s1, s2, '.',
      f1, f2, f3, sg, z1, z2, ':', z3, z4] =>
      match digitsNumber [y1, y2, y3, y4], digitsNumber [m1, m2], digitsNumber [d1, d2],
        digitsNumber [h1, h2], digitsNumber [n1, n2], digitsNumber [s1, s2],
        digitsNumber [f1, f2, f3], digitsNumber [z1, z2], digitsNumber [z3, z4] with
      | some y, some m, some d, some h, some n, some sec, some f, some zh, some zm =>
          if (sg = '+' ∨ sg = '-') ∧ 1 ≤ m ∧ m ≤ 12 ∧ 1 ≤ d ∧ d ≤ daysIn y m ∧ h < 24 ∧
              n < 60 ∧ sec < 60 ∧ zm < 60 then
            let off : ℤ := (zh : ℤ) * 3600 + (zm : ℤ) * 60
            .ok { year := y, month := m, day := d, hour := h, minute := n, second := sec,
                  millis := f, offset := if sg = '-' then -off else off }
          else .error "out of range"
      | _, _, _, _, _, _, _, _, _ => .error "cannot parse"
  | _ => .error "cannot parse"

/-- The same instant with its wall-clock fields in UTC. -/
def CivilTime.UTC (t : CivilTime) : CivilTime :=
  let secs : ℤ := daysFromCivil t.year t.month t.day * 86400 + t.hour * 3600 +
    t.minute * 60 + t.second - t.offset
  let days := secs / 86400
  let rem := (secs % 86400).toNat
  let ymd := civilFromDays days
  { year := ymd.1.toNat, month := ymd.2.1.toNat, day := ymd.2.2.toNat,
    hour := rem / 3600, minute := rem % 3600 / 60, second := rem % 60,
    millis := t.millis, offset := 0 }

/-- Modelled from the documentation of Go's `time` package, which is not part of the
repository: a reference instance of `TimeLib`, for times written in the fixed-width form of
the layout with all fields in range. -/
def goTime : TimeLib where
  Time := CivilTime
  Parse := fun s => parseLayout s.data
  FormatMinute := fun t =>
    String.mk (pad4 t.year ++ '-' :: pad2 t.month ++ '-' :: pad2 t.day ++ ' ' ::
      pad2 t.hour ++ ':' :: pad2 t.minute)
  FormatCompact := fun t =>
    String.mk (pad4 t.year ++ pad2 t.month ++ pad2 t.day ++ pad2 t.hour ++ pad2 t.minute)
  FormatUTC := fun t =>
    let u := t.UTC
    String.mk (pad4 u.year ++ '-' :: pad2 u.month ++ '-' :: pad2 u.day ++ 'T' ::
      pad2 u.hour ++ ':' :: pad2 u.minute ++ ':' :: pad2 u.second ++ '.' :: pad3 u.millis ++
      ['Z'])

/-! ## package main: admission of a detected file -/

/-- One turn of the `select` of `waitStable`: the ticker fired, with the outcome of
`os.Stat(name)` (an error, or the size in bytes) and the clock read in that turn, in
milliseconds; or the timer of `time.After(20 * time.Second)` fired. -/
inductive SelectEvent where
  | tick (stat : Except String ℕ) (now : ℤ)
  | timeout

/-- The value returned by `waitStable`: `nil`, the error of `os.Stat`, or the
stabilisation-timeout error. -/
inductive WaitResult where
  | stable
  | statError (err : String)
  | timedOut
  deriving DecidableEq

/-- The loop `for { select { ... } }` of `waitStable` over the turns taken, from the state
`prevSize`, `stableStart` (`none` is the zero time).  The result is `none` when no turn
among those given returns. -/
def waitStableFrom (stableDur : ℤ) : List SelectEvent → ℤ → Option ℤ → Option WaitResult
  | [], _, _ => none
  | .timeout :: _, _, _ => some .timedOut
  | .tick (.error err) _ :: _, _, _ => some (.statError err)
  | .tick (.ok cur) now :: rest, prevSize, stableStart =>
      if (cur : ℤ) = prevSize then
        match stableStart with
        | none => waitStableFrom stableDur rest prevSize (some now)
        | some start =>
            if now - start ≥ stableDur then some .stable
            else waitStableFrom stableDur rest prevSize stableStart
      else waitStableFrom stableDur rest cur none

/-- Go `waitStable(name, stableDur)`, with `stableDur` in milliseconds: the loop entered
with `prevSize = -1` and a zero `stableStart`. -/
def waitStable (stableDur : ℤ) (events : List SelectEvent) : Option WaitResult :=
  waitStableFrom stableDur events (-1) none

/-- What the goroutine started by `main` for one path has done. -/
inductive JobOutcome where
  | waiting
  | abandoned (err : WaitResult)
  | processed (docs : List ElasticDocument)

/-- The body of `go func(p string)` in `main`: `waitStable(p, 2*time.Second)`, then either
the early `return` or `parser.ProcessXML`. -/
def runJob (tl : TimeLib) (collectedDateTime : String) (cfg : Config) (store : Store)
    (events : List SelectEvent) (file : Except String (List XMLElement)) : JobOutcome :=
  match waitStable 2000 events with
  | none => .waiting
  | some .stable => .processed (ProcessXML tl collectedDateTime cfg store file)
  | some err => .abandoned err

/-- The turns in which the ticker fired and `os.Stat` gave the sizes listed, at the times
listed. -/
def ticksOf (polls : List (ℕ × ℤ)) : List SelectEvent :=
  polls.map fun p => .tick (.ok p.1) p.2

/-! ## The rounding convention of the spec -/

/-- Round to the nearest integer, ties away from zero. -/
def roundHalfAwayFromZero (x : ℚ) : ℤ :=
  if 0 ≤ x then ⌊x + 1 / 2⌋ else -⌊-x + 1 / 2⌋

/-- The rounding the spec prescribes for percentages and byte-derived averages:
round-half-away-from-zero on the value scaled by 100. -/
def roundHalfAwayTwoDecimals (v : ℚ) : ℚ :=
  (roundHalfAwayFromZero (v * 100) : ℚ) / 100

/-! ## Sample data -/

/-- A reference-store row with the columns `ems_name`, `du_id`, `ru_id`, `cell_id` and
`cell_num` set and the others NULL. -/
def sampleDAO (cellId cellNum : String) : RuMappingDAO :=
  { EMS_Id := ⟨"", false⟩, EMSName := ⟨"ems", true⟩, DUId := ⟨"du1", true⟩,
    RUId := ⟨"ru1", true⟩, DU_NAME := ⟨"", false⟩, RU_NAME := ⟨"", false⟩,
    CELL_ID := ⟨cellId, true⟩, CELL_NUM := ⟨cellNum, true⟩ }

/-- The mapping row loaded from `sampleDAO`. -/
def sampleMapping (cellId cellNum : String) : RuMapping :=
  { EMS_Id := none, EMSName := some "ems", DUId := some "du1", RUId := some "ru1",
    DU_NAME := none, RU_NAME := none, CELL_ID := some cellId, CELL_NUM := some cellNum }

/-- A mapping row with every column NULL. -/
def emptyMapping : RuMapping :=
  { EMS_Id := none, EMSName := none, DUId := none, RUId := none, DU_NAME := none,
    RU_NAME := none, CELL_ID := none, CELL_NUM := none }

/-- A snapshot with three rows under the key `"DU1/RU1"`. -/
def sampleStore : Store :=
  { ruMapping := [("DU1/RU1", [sampleMapping "c1" "1", sampleMapping "c2" "2", emptyMapping])] }

/-- A leaf element holding text. -/
def textNode (name text : String) : XMLElement :=
  .mk name [] text [] none

/-- A `measValue` row with its object path and its result tokens. -/
def measValue (objLdn results : String) : XMLElement :=
  .mk "measValue" [("measObjLdn", objLdn)] ""
    [("measResults", [textNode "measResults" results])] none

/-- A `measInfo` block with its family identifier, its metric names and its rows. -/
def measInfo (id types : String) (rows : List XMLElement) : XMLElement :=
  .mk "measInfo" [("measInfoId", id)] ""
    [("measTypes", [textNode "measTypes" types]), ("measValue", rows)] none

/-- A file of the element `DU1` with a Power, a PRB, an EN-DC and the two RRC blocks, and
the given envelope end-time. -/
def sampleNodes (endTime : String) : List XMLElement :=
  [ .mk "measCollec" [("endTime", endTime)] "" [] none,
    .mk "managedElement" [("localDn", "DU1")] "" [] none,
    measInfo "Resource Management/RU Power Consumption" "RuPowerAvg(W)"
      [measValue "/RU1" "12.5"],
    measInfo "RRU/Total PRB Usage" "TotPrbDLAvg(%) TotPrbULAvg(%)"
      [measValue "/RU2" "40.5 20.25"],
    measInfo "E-UTRA-NR Dual Connectivity/EN-DC Addition Information"
      "EnDc_AddAtt(count) EnDc_AddSucc(count)"
      [measValue "/a/b/1" "10 8", measValue "/a/b/2" "5 4"],
    measInfo "RRC/RRC Connection Establishment" "ConnEstabAtt(count) ConnEstabSucc(count)"
      [measValue "x/cell/1" "100 90"],
    measInfo "RRC/RRC Connection Re-establishment"
      "ConnReEstabAtt(count) ConnReEstabSucc(count)" [measValue "x/cell/1" "20 15"] ]

/-- The metric names of the sample EN-DC block. -/
def sampleEndcTypes : String := "EnDc_AddAtt(count) EnDc_AddSucc(count)"

/-- Two EN-DC rows sharing the prefix `/a/b`, with attempts 10 and 5 and successes 8 and 4. -/
def sampleEndcRows : List XMLElement :=
  [measValue "/a/b/1" "10 8", measValue "/a/b/2" "5 4"]

/-- A file of the element `DU1` with one establishment and one re-establishment block, each
with one row on the object path `x/cell/1` and the given result tokens. -/
def sampleRrcNodes (estResults reestResults : String) : List XMLElement :=
  [ .mk "measCollec" [("endTime", "2024-01-02T15:04:05.000+09:00")] "" [] none,
    .mk "managedElement" [("localDn", "DU1")] "" [] none,
    measInfo "RRC/RRC Connection Establishment" "ConnEstabAtt(count) ConnEstabSucc(count)"
      [measValue "x/cell/1" estResults],
    measInfo "RRC/RRC Connection Re-establishment"
      "ConnReEstabAtt(count) ConnReEstabSucc(count)" [measValue "x/cell/1" reestResults] ]

/-- A snapshot whose key `"DU1/RU1"` has two rows with the same `cell_num` and `ru_id` and
different `cell_id`. -/
def collidingStore : Store :=
  { ruMapping := [("DU1/RU1", [sampleMapping "c1" "1", sampleMapping "c2" "1"])] }

end LsmParser

/-! # Theorems -/

namespace LsmParser

/-! ## Go maps -/

namespace GoMap

variable {β : Type}

theorem find_assign_same (m : GoMap β) (k : String) (v : β) :
    (m.assign k v).find k = some v := by
  induction m with
  | nil => simp [assign, find]
  | cons hd tl ih =>
      obtain ⟨k', v'⟩ := hd
      by_cases h : k' = k
      · simp [assign, find, h]
      · simp [assign, find, h, ih]

theorem find_assign_other (m : GoMap β) (k k' : String) (v : β) (h : k' ≠ k) :
    (m.assign k v).find k' = m.find k' := by
  induction m with
  | nil =>
      have h' : ¬ k = k' := fun e => h e.symm
      simp [assign, find, h']
  | cons hd tl ih =>
      obtain ⟨k₁, v₁⟩ := hd
      by_cases h₁ : k₁ = k
      · subst h₁
        have h' : ¬ k₁ = k' := fun e => h e.symm
        simp [assign, find, h']
      · by_cases h₂ : k₁ = k'
        · subst h₂
          simp [assign, find, h]
        · simp [assign, find, h₁, h₂, ih]

theorem find_isSome_iff (m : GoMap β) (k : String) :
    (m.find k).isSome = true ↔ k ∈ m.keys := by
  induction m with
  | nil => simp [find, keys]
  | cons hd tl ih =>
      obtain ⟨k', v'⟩ := hd
      by_cases h : k' = k
      · simp [find, keys, h]
      · have h' : ¬ k = k' := fun e => h e.symm
        simp only [find, h, if_false, ih]
        simp [keys, h']

end GoMap

/-! ## The enrichment cache -/

/-- The rows of `R` with key `k`, converted as `Init` converts them. -/
theorem scanLoop_scanned (R : List (String × RuMappingDAO)) :
    ∀ temp : GoMap (List RuMapping),
      ∃ temp', scanLoop (R.map fun r => ScanResult.scanned r.1 r.2) temp = .ok temp' ∧
        ∀ k, temp'.find k =
          if (R.filter fun r => r.1 = k) = [] then temp.find k
          else some (temp.read k [] ++ (R.filter fun r => r.1 = k).map fun r => mappingOfDAO r.2) := by
  induction R with
  | nil => intro temp; exact ⟨temp, rfl, fun k => by simp⟩
  | cons hd tl ih =>
      intro temp
      obtain ⟨temp', h₁, h₂⟩ :=
        ih (temp.assign hd.1 (temp.read hd.1 [] ++ [mappingOfDAO hd.2]))
      refine ⟨temp', by simpa [scanLoop] using h₁, fun k => ?_⟩
      rw [h₂ k]
      by_cases hk : hd.1 = k
      · subst hk
        simp [GoMap.read, GoMap.find_assign_same]
      · have hk' : k ≠ hd.1 := fun e => hk e.symm
        have hf : (List.filter (fun r : String × RuMappingDAO => decide (r.1 = k)) (hd :: tl)) =
            List.filter (fun r : String × RuMappingDAO => decide (r.1 = k)) tl := by
          simp [List.filter_cons, hk]
        rw [hf]
        simp [GoMap.read, GoMap.find_assign_other _ _ _ _ hk']

theorem scanLoop_scanErr (items : List ScanResult) (e : String)
    (h : ScanResult.scanErr e ∈ items) :
    ∀ temp : GoMap (List RuMapping), ∃ e', scanLoop items temp = .error e' := by
  induction items with
  | nil => simp at h
  | cons hd tl ih =>
      intro temp
      cases hd with
      | scanErr e₁ => exact ⟨_, rfl⟩
      | scanned k d =>
          have h' : ScanResult.scanErr e ∈ tl := by simpa using h
          simpa [scanLoop] using ih h' _

theorem Update_eq_Init (s : Store) (db : QueryResult) : s.Update db = s.Init db := rfl

theorem Init_failure (s : Store) (db : QueryResult)
    (h : (∃ e, db = .error e) ∨
      ∃ rows, db = .ok rows ∧ ((∃ e, ScanResult.scanErr e ∈ rows.items) ∨ rows.err ≠ none)) :
    (s.Init db).2 ≠ none ∧ (s.Init db).1 = s := by
  rcases h with ⟨e, rfl⟩ | ⟨rows, rfl, h⟩
  · simp [Store.Init]
  · rcases h with ⟨e, he⟩ | herr
    · obtain ⟨e', he'⟩ := scanLoop_scanErr rows.items e he []
      simp [Store.Init, he']
    · cases hs : scanLoop rows.items [] with
      | error e' => simp [Store.Init, hs]
      | ok temp =>
          cases hr : rows.err with
          | none => exact absurd hr herr
          | some e' => simp [Store.Init, hs, hr]


/-! ## Identifier and index name -/

theorem emitDocs_map_bulkID (store : Store)
    (ruParam managementElement measDate endTime ts c₁ c₂ mType field : String)
    (v : Result) :
    (emitDocs store ruParam managementElement measDate endTime ts c₁ mType field v).map bulkID =
      (emitDocs store ruParam managementElement measDate endTime ts c₂ mType field v).map
        bulkID := by
  unfold emitDocs
  rcases (store.Get ruParam).2 with ⟨params, ok⟩
  cases ok <;> simp [bulkID, buildDoc]

theorem emitBlock_map_bulkID (cfg : Config) (store : Store)
    (managementElement measDate endTime ts c₁ c₂ : String) (mr : MeasInfo) :
    (emitBlock cfg store managementElement measDate endTime ts c₁ mr).map bulkID =
      (emitBlock cfg store managementElement measDate endTime ts c₂ mr).map bulkID := by
  unfold emitBlock
  simp only []
  split_ifs <;>
    simp only [List.map_flatMap, List.map_append, List.map_nil,
      emitDocs_map_bulkID store _ _ _ _ _ c₁ c₂]

theorem utf8Len_of_ascii (l : List Char) (h : ∀ c ∈ l, c.toNat < 128) :
    String.utf8Len l = l.length := by
  induction l with
  | nil => rfl
  | cons c cs ih =>
      have hc : c.utf8Size = 1 := by
        have h₁ : c.toNat < 128 := h c (List.mem_cons_self _ _)
        have h₂ : c.val.toNat < 128 := h₁
        simp only [Char.utf8Size]
        have h₃ : c.val ≤ 127 := by
          rw [UInt32.le_def]
          show c.val.toNat ≤ 127
          omega
        simp [h₃]
      rw [String.utf8Len_cons, ih fun c' hc' => h c' (List.mem_cons_of_mem _ hc'), hc]
      simp

/-! ## Families and gating -/

theorem emitDocs_montype (store : Store)
    (ruParam managementElement measDate endTime ts collected mType field : String)
    (val : Result) :
    ∀ d ∈ emitDocs store ruParam managementElement measDate endTime ts collected mType field val,
      d.MontypeName = some mType := by
  intro d hd
  unfold emitDocs at hd
  rcases hg : (store.Get ruParam).2 with ⟨params, ok⟩
  rw [hg] at hd
  cases ok
  · have hd' := List.mem_singleton.1 hd
    subst hd'
    rfl
  · obtain ⟨r, _, rfl⟩ := List.mem_map.1 hd
    rfl

theorem emitBlock_montype (cfg : Config) (store : Store)
    (managementElement measDate endTime ts collected : String) (mr : MeasInfo) :
    ∀ d ∈ emitBlock cfg store managementElement measDate endTime ts collected mr,
      d.MontypeName = some mr.MontypeName := by
  intro d hd
  unfold emitBlock at hd
  simp only [] at hd
  split_ifs at hd <;>
    simp only [List.mem_flatMap, List.mem_append, List.not_mem_nil] at hd
  all_goals
    obtain ⟨value, _, hv⟩ := hd
    first
      | exact emitDocs_montype _ _ _ _ _ _ _ _ _ _ d hv
      | exact hv.elim (emitDocs_montype _ _ _ _ _ _ _ _ _ _ d)
          (emitDocs_montype _ _ _ _ _ _ _ _ _ _ d)

theorem emitBlock_of_power (cfg cfg' : Config) (store : Store)
    (managementElement measDate endTime ts collected : String) (mr : MeasInfo)
    (h : mr.MontypeName = "POWER") :
    emitBlock cfg store managementElement measDate endTime ts collected mr =
      emitBlock cfg' store managementElement measDate endTime ts collected mr := by
  simp [emitBlock, h]

theorem emitBlock_of_period_60 (cfg : Config) (store : Store)
    (managementElement measDate endTime ts collected : String) (mr : MeasInfo)
    (hc : cfg.Logging.CollectionPeriod = 60) (h : mr.MontypeName ≠ "POWER") :
    emitBlock cfg store managementElement measDate endTime ts collected mr = [] := by
  simp [emitBlock, h, hc]

theorem filter_flatMap_eq {α β : Type} (l : List α) (f g : α → List β) (q : β → Bool)
    (h : ∀ a ∈ l, (f a).filter q = g a) : (l.flatMap f).filter q = l.flatMap g := by
  induction l with
  | nil => rfl
  | cons a as ih =>
      simp only [List.flatMap_cons, List.filter_append]
      rw [h a (List.mem_cons_self _ _), ih fun b hb => h b (List.mem_cons_of_mem _ hb)]

theorem ProcessXML_ok (tl : TimeLib) (collected : String) (cfg : Config) (store : Store)
    (nodes : List XMLElement) (t : tl.Time)
    (ht : tl.Parse (nodes.foldl processNode initialState).EndTime = .ok t) :
    ProcessXML tl collected cfg store (.ok nodes) =
      (measResultOf (nodes.foldl processNode initialState)).flatMap
        (emitBlock cfg store (nodes.foldl processNode initialState).ManagementElement
          (tl.FormatCompact t) (tl.FormatMinute t) (tl.FormatUTC t) collected) := by
  simp [ProcessXML, ht]

theorem ProcessXML_error (tl : TimeLib) (collected : String) (cfg : Config) (store : Store)
    (nodes : List XMLElement) (e : String)
    (ht : tl.Parse (nodes.foldl processNode initialState).EndTime = .error e) :
    ProcessXML tl collected cfg store (.ok nodes) = [] := by
  simp [ProcessXML, ht]

/-! ## Token pairing -/

theorem zipLoop_append (values : List String) (t : String) :
    ∀ (ts : List String) (i : Nat) (m : GoMap String),
      zipLoop values (ts ++ [t]) i m =
        match metricField t with
        | some f => (zipLoop values ts i m).assign f (values.getD (i + ts.length) "")
        | none => zipLoop values ts i m := by
  intro ts
  induction ts with
  | nil =>
      intro i m
      cases h : metricField t with
      | none => simp [zipLoop, h]
      | some f =>
          by_cases hi : i < values.length
          · simp [zipLoop, h, hi]
          · simp [zipLoop, h, hi, List.getElem?_eq_none (Nat.le_of_not_lt hi)]
  | cons t' ts ih =>
      intro i m
      have e : i + (t' :: ts).length = i + 1 + ts.length := by simp; omega
      cases h' : metricField t' with
      | none => simp only [List.cons_append, zipLoop, h', List.append_eq, ih, e]
      | some f' => simp only [List.cons_append, zipLoop, h', List.append_eq, ih, e]

theorem zipLoop_find_iff (values : List String) (f v : String) (ts : List String) :
    (zipLoop values ts 0 []).find f = some v ↔
      ∃ i, i < ts.length ∧ metricField (ts.getD i "") = some f ∧ v = values.getD i "" ∧
        ∀ j, i < j → j < ts.length → metricField (ts.getD j "") ≠ some f := by
  induction ts using List.reverseRecOn with
  | nil => simp [zipLoop, GoMap.find]
  | append_singleton ts t ih =>
      rw [zipLoop_append]
      have hget : ∀ j, j < ts.length → (ts ++ [t]).getD j "" = ts.getD j "" := by
        intro j hj
        simp [List.getD_eq_getElem?_getD, List.getElem?_append_left hj]
      have hlast : (ts ++ [t]).getD ts.length "" = t := by
        simp [List.getD_eq_getElem?_getD]
      by_cases hf : metricField t = some f
      · rw [hf]
        simp only [Nat.zero_add, GoMap.find_assign_same]
        constructor
        · intro h
          refine ⟨ts.length, by simp, by rw [hlast]; exact hf, by simpa using h.symm, ?_⟩
          intro j h₁ h₂
          simp at h₂
          omega
        · rintro ⟨i, hi, h₁, h₂, h₃⟩
          have hi' : i = ts.length := by
            by_contra hne
            have hlt : i < ts.length := by
              simp at hi
              omega
            exact h₃ ts.length hlt (by simp) (by rw [hlast]; exact hf)
          subst hi'
          rw [h₂]
      · have hstep : ((match metricField t with
              | some g => (zipLoop values ts 0 []).assign g (values.getD (0 + ts.length) "")
              | none => zipLoop values ts 0 []) : GoMap String).find f =
            (zipLoop values ts 0 []).find f := by
          cases hg : metricField t with
          | none => rfl
          | some g =>
              have hne : f ≠ g := fun e => hf (by rw [hg, e])
              simp only [GoMap.find_assign_other _ _ _ _ hne]
        rw [hstep, ih]
        constructor
        · rintro ⟨i, hi, h₁, h₂, h₃⟩
          refine ⟨i, by simp; omega, by rw [hget i hi]; exact h₁, h₂, ?_⟩
          intro j h₄ h₅
          by_cases hj : j < ts.length
          · rw [hget j hj]
            exact h₃ j h₄ hj
          · have hj' : j = ts.length := by
              simp at h₅
              omega
            rw [hj', hlast]
            exact hf
        · rintro ⟨i, hi, h₁, h₂, h₃⟩
          have hlt : i < ts.length := by
            by_contra hge
            have hi' : i = ts.length := by
              simp at hi
              omega
            rw [hi', hlast] at h₁
            exact hf h₁
          refine ⟨i, hlt, by rw [← hget i hlt]; exact h₁, h₂, ?_⟩
          intro j h₄ h₅
          rw [← hget j h₅]
          exact h₃ j h₄ (by simp; omega)

theorem exists_last_index (q : String → Prop) [DecidablePred q] (ts : List String) :
    (∃ t ∈ ts, q t) →
      ∃ i, i < ts.length ∧ q (ts.getD i "") ∧ ∀ j, i < j → j < ts.length → ¬ q (ts.getD j "") := by
  induction ts using List.reverseRecOn with
  | nil => simp
  | append_singleton ts t ih =>
      have hget : ∀ j, j < ts.length → (ts ++ [t]).getD j "" = ts.getD j "" := by
        intro j hj
        simp [List.getD_eq_getElem?_getD, List.getElem?_append_left hj]
      have hlast : (ts ++ [t]).getD ts.length "" = t := by
        simp [List.getD_eq_getElem?_getD]
      intro h
      by_cases hq : q t
      · refine ⟨ts.length, by simp, by rw [hlast]; exact hq, ?_⟩
        intro j h₁ h₂
        simp at h₂
        omega
      · have h' : ∃ t' ∈ ts, q t' := by
          obtain ⟨t', ht', hqt'⟩ := h
          rcases List.mem_append.1 ht' with h₁ | h₁
          · exact ⟨t', h₁, hqt'⟩
          · simp at h₁
            subst h₁
            exact absurd hqt' hq
        obtain ⟨i, hi, h₁, h₂⟩ := ih h'
        refine ⟨i, by simp; omega, by rw [hget i hi]; exact h₁, ?_⟩
        intro j h₃ h₄
        by_cases hj : j < ts.length
        · rw [hget j hj]
          exact h₂ j h₃ hj
        · have hj' : j = ts.length := by
            simp at h₄
            omega
          rw [hj', hlast]
          exact hq

theorem parseFloat_empty : parseFloat "" = 0 := by
  simp [parseFloat, TrimSpace]

theorem metricField_iff (t f : String) :
    metricField t = some f ↔
      (t, f) ∈ [("RuPowerAvg(W)", "pmConsumedEnergy"), ("ConnNoMax(count)", "UEMax"),
        ("AirMacULByte(Kbytes)", "AirMacULKB"), ("AirMacDLByte(Kbytes)", "AirMacDLKB"),
        ("EnDc_AddAtt(count)", "EnDc_AddAtt"), ("EnDc_AddSucc(count)", "EnDc_AddSucc"),
        ("TotPrbDLAvg(%)", "PRBDownLinkAverage"), ("TotPrbULAvg(%)", "PRBUpLinkAverage"),
        ("ConnEstabAtt(count)", "ConnEstabAtt"), ("ConnEstabSucc(count)", "ConnEstabSucc"),
        ("ConnReEstabAtt(count)", "ConnReEstabAtt"),
        ("ConnReEstabSucc(count)", "ConnReEstabSucc")] := by
  constructor
  · intro h
    unfold metricField at h
    by_cases h0 : t = "RuPowerAvg(W)"
    · rw [if_pos h0] at h
      cases h
      subst h0
      decide
    rw [if_neg h0] at h
    by_cases h1 : t = "ConnNoMax(count)"
    · rw [if_pos h1] at h
      cases h
      subst h1
      decide
    rw [if_neg h1] at h
    by_cases h2 : t = "AirMacULByte(Kbytes)"
    · rw [if_pos h2] at h
      cases h
      subst h2
      decide
    rw [if_neg h2] at h
    by_cases h3 : t = "AirMacDLByte(Kbytes)"
    · rw [if_pos h3] at h
      cases h
      subst h3
      decide
    rw [if_neg h3] at h
    by_cases h4 : t = "EnDc_AddAtt(count)"
    · rw [if_pos h4] at h
      cases h
      subst h4
      decide
    rw [if_neg h4] at h
    by_cases h5 : t = "EnDc_AddSucc(count)"
    · rw [if_pos h5] at h
      cases h
      subst h5
      decide
    rw [if_neg h5] at h
    by_cases h6 : t = "TotPrbDLAvg(%)"
    · rw [if_pos h6] at h
      cases h
      subst h6
      decide
    rw [if_neg h6] at h
    by_cases h7 : t = "TotPrbULAvg(%)"
    · rw [if_pos h7] at h
      cases h
      subst h7
      decide
    rw [if_neg h7] at h
    by_cases h8 : t = "ConnEstabAtt(count)"
    · rw [if_pos h8] at h
      cases h
      subst h8
      decide
    rw [if_neg h8] at h
    by_cases h9 : t = "ConnEstabSucc(count)"
    · rw [if_pos h9] at h
      cases h
      subst h9
      decide
    rw [if_neg h9] at h
    by_cases h10 : t = "ConnReEstabAtt(count)"
    · rw [if_pos h10] at h
      cases h
      subst h10
      decide
    rw [if_neg h10] at h
    by_cases h11 : t = "ConnReEstabSucc(count)"
    · rw [if_pos h11] at h
      cases h
      subst h11
      decide
    rw [if_neg h11] at h
    cases h
  · intro h
    simp only [List.mem_cons, Prod.mk.injEq, List.mem_singleton, List.not_mem_nil,
      or_false] at h
    rcases h with ⟨rfl, rfl⟩ | ⟨rfl, rfl⟩ | ⟨rfl, rfl⟩ | ⟨rfl, rfl⟩ | ⟨rfl, rfl⟩ |
      ⟨rfl, rfl⟩ | ⟨rfl, rfl⟩ | ⟨rfl, rfl⟩ | ⟨rfl, rfl⟩ | ⟨rfl, rfl⟩ | ⟨rfl, rfl⟩ |
      ⟨rfl, rfl⟩ <;> rfl

/-! ## Numbers and their text -/

theorem digitChar_props (d : Nat) (h : d < 10) :
    (digitChar d).isDigit = true ∧ digitChar d ≠ '.' ∧ digitValue (digitChar d) = d ∧
      isSpace (digitChar d) = false ∧ digitChar d ≠ '+' ∧ digitChar d ≠ '-' := by
  interval_cases d <;> decide

theorem decimalFrom_spec :
    ∀ (fuel n : Nat) (acc : List Char), n < fuel →
      ∃ ds : List Char, decimalFrom fuel n acc = ds ++ acc ∧ ds ≠ [] ∧
        (∀ c ∈ ds, c.isDigit = true ∧ c ≠ '.' ∧ isSpace c = false ∧ c ≠ '+' ∧ c ≠ '-') ∧
        ∀ m, ds.foldl (fun x c => 10 * x + digitValue c) m = m * 10 ^ ds.length + n := by
  intro fuel
  induction fuel with
  | zero => intro n acc h; omega
  | succ fuel ih =>
      intro n acc h
      by_cases h10 : n < 10
      · have hp := digitChar_props n h10
        refine ⟨[digitChar n], by simp [decimalFrom, h10], by simp, ?_, ?_⟩
        · intro c hc
          simp only [List.mem_singleton] at hc
          subst hc
          exact ⟨hp.1, hp.2.1, hp.2.2.2.1, hp.2.2.2.2.1, hp.2.2.2.2.2⟩
        · intro m
          simp [hp.2.2.1]
          omega
      · have hlt : n / 10 < fuel := by omega
        have hp := digitChar_props (n % 10) (Nat.mod_lt _ (by decide))
        obtain ⟨ds, h₁, h₂, h₃, h₄⟩ := ih (n / 10) (digitChar (n % 10) :: acc) hlt
        refine ⟨ds ++ [digitChar (n % 10)], by simp [decimalFrom, h10, h₁], by simp, ?_, ?_⟩
        · intro c hc
          rcases List.mem_append.1 hc with hc | hc
          · exact h₃ c hc
          · simp only [List.mem_singleton] at hc
            subst hc
            exact ⟨hp.1, hp.2.1, hp.2.2.2.1, hp.2.2.2.2.1, hp.2.2.2.2.2⟩
        · intro m
          rw [List.foldl_append, h₄ m]
          simp only [List.foldl_cons, List.foldl_nil, hp.2.2.1, List.length_append,
            List.length_singleton, pow_succ]
          have := Nat.div_add_mod n 10
          nlinarith [this]

theorem readMantissa_digits (ds : List Char)
    (hds : ∀ c ∈ ds, c.isDigit = true ∧ c ≠ '.') :
    ∀ (rest : List Char) (m : Nat) (dot : Bool) (fd : Nat) (sd : Bool),
      readMantissa (ds ++ rest) m dot fd sd =
        readMantissa rest (ds.foldl (fun x c => 10 * x + digitValue c) m) dot
          (if dot then fd + ds.length else fd) (sd || !ds.isEmpty) := by
  induction ds with
  | nil => intro rest m dot fd sd; cases dot <;> simp
  | cons c cs ih =>
      intro rest m dot fd sd
      have hc := hds c (List.mem_cons_self _ _)
      rw [List.cons_append, readMantissa, if_neg hc.2, if_pos hc.1,
        ih (fun c' h' => hds c' (List.mem_cons_of_mem _ h'))]
      cases dot <;> simp [Nat.add_assoc, Nat.add_comm 1]

theorem dropWhile_isSpace_cons (c : Char) (cs : List Char) (h : isSpace c = false) :
    (c :: cs).dropWhile isSpace = c :: cs := by
  simp [List.dropWhile, h]

theorem truncate_eq_floor (x : ℚ) (h : 0 ≤ x) : truncate x = ⌊x⌋ := by
  unfold truncate
  rw [Rat.floor_def, Int.tdiv_eq_ediv (Rat.num_nonneg.2 h) (Int.ofNat_nonneg _)]

theorem truncate_natCast (n : ℕ) : truncate (n : ℚ) = n := by
  rw [truncate_eq_floor _ (Nat.cast_nonneg n)]
  exact_mod_cast Int.floor_natCast (α := ℚ) n

/-- The text `[-] digits . d₁ d₂` reads back as the number it writes. -/
theorem parseFloat_fixed2 (neg : Bool) (a d₁ d₂ : Nat) (h₁ : d₁ < 10) (h₂ : d₂ < 10) :
    parseFloat (String.mk ((if neg then ['-'] else []) ++ decimal a ++
        ['.', digitChar d₁, digitChar d₂])) =
      (if neg then -1 else 1) * (((100 * a + 10 * d₁ + d₂ : ℕ) : ℚ) / 100) := by
  obtain ⟨ds, hds, hne, hall, hval⟩ := decimalFrom_spec (a + 1) a [] (Nat.lt_succ_self a)
  have hdec : decimal a = ds := by simpa [decimal] using hds
  obtain ⟨c, cs, rfl⟩ := List.exists_cons_of_ne_nil hne
  have hc := hall c (List.mem_cons_self _ _)
  have p₁ := digitChar_props d₁ h₁
  have p₂ := digitChar_props d₂ h₂
  have hdigits : ∀ x ∈ c :: cs, x.isDigit = true ∧ x ≠ '.' := fun x hx =>
    ⟨(hall x hx).1, (hall x hx).2.1⟩
  have hread : readUnsigned ((c :: cs) ++ ['.', digitChar d₁, digitChar d₂]) =
      some (((100 * a + 10 * d₁ + d₂ : ℕ) : ℚ) / 100) := by
    unfold readUnsigned
    rw [readMantissa_digits (c :: cs) hdigits, hval 0]
    simp only [Nat.zero_mul, Nat.zero_add, Bool.false_eq_true, if_false, Bool.false_or,
      List.isEmpty_cons, Bool.not_false]
    rw [readMantissa, if_pos rfl]
    simp only [Bool.false_eq_true, if_false]
    rw [readMantissa, if_neg p₁.2.1, if_pos p₁.1, readMantissa, if_neg p₂.2.1, if_pos p₂.1,
      readMantissa]
    simp only [if_true, readExponent, Option.map_some', p₁.2.2.1, p₂.2.2.1]
    congr 1
    have e : ((0 : ℤ) - ((0 + 1 + 1 : ℕ) : ℤ)) = -2 := by norm_num
    rw [e, zpow_neg]
    push_cast
    ring
  have htrim : ∀ l : List Char, (∀ x, l.head? = some x → isSpace x = false) →
      TrimSpace (String.mk (l ++ ['.', digitChar d₁, digitChar d₂])) =
        String.mk (l ++ ['.', digitChar d₁, digitChar d₂]) := by
    intro l hl
    have h₀ : (l ++ ['.', digitChar d₁, digitChar d₂]).dropWhile isSpace =
        l ++ ['.', digitChar d₁, digitChar d₂] := by
      cases l with
      | nil => exact dropWhile_isSpace_cons _ _ (by decide)
      | cons x xs => exact dropWhile_isSpace_cons _ _ (hl x rfl)
    have h₃ : (l ++ ['.', digitChar d₁, digitChar d₂]).reverse =
        digitChar d₂ :: (digitChar d₁ :: '.' :: l.reverse) := by simp
    simp only [TrimSpace, h₀, h₃, dropWhile_isSpace_cons _ _ p₂.2.2.2.1]
    rw [← h₃, List.reverse_reverse]
  cases neg with
  | false =>
      simp only [Bool.false_eq_true, if_false, List.nil_append, one_mul]
      unfold parseFloat
      simp only [hdec]
      rw [htrim (c :: cs) (fun x hx => by
        simp only [List.head?_cons, Option.some.injEq] at hx
        subst hx
        exact hc.2.2.1)]
      have hne' : String.mk ((c :: cs) ++ ['.', digitChar d₁, digitChar d₂]) ≠ "" := by
        intro h
        have := congrArg String.data h
        simp at this
      rw [if_neg hne']
      have hs : strconvParseFloat (String.mk ((c :: cs) ++ ['.', digitChar d₁, digitChar d₂])) =
          readUnsigned ((c :: cs) ++ ['.', digitChar d₁, digitChar d₂]) := by
        unfold strconvParseFloat
        split
        · next cs' heq =>
            simp only [List.cons_append, List.cons.injEq] at heq
            exact absurd heq.1 hc.2.2.2.1
        · next cs' heq =>
            simp only [List.cons_append, List.cons.injEq] at heq
            exact absurd heq.1 hc.2.2.2.2
        · rfl
      rw [hs, hread]
  | true =>
      simp only [if_true, neg_one_mul]
      unfold parseFloat
      simp only [hdec]
      have happ : ['-'] ++ (c :: cs) ++ ['.', digitChar d₁, digitChar d₂] =
          ('-' :: c :: cs) ++ ['.', digitChar d₁, digitChar d₂] := by simp
      rw [happ, htrim ('-' :: c :: cs) (fun x hx => by
        simp only [List.head?_cons, Option.some.injEq] at hx
        subst hx
        decide)]
      have hne' : String.mk (('-' :: c :: cs) ++ ['.', digitChar d₁, digitChar d₂]) ≠ "" := by
        intro h
        have := congrArg String.data h
        simp at this
      rw [if_neg hne']
      have hs : strconvParseFloat
          (String.mk (('-' :: c :: cs) ++ ['.', digitChar d₁, digitChar d₂])) =
          (readUnsigned ((c :: cs) ++ ['.', digitChar d₁, digitChar d₂])).map fun q => -q := by
        unfold strconvParseFloat
        rfl
      rw [hs, hread]
      rfl

theorem parseFloat_floatToString (q : ℚ) :
    parseFloat (floatToString q) =
      (if q < 0 then -1 else 1) * ((roundHalfEven (|q| * 100) : ℚ) / 100) := by
  have h := parseFloat_fixed2 (decide (q < 0)) (roundHalfEven (|q| * 100) / 100)
    (roundHalfEven (|q| * 100) % 100 / 10) (roundHalfEven (|q| * 100) % 10)
    (by omega) (by omega)
  have e : 100 * (roundHalfEven (|q| * 100) / 100) + 10 * (roundHalfEven (|q| * 100) % 100 / 10)
      + roundHalfEven (|q| * 100) % 10 = roundHalfEven (|q| * 100) := by omega
  rw [e] at h
  simpa [floatToString, strconvFormatFloat2] using h

theorem roundHalfEven_natCast (n : ℕ) : roundHalfEven (n : ℚ) = n := by
  simp [roundHalfEven, Nat.mod_one]

theorem parseFloat_floatToString_natCast (n : ℕ) :
    parseFloat (floatToString (n : ℚ)) = n := by
  rw [parseFloat_floatToString]
  have h₁ : ¬ ((n : ℚ) < 0) := not_lt.2 (Nat.cast_nonneg n)
  have h₂ : |(n : ℚ)| * 100 = ((n * 100 : ℕ) : ℚ) := by
    rw [abs_of_nonneg (Nat.cast_nonneg n)]
    push_cast
    ring
  rw [if_neg h₁, h₂, roundHalfEven_natCast]
  push_cast
  ring

theorem roundHalfEven_near (x : ℚ) (h : 0 ≤ x) : |(roundHalfEven x : ℚ) - x| ≤ 1 / 2 := by
  have hd : (0 : ℚ) < x.den := by exact_mod_cast x.den_pos
  have hnum : ((x.num.toNat : ℕ) : ℤ) = x.num := Int.toNat_of_nonneg (Rat.num_nonneg.2 h)
  have hx : x = (x.num.toNat : ℚ) / x.den := by
    have h₁ : ((x.num.toNat : ℕ) : ℚ) = (x.num : ℚ) := by exact_mod_cast hnum
    rw [h₁]
    exact (Rat.num_div_den x).symm
  have hdm := Nat.div_add_mod x.num.toNat x.den
  have hlt : x.num.toNat % x.den < x.den := Nat.mod_lt _ x.den_pos
  have hsplit : x = (x.num.toNat / x.den : ℕ) + ((x.num.toNat % x.den : ℕ) : ℚ) / x.den := by
    have h₂ : ((x.num.toNat : ℕ) : ℚ) =
        (x.den : ℚ) * ((x.num.toNat / x.den : ℕ) : ℚ) + ((x.num.toNat % x.den : ℕ) : ℚ) := by
      exact_mod_cast hdm.symm
    conv_lhs => rw [hx, h₂]
    field_simp
    ring
  have hr0 : (0 : ℚ) ≤ ((x.num.toNat % x.den : ℕ) : ℚ) / x.den :=
    div_nonneg (Nat.cast_nonneg _) hd.le
  unfold roundHalfEven
  simp only []
  split_ifs with c₁ c₂ c₃
  · have hc : ((x.num.toNat % x.den : ℕ) : ℚ) / x.den ≤ 1 / 2 := by
      rw [div_le_iff₀ hd]
      have : (2 : ℚ) * ((x.num.toNat % x.den : ℕ) : ℚ) < x.den := by exact_mod_cast c₁
      linarith
    rw [abs_le]
    constructor <;> linarith
  · have hc : 1 / 2 ≤ ((x.num.toNat % x.den : ℕ) : ℚ) / x.den := by
      rw [le_div_iff₀ hd]
      have : (x.den : ℚ) < 2 * ((x.num.toNat % x.den : ℕ) : ℚ) := by exact_mod_cast c₂
      linarith
    have hc' : ((x.num.toNat % x.den : ℕ) : ℚ) / x.den ≤ 1 := by
      rw [div_le_one hd]
      exact_mod_cast hlt.le
    rw [abs_le]
    push_cast
    constructor <;> linarith
  · have hc : ((x.num.toNat % x.den : ℕ) : ℚ) / x.den ≤ 1 / 2 := by
      rw [div_le_iff₀ hd]
      have : (2 : ℚ) * ((x.num.toNat % x.den : ℕ) : ℚ) ≤ x.den := by
        exact_mod_cast Nat.le_of_not_lt c₂
      linarith
    rw [abs_le]
    constructor <;> linarith
  · have hc : 1 / 2 ≤ ((x.num.toNat % x.den : ℕ) : ℚ) / x.den := by
      rw [le_div_iff₀ hd]
      have : (x.den : ℚ) ≤ 2 * ((x.num.toNat % x.den : ℕ) : ℚ) := by
        exact_mod_cast Nat.le_of_not_lt c₁
      linarith
    have hc' : ((x.num.toNat % x.den : ℕ) : ℚ) / x.den ≤ 1 := by
      rw [div_le_one hd]
      exact_mod_cast hlt.le
    rw [abs_le]
    push_cast
    constructor <;> linarith

theorem roundToTwoDecimalPlaces_near (x : ℚ) (h : 0 ≤ x) :
    |roundToTwoDecimalPlaces x - x| ≤ 1 / 200 ∧
      ∃ z : ℤ, roundToTwoDecimalPlaces x = z / 100 := by
  unfold roundToTwoDecimalPlaces
  simp only []
  refine ⟨?_, ⟨_, rfl⟩⟩
  rw [truncate_eq_floor _ (by positivity)]
  have h₁ := Int.floor_le (x * 100 + 1 / 2)
  have h₂ := Int.lt_floor_add_one (x * 100 + 1 / 2)
  rw [abs_le]
  constructor <;> linarith

theorem roundToTwoDecimalPlaces_hundredth (z : ℕ) :
    roundToTwoDecimalPlaces ((z : ℚ) / 100) = (z : ℚ) / 100 := by
  unfold roundToTwoDecimalPlaces
  simp only []
  rw [truncate_eq_floor _ (by positivity)]
  have h : ⌊(z : ℚ) / 100 * 100 + 1 / 2⌋ = (z : ℤ) := by
    rw [Int.floor_eq_iff]
    constructor
    · push_cast
      linarith
    · push_cast
      linarith
  rw [h]
  push_cast
  ring

/-! ## Side tables -/

namespace GoMap

variable {β : Type}

theorem keys_assign (m : GoMap β) (k : String) (v : β) :
    (m.assign k v).keys = if k ∈ m.keys then m.keys else m.keys ++ [k] := by
  induction m with
  | nil => simp [assign, keys]
  | cons hd tl ih =>
      obtain ⟨k', v'⟩ := hd
      by_cases h : k' = k
      · subst h
        simp [assign, keys]
      · have h' : ¬ k = k' := fun e => h e.symm
        have ih' : List.map Prod.fst (assign tl k v) =
            if k ∈ List.map Prod.fst tl then List.map Prod.fst tl
            else List.map Prod.fst tl ++ [k] := ih
        simp only [assign, if_neg h, keys, List.map_cons, List.mem_cons, h', false_or, ih']
        split_ifs <;> simp

theorem nodup_keys_assign (m : GoMap β) (k : String) (v : β) (h : m.keys.Nodup) :
    (m.assign k v).keys.Nodup := by
  rw [keys_assign]
  split_ifs with hk
  · exact h
  · exact List.Nodup.append h (List.nodup_singleton k) (by simpa using hk)

theorem read_assign (m : GoMap β) (k k' : String) (v z : β) :
    (m.assign k v).read k' z = if k' = k then v else m.read k' z := by
  unfold read
  split_ifs with h
  · subst h
    rw [find_assign_same]
    rfl
  · rw [find_assign_other _ _ _ _ h]

theorem find_eq_none_iff (m : GoMap β) (k : String) : m.find k = none ↔ k ∉ m.keys := by
  rw [← find_isSome_iff]
  cases m.find k <;> simp

theorem find_of_mem (m : GoMap β) (h : m.keys.Nodup) (e : String × β) (he : e ∈ m) :
    m.find e.1 = some e.2 := by
  induction m with
  | nil => simp at he
  | cons hd tl ih =>
      obtain ⟨k', v'⟩ := hd
      have hn : k' ∉ keys tl ∧ (keys tl).Nodup := by simpa [keys] using h
      rcases List.mem_cons.1 he with rfl | he'
      · simp [find]
      · have hk : k' ≠ e.1 := by
          intro heq
          apply hn.1
          rw [heq]
          exact List.mem_map_of_mem Prod.fst he'
        simp only [find, if_neg hk]
        exact ih hn.2 he'

theorem filter_key (m : GoMap β) (h : m.keys.Nodup) (k : String) (v : β)
    (hf : m.find k = some v) : m.filter (fun e => e.1 = k) = [(k, v)] := by
  induction m with
  | nil => simp [find] at hf
  | cons hd tl ih =>
      obtain ⟨k', v'⟩ := hd
      have hn : k' ∉ keys tl ∧ (keys tl).Nodup := by simpa [keys] using h
      by_cases hk : k' = k
      · subst hk
        have hv : v' = v := by simpa [find] using hf
        subst hv
        have htl : tl.filter (fun e => e.1 = k') = [] := by
          rw [List.filter_eq_nil_iff]
          intro e he heq
          apply hn.1
          have : e.1 = k' := by simpa using heq
          rw [← this]
          exact List.mem_map_of_mem Prod.fst he
        simp [List.filter_cons, htl]
      · have hf' : find tl k = some v := by simpa [find, hk] using hf
        simp [List.filter_cons, hk, ih hn.2 hf']

theorem foldl_assign_find {γ : Type} (g : γ → β) (inner : GoMap γ) (h : inner.keys.Nodup) :
    ∀ (init : GoMap β) (k : String),
      (inner.foldl (fun m kv => m.assign kv.1 (g kv.2)) init).find k =
        match inner.find k with
        | some v => some (g v)
        | none => init.find k := by
  induction inner with
  | nil => intro init k; rfl
  | cons hd tl ih =>
      intro init k
      obtain ⟨k', v'⟩ := hd
      have hn : k' ∉ keys tl ∧ (keys tl).Nodup := by simpa [keys] using h
      rw [List.foldl_cons, ih hn.2]
      by_cases hk : k' = k
      · subst hk
        have hnone : find tl k' = none := (find_eq_none_iff tl k').2 hn.1
        simp [find, hnone, find_assign_same]
      · have hk' : k ≠ k' := fun e => hk e.symm
        simp only [find, if_neg hk, find_assign_other _ _ _ _ hk']

end GoMap

theorem read_ensureKey (tbl : GoMap (GoMap ℚ)) (key q : String) :
    (ensureKey tbl key).read q [] = tbl.read q [] := by
  unfold ensureKey
  split_ifs with h
  · rfl
  · rw [GoMap.read_assign]
    split_ifs with hq
    · subst hq
      have hnone : tbl.find q = none := by
        cases hf : tbl.find q with
        | none => rfl
        | some v => simp [hf] at h
      simp [GoMap.read, hnone]
    · rfl

theorem keys_ensureKey (tbl : GoMap (GoMap ℚ)) (key : String) :
    (ensureKey tbl key).keys = if key ∈ tbl.keys then tbl.keys else tbl.keys ++ [key] := by
  unfold ensureKey
  by_cases h : key ∈ tbl.keys
  · rw [if_pos ((GoMap.find_isSome_iff tbl key).2 h), if_pos h]
  · have h' : ¬ (tbl.find key).isSome = true := fun hs => h ((GoMap.find_isSome_iff tbl key).1 hs)
    rw [if_neg h', if_neg h, GoMap.keys_assign, if_neg h]

theorem read_addInto (tbl : GoMap (GoMap ℚ)) (key k q : String) (x : ℚ) :
    (addInto tbl key k x).read q [] =
      if q = key then (tbl.read key []).assign k ((tbl.read key []).read k 0 + x)
      else tbl.read q [] := by
  unfold addInto
  simp only [GoMap.read_assign]

theorem keys_addInto (tbl : GoMap (GoMap ℚ)) (key k : String) (x : ℚ) :
    (addInto tbl key k x).keys = if key ∈ tbl.keys then tbl.keys else tbl.keys ++ [key] := by
  unfold addInto
  simp only [GoMap.keys_assign]

theorem zipLoop_nodup (values : List String) :
    ∀ (ts : List String) (i : Nat) (m : GoMap String),
      m.keys.Nodup → (zipLoop values ts i m).keys.Nodup := by
  intro ts
  induction ts with
  | nil => intro i m h; exact h
  | cons t ts ih =>
      intro i m h
      cases hf : metricField t with
      | none => simpa [zipLoop, hf] using ih (i + 1) m h
      | some f =>
          simpa [zipLoop, hf] using ih (i + 1) _ (GoMap.nodup_keys_assign m f _ h)

theorem zipResults_nodup (typesStr resultsStr : String) :
    (zipResults typesStr resultsStr).keys.Nodup :=
  zipLoop_nodup _ _ 0 [] List.nodup_nil

theorem zipResults_key_ne_RU (typesStr resultsStr : String) :
    ∀ kv ∈ zipResults typesStr resultsStr, kv.1 ≠ "RU" := by
  intro kv hkv hRU
  have hmem : kv.1 ∈ (zipResults typesStr resultsStr).keys := List.mem_map_of_mem Prod.fst hkv
  obtain ⟨v, hv⟩ := Option.isSome_iff_exists.1 ((GoMap.find_isSome_iff _ _).2 hmem)
  obtain ⟨i, _, h₁, _, _⟩ := (zipLoop_find_iff _ kv.1 v _).1 hv
  have hd := (metricField_iff _ _).1 h₁
  rw [hRU] at hd
  simp only [List.mem_cons, Prod.mk.injEq, List.mem_singleton, List.not_mem_nil,
    or_false] at hd
  rcases hd with ⟨_, h⟩ | ⟨_, h⟩ | ⟨_, h⟩ | ⟨_, h⟩ | ⟨_, h⟩ | ⟨_, h⟩ | ⟨_, h⟩ | ⟨_, h⟩ |
    ⟨_, h⟩ | ⟨_, h⟩ | ⟨_, h⟩ | ⟨_, h⟩ <;> exact absurd h (by decide)

theorem read_addAll_other (p q : String) (hq : q ≠ p) :
    ∀ (m : GoMap String) (agg : GoMap (GoMap ℚ)),
      (m.foldl (fun agg kv => addInto agg p kv.1 (parseFloat kv.2)) agg).read q [] =
        agg.read q [] := by
  intro m
  induction m with
  | nil => intro agg; rfl
  | cons hd tl ih =>
      intro agg
      rw [List.foldl_cons, ih, read_addInto, if_neg hq]

theorem keys_addAll (p : String) :
    ∀ (m : GoMap String) (agg : GoMap (GoMap ℚ)), p ∈ agg.keys →
      (m.foldl (fun agg kv => addInto agg p kv.1 (parseFloat kv.2)) agg).keys = agg.keys := by
  intro m
  induction m with
  | nil => intro agg _; rfl
  | cons hd tl ih =>
      intro agg h
      have hk : (addInto agg p hd.1 (parseFloat hd.2)).keys = agg.keys := by
        rw [keys_addInto, if_pos h]
      rw [List.foldl_cons, ih _ (by rw [hk]; exact h), hk]

theorem read_addAll_same (p k : String) :
    ∀ (m : GoMap String), m.keys.Nodup → ∀ (agg : GoMap (GoMap ℚ)),
      ((m.foldl (fun agg kv => addInto agg p kv.1 (parseFloat kv.2)) agg).read p []).read k 0 =
        (agg.read p []).read k 0 + parseFloat (m.read k "") := by
  intro m
  induction m with
  | nil =>
      intro _ agg
      simp [GoMap.read, GoMap.find, parseFloat_empty]
  | cons hd tl ih =>
      intro h agg
      obtain ⟨k', v'⟩ := hd
      have hn : k' ∉ GoMap.keys tl ∧ (GoMap.keys tl).Nodup := by simpa [GoMap.keys] using h
      rw [List.foldl_cons, ih hn.2, read_addInto, if_pos rfl, GoMap.read_assign]
      by_cases hk : k' = k
      · subst hk
        have hnone : GoMap.find tl k' = none := (GoMap.find_eq_none_iff tl k').2 hn.1
        simp [GoMap.read, GoMap.find, hnone, parseFloat_empty]
      · have hk' : ¬ k = k' := fun e => hk e.symm
        simp [GoMap.read, GoMap.find, hk, hk']

theorem inner_addAll (p : String) :
    ∀ (m : GoMap String), (∀ kv ∈ m, kv.1 ≠ "RU") → ∀ (agg : GoMap (GoMap ℚ)),
      ((agg.read p []).keys.Nodup ∧ "RU" ∉ (agg.read p []).keys) →
      ((m.foldl (fun agg kv => addInto agg p kv.1 (parseFloat kv.2)) agg).read p []).keys.Nodup ∧
        "RU" ∉ ((m.foldl (fun agg kv => addInto agg p kv.1 (parseFloat kv.2)) agg).read p []).keys := by
  intro m
  induction m with
  | nil => intro _ agg h; exact h
  | cons hd tl ih =>
      intro hm agg h
      rw [List.foldl_cons]
      apply ih (fun kv hkv => hm kv (List.mem_cons_of_mem _ hkv))
      rw [read_addInto, if_pos rfl]
      refine ⟨GoMap.nodup_keys_assign _ _ _ h.1, ?_⟩
      rw [GoMap.keys_assign]
      have hne : "RU" ≠ hd.1 := fun e => hm hd (List.mem_cons_self _ _) e.symm
      split_ifs
      · exact h.2
      · simp [h.2, hne]

theorem endcRow_eq (typeText : String) (agg : GoMap (GoMap ℚ)) (mv : XMLElement) :
    endcRow typeText agg mv =
      match prefixRuOf (objLdnOf mv) with
      | none => agg
      | some p =>
          (zipResults typeText (resTextOf mv)).foldl
            (fun agg kv => addInto agg p kv.1 (parseFloat kv.2)) (ensureKey agg p) := by
  unfold endcRow prefixRuOf objLdnOf resTextOf
  simp only []
  split_ifs <;> rfl

theorem endcRow_read (typeText : String) (agg : GoMap (GoMap ℚ)) (mv : XMLElement)
    (p k : String) :
    ((endcRow typeText agg mv).read p []).read k 0 =
      (agg.read p []).read k 0 +
        if prefixRuOf (objLdnOf mv) = some p then rowCounter typeText k mv else 0 := by
  rw [endcRow_eq]
  cases hpre : prefixRuOf (objLdnOf mv) with
  | none => simp
  | some q =>
      by_cases hq : q = p
      · subst hq
        simp only [if_true]
        rw [read_addAll_same q k _ (zipResults_nodup _ _), read_ensureKey]
        rfl
      · have hq' : p ≠ q := fun e => hq e.symm
        have hne : ¬ (some q = some p) := fun e => hq (Option.some.inj e)
        simp only [if_neg hne, add_zero]
        rw [read_addAll_other q p hq', read_ensureKey]

theorem endcRow_keys (typeText : String) (agg : GoMap (GoMap ℚ)) (mv : XMLElement) :
    (endcRow typeText agg mv).keys =
      match prefixRuOf (objLdnOf mv) with
      | none => agg.keys
      | some p => if p ∈ agg.keys then agg.keys else agg.keys ++ [p] := by
  rw [endcRow_eq]
  cases hpre : prefixRuOf (objLdnOf mv) with
  | none => rfl
  | some q =>
      simp only []
      rw [keys_addAll q _ _ (by rw [keys_ensureKey]; split_ifs with h <;> simp [h]),
        keys_ensureKey]

theorem endcRow_inner (typeText : String) (agg : GoMap (GoMap ℚ)) (mv : XMLElement)
    (h : ∀ q, (agg.read q []).keys.Nodup ∧ "RU" ∉ (agg.read q []).keys) :
    ∀ q, ((endcRow typeText agg mv).read q []).keys.Nodup ∧
      "RU" ∉ ((endcRow typeText agg mv).read q []).keys := by
  intro q
  rw [endcRow_eq]
  cases hpre : prefixRuOf (objLdnOf mv) with
  | none => exact h q
  | some p =>
      simp only []
      by_cases hq : q = p
      · subst hq
        apply inner_addAll q _ (zipResults_key_ne_RU _ _)
        rw [read_ensureKey]
        exact h q
      · rw [read_addAll_other p q hq, read_ensureKey]
        exact h q

theorem endcSum_cons (typeText name pfx : String) (mv : XMLElement) (mvs : List XMLElement) :
    endcSum typeText name pfx (mv :: mvs) =
      (if prefixRuOf (objLdnOf mv) = some pfx then rowCounter typeText name mv else 0) +
        endcSum typeText name pfx mvs := by
  unfold endcSum
  by_cases h : prefixRuOf (objLdnOf mv) = some pfx
  · simp [List.filter_cons, h]
  · simp [List.filter_cons, h]

theorem endc_fold_read (typeText : String) (p k : String) :
    ∀ (mvs : List XMLElement) (agg : GoMap (GoMap ℚ)),
      ((mvs.foldl (endcRow typeText) agg).read p []).read k 0 =
        (agg.read p []).read k 0 + endcSum typeText k p mvs := by
  intro mvs
  induction mvs with
  | nil => intro agg; simp [endcSum]
  | cons mv rest ih =>
      intro agg
      rw [List.foldl_cons, ih, endcRow_read, endcSum_cons, add_assoc]

theorem endc_fold_keys (typeText : String) :
    ∀ (mvs : List XMLElement) (agg : GoMap (GoMap ℚ)), agg.keys.Nodup →
      (mvs.foldl (endcRow typeText) agg).keys.Nodup ∧
      ∀ p, p ∈ (mvs.foldl (endcRow typeText) agg).keys ↔
        p ∈ agg.keys ∨ ∃ mv ∈ mvs, prefixRuOf (objLdnOf mv) = some p := by
  intro mvs
  induction mvs with
  | nil => intro agg h; exact ⟨h, fun p => by simp⟩
  | cons mv rest ih =>
      intro agg h
      have hk := endcRow_keys typeText agg mv
      have hnd : (endcRow typeText agg mv).keys.Nodup := by
        rw [hk]
        cases prefixRuOf (objLdnOf mv) with
        | none => exact h
        | some q =>
            simp only []
            split_ifs with hq
            · exact h
            · exact List.Nodup.append h (List.nodup_singleton q) (by simpa using hq)
      obtain ⟨h₁, h₂⟩ := ih (endcRow typeText agg mv) hnd
      refine ⟨h₁, fun p => ?_⟩
      rw [List.foldl_cons, h₂ p, hk]
      cases hpre : prefixRuOf (objLdnOf mv) with
      | none => simp [hpre]
      | some q =>
          simp only [List.mem_cons, exists_eq_or_imp, hpre, Option.some.injEq]
          split_ifs with hq
          · constructor
            · rintro (h | h)
              · exact Or.inl h
              · exact Or.inr (Or.inr h)
            · rintro (h | h | h)
              · exact Or.inl h
              · exact Or.inl (h ▸ hq)
              · exact Or.inr h
          · simp only [List.mem_append, List.mem_singleton]
            constructor
            · rintro ((h | h) | h)
              · exact Or.inl h
              · exact Or.inr (Or.inl h.symm)
              · exact Or.inr (Or.inr h)
            · rintro (h | h | h)
              · exact Or.inl (Or.inl h)
              · exact Or.inl (Or.inr h.symm)
              · exact Or.inr h

theorem endc_fold_inner (typeText : String) :
    ∀ (mvs : List XMLElement) (agg : GoMap (GoMap ℚ)),
      (∀ q, (agg.read q []).keys.Nodup ∧ "RU" ∉ (agg.read q []).keys) →
      ∀ q, ((mvs.foldl (endcRow typeText) agg).read q []).keys.Nodup ∧
        "RU" ∉ ((mvs.foldl (endcRow typeText) agg).read q []).keys := by
  intro mvs
  induction mvs with
  | nil => intro agg h; exact h
  | cons mv rest ih =>
      intro agg h
      rw [List.foldl_cons]
      exact ih _ (endcRow_inner typeText agg mv h)

theorem endcEntry_find_RU (pfx : String) (vals : GoMap ℚ) (h : vals.keys.Nodup)
    (hRU : "RU" ∉ vals.keys) : (endcEntry pfx vals).find "RU" = some pfx := by
  unfold endcEntry
  rw [GoMap.foldl_assign_find floatToString vals h, (GoMap.find_eq_none_iff vals "RU").2 hRU]
  simp [GoMap.find]

theorem endcEntry_find (pfx : String) (vals : GoMap ℚ) (h : vals.keys.Nodup) (k : String)
    (hk : k ≠ "RU") : (endcEntry pfx vals).find k = (vals.find k).map floatToString := by
  unfold endcEntry
  rw [GoMap.foldl_assign_find floatToString vals h]
  have hk' : ¬ "RU" = k := fun e => hk e.symm
  cases vals.find k <;> simp [GoMap.find, hk']

theorem sum_natCast_of_forall {α : Type} (f : α → ℚ) (l : List α)
    (h : ∀ a ∈ l, ∃ n : ℕ, f a = n) : ∃ n : ℕ, (l.map f).sum = n := by
  induction l with
  | nil => exact ⟨0, by simp⟩
  | cons a as ih =>
      obtain ⟨n, hn⟩ := h a (List.mem_cons_self _ _)
      obtain ⟨m, hm⟩ := ih fun b hb => h b (List.mem_cons_of_mem _ hb)
      exact ⟨n + m, by simp [hn, hm]⟩

/-! ## The RRC side table -/

theorem fold_keys_of_step {X : Type} (step : GoMap (GoMap ℚ) → X → GoMap (GoMap ℚ))
    (key : X → Option String)
    (hstep : ∀ tbl x, (step tbl x).keys =
      match key x with
      | none => tbl.keys
      | some p => if p ∈ tbl.keys then tbl.keys else tbl.keys ++ [p]) :
    ∀ (xs : List X) (tbl : GoMap (GoMap ℚ)), tbl.keys.Nodup →
      (xs.foldl step tbl).keys.Nodup ∧
      ∀ p, p ∈ (xs.foldl step tbl).keys ↔ p ∈ tbl.keys ∨ ∃ x ∈ xs, key x = some p := by
  intro xs
  induction xs with
  | nil => intro tbl h; exact ⟨h, fun p => by simp⟩
  | cons x rest ih =>
      intro tbl h
      have hk := hstep tbl x
      have hnd : (step tbl x).keys.Nodup := by
        rw [hk]
        cases key x with
        | none => exact h
        | some q =>
            simp only []
            split_ifs with hq
            · exact h
            · exact List.Nodup.append h (List.nodup_singleton q) (by simpa using hq)
      obtain ⟨h₁, h₂⟩ := ih (step tbl x) hnd
      refine ⟨h₁, fun p => ?_⟩
      rw [List.foldl_cons, h₂ p, hk]
      cases hpre : key x with
      | none => simp [hpre]
      | some q =>
          simp only [List.mem_cons, exists_eq_or_imp, hpre, Option.some.injEq]
          split_ifs with hq
          · constructor
            · rintro (h | h)
              · exact Or.inl h
              · exact Or.inr (Or.inr h)
            · rintro (h | h | h)
              · exact Or.inl h
              · exact Or.inl (h ▸ hq)
              · exact Or.inr h
          · simp only [List.mem_append, List.mem_singleton]
            constructor
            · rintro ((h | h) | h)
              · exact Or.inl h
              · exact Or.inr (Or.inl h.symm)
              · exact Or.inr (Or.inr h)
            · rintro (h | h | h)
              · exact Or.inl (Or.inl h)
              · exact Or.inl (Or.inr h.symm)
              · exact Or.inr h

theorem rrcRow_eq (typeText att succ : String) (rrcMap : GoMap (GoMap ℚ)) (mv : XMLElement) :
    rrcRow typeText att succ rrcMap mv =
      match subRUOf (objLdnOf mv) with
      | none => rrcMap
      | some s =>
          addInto (addInto (ensureKey rrcMap s) s att (rowCounter typeText att mv)) s succ
            (rowCounter typeText succ mv) := by
  unfold rrcRow subRUOf objLdnOf rowCounter resTextOf
  simp only []
  split_ifs <;> rfl

theorem rrcRow_keys (typeText att succ : String) (rrcMap : GoMap (GoMap ℚ)) (mv : XMLElement) :
    (rrcRow typeText att succ rrcMap mv).keys =
      match subRUOf (objLdnOf mv) with
      | none => rrcMap.keys
      | some p => if p ∈ rrcMap.keys then rrcMap.keys else rrcMap.keys ++ [p] := by
  rw [rrcRow_eq]
  cases subRUOf (objLdnOf mv) with
  | none => rfl
  | some s =>
      simp only []
      have h₁ : s ∈ (ensureKey rrcMap s).keys := by
        rw [keys_ensureKey]
        split_ifs with h <;> simp [h]
      have h₂ : (addInto (ensureKey rrcMap s) s att (rowCounter typeText att mv)).keys =
          (ensureKey rrcMap s).keys := by
        rw [keys_addInto, if_pos h₁]
      rw [keys_addInto, h₂, if_pos h₁, keys_ensureKey]

theorem rrcRow_read (typeText att succ : String) (rrcMap : GoMap (GoMap ℚ)) (mv : XMLElement)
    (sub k : String) :
    ((rrcRow typeText att succ rrcMap mv).read sub []).read k 0 =
      (rrcMap.read sub []).read k 0 +
        if subRUOf (objLdnOf mv) = some sub then
          (if k = att then rowCounter typeText att mv else 0) +
            (if k = succ then rowCounter typeText succ mv else 0)
        else 0 := by
  rw [rrcRow_eq]
  cases hs : subRUOf (objLdnOf mv) with
  | none => simp
  | some s =>
      by_cases hq : s = sub
      · subst hq
        simp only [if_true, read_addInto, read_ensureKey, GoMap.read_assign]
        by_cases h₁ : k = succ <;> by_cases h₂ : k = att
        · subst h₁
          subst h₂
          simp only [if_true]
          ring
        · subst h₁
          have h₃ : ¬ k = att := h₂
          simp only [if_true, if_neg h₃]
          ring
        · subst h₂
          simp only [if_true, if_neg h₁]
          ring
        · simp only [if_neg h₁, if_neg h₂]
          ring
      · have hq' : ¬ sub = s := fun e => hq e.symm
        have hne : ¬ (some s = some sub) := fun e => hq (Option.some.inj e)
        simp only [read_addInto, if_neg hq', read_ensureKey, if_neg hne, add_zero]

theorem rrcRowsSum_cons (typeText name sub : String) (mv : XMLElement)
    (mvs : List XMLElement) :
    rrcRowsSum typeText name sub (mv :: mvs) =
      (if subRUOf (objLdnOf mv) = some sub then rowCounter typeText name mv else 0) +
        rrcRowsSum typeText name sub mvs := by
  unfold rrcRowsSum
  by_cases h : subRUOf (objLdnOf mv) = some sub
  · simp [List.filter_cons, h]
  · simp [List.filter_cons, h]

theorem rrc_rows_read (typeText att succ sub k : String) :
    ∀ (mvs : List XMLElement) (rrcMap : GoMap (GoMap ℚ)),
      ((mvs.foldl (rrcRow typeText att succ) rrcMap).read sub []).read k 0 =
        (rrcMap.read sub []).read k 0 +
          ((if k = att then rrcRowsSum typeText att sub mvs else 0) +
            (if k = succ then rrcRowsSum typeText succ sub mvs else 0)) := by
  intro mvs
  induction mvs with
  | nil => intro rrcMap; simp [rrcRowsSum]
  | cons mv rest ih =>
      intro rrcMap
      rw [List.foldl_cons, ih, rrcRow_read, rrcRowsSum_cons, rrcRowsSum_cons]
      by_cases hs : subRUOf (objLdnOf mv) = some sub
      · simp only [if_pos hs]
        split_ifs <;> ring
      · simp only [if_neg hs]
        split_ifs <;> ring

theorem processNode_rrcMap (st : ParseState) (node : XMLElement) :
    (processNode st node).rrcMap =
      if isMeasInfo "RRC/RRC Connection Establishment" node then
        (rowsOf node).foldl (rrcRow (typeTextOf node) "ConnEstabAtt" "ConnEstabSucc") st.rrcMap
      else if isMeasInfo "RRC/RRC Connection Re-establishment" node then
        (rowsOf node).foldl (rrcRow (typeTextOf node) "ConnReEstabAtt" "ConnReEstabSucc")
          st.rrcMap
      else st.rrcMap := by
  unfold processNode isMeasInfo typeTextOf rowsOf
  by_cases herr : node.Err.isSome = true
  · have hnone : node.Err.isNone = false := by
      cases h : node.Err with
      | none => simp [h] at herr
      | some e => rfl
    simp [herr, hnone]
  · have hnone : node.Err.isNone = true := by
      cases h : node.Err with
      | none => rfl
      | some e => simp [h] at herr
    rw [if_neg herr]
    by_cases h₁ : node.Name = "measCollec"
    · rw [if_pos h₁]
      have hn : ¬ node.Name = "measInfo" := by rw [h₁]; decide
      cases node.Attrs.find "endTime" <;> simp [hn]
    · rw [if_neg h₁]
      by_cases h₂ : node.Name = "managedElement"
      · rw [if_pos h₂]
        have hn : ¬ node.Name = "measInfo" := by rw [h₂]; decide
        cases node.Attrs.find "localDn" <;> simp [hn]
      · rw [if_neg h₂]
        by_cases h₃ : node.Name = "measInfo"
        · rw [if_pos h₃]
          simp only [hnone, h₃, beq_self_eq_true, Bool.true_and, beq_iff_eq]
          split_ifs <;> simp_all
        · simp [h₃]

theorem isMeasInfo_id (a b : String) (node : XMLElement) (ha : isMeasInfo a node = true)
    (hb : isMeasInfo b node = true) : a = b := by
  simp only [isMeasInfo, Bool.and_eq_true, beq_iff_eq] at ha hb
  rw [← ha.2.2, ← hb.2.2]

theorem rrcSum_cons (id name sub : String) (node : XMLElement) (nodes : List XMLElement) :
    rrcSum id name sub (node :: nodes) =
      (if isMeasInfo id node then rrcRowsSum (typeTextOf node) name sub (rowsOf node) else 0) +
        rrcSum id name sub nodes := by
  unfold rrcSum
  by_cases h : isMeasInfo id node = true
  · simp [List.filter_cons, h]
  · simp [List.filter_cons, h]

theorem rrc_stream_read (id k sub : String)
    (hstep : ∀ st node,
      ((processNode st node).rrcMap.read sub []).read k 0 =
        (st.rrcMap.read sub []).read k 0 +
          if isMeasInfo id node then rrcRowsSum (typeTextOf node) k sub (rowsOf node) else 0) :
    ∀ (nodes : List XMLElement) (st : ParseState),
      ((nodes.foldl processNode st).rrcMap.read sub []).read k 0 =
        (st.rrcMap.read sub []).read k 0 + rrcSum id k sub nodes := by
  intro nodes
  induction nodes with
  | nil => intro st; simp [rrcSum]
  | cons node rest ih =>
      intro st
      rw [List.foldl_cons, ih, hstep, rrcSum_cons, add_assoc]

theorem processNode_read_est (sub k : String)
    (hk : k = "ConnEstabAtt" ∨ k = "ConnEstabSucc") (st : ParseState) (node : XMLElement) :
    ((processNode st node).rrcMap.read sub []).read k 0 =
      (st.rrcMap.read sub []).read k 0 +
        if isMeasInfo "RRC/RRC Connection Establishment" node then
          rrcRowsSum (typeTextOf node) k sub (rowsOf node)
        else 0 := by
  rw [processNode_rrcMap]
  by_cases h₁ : isMeasInfo "RRC/RRC Connection Establishment" node = true
  · rw [if_pos h₁, if_pos h₁, rrc_rows_read]
    rcases hk with rfl | rfl <;> simp
  · rw [if_neg h₁, if_neg h₁]
    by_cases h₂ : isMeasInfo "RRC/RRC Connection Re-establishment" node = true
    · rw [if_pos h₂, rrc_rows_read]
      rcases hk with rfl | rfl <;> simp
    · rw [if_neg h₂]
      simp

theorem processNode_read_reest (sub k : String)
    (hk : k = "ConnReEstabAtt" ∨ k = "ConnReEstabSucc") (st : ParseState) (node : XMLElement) :
    ((processNode st node).rrcMap.read sub []).read k 0 =
      (st.rrcMap.read sub []).read k 0 +
        if isMeasInfo "RRC/RRC Connection Re-establishment" node then
          rrcRowsSum (typeTextOf node) k sub (rowsOf node)
        else 0 := by
  rw [processNode_rrcMap]
  by_cases h₁ : isMeasInfo "RRC/RRC Connection Establishment" node = true
  · have h₂ : ¬ isMeasInfo "RRC/RRC Connection Re-establishment" node = true := fun h =>
      absurd (isMeasInfo_id _ _ node h₁ h) (by decide)
    rw [if_pos h₁, if_neg h₂, rrc_rows_read]
    rcases hk with rfl | rfl <;> simp
  · rw [if_neg h₁]
    by_cases h₂ : isMeasInfo "RRC/RRC Connection Re-establishment" node = true
    · rw [if_pos h₂, if_pos h₂, rrc_rows_read]
      rcases hk with rfl | rfl <;> simp
    · rw [if_neg h₂, if_neg h₂]
      simp

theorem processNode_keys (st : ParseState) (node : XMLElement) (h : st.rrcMap.keys.Nodup) :
    (processNode st node).rrcMap.keys.Nodup ∧
    (∀ p, p ∈ st.rrcMap.keys → p ∈ (processNode st node).rrcMap.keys) ∧
    (∀ p, (isMeasInfo "RRC/RRC Connection Establishment" node = true ∨
          isMeasInfo "RRC/RRC Connection Re-establishment" node = true) →
      (∃ mv ∈ rowsOf node, subRUOf (objLdnOf mv) = some p) →
      p ∈ (processNode st node).rrcMap.keys) := by
  rw [processNode_rrcMap]
  by_cases h₁ : isMeasInfo "RRC/RRC Connection Establishment" node = true
  · rw [if_pos h₁]
    obtain ⟨hn, hm⟩ := fold_keys_of_step
      (rrcRow (typeTextOf node) "ConnEstabAtt" "ConnEstabSucc")
      (fun mv => subRUOf (objLdnOf mv)) (fun tbl x => rrcRow_keys _ _ _ tbl x)
      (rowsOf node) st.rrcMap h
    exact ⟨hn, fun p hp => (hm p).2 (Or.inl hp), fun p _ hp => (hm p).2 (Or.inr hp)⟩
  · rw [if_neg h₁]
    by_cases h₂ : isMeasInfo "RRC/RRC Connection Re-establishment" node = true
    · rw [if_pos h₂]
      obtain ⟨hn, hm⟩ := fold_keys_of_step
        (rrcRow (typeTextOf node) "ConnReEstabAtt" "ConnReEstabSucc")
        (fun mv => subRUOf (objLdnOf mv)) (fun tbl x => rrcRow_keys _ _ _ tbl x)
        (rowsOf node) st.rrcMap h
      exact ⟨hn, fun p hp => (hm p).2 (Or.inl hp), fun p _ hp => (hm p).2 (Or.inr hp)⟩
    · rw [if_neg h₂]
      exact ⟨h, fun p hp => hp, fun p hor _ => absurd hor (by simp [h₁, h₂])⟩

theorem rrc_stream_keys :
    ∀ (nodes : List XMLElement) (st : ParseState), st.rrcMap.keys.Nodup →
      (nodes.foldl processNode st).rrcMap.keys.Nodup ∧
      (∀ p, p ∈ st.rrcMap.keys → p ∈ (nodes.foldl processNode st).rrcMap.keys) ∧
      (∀ p, (∃ node ∈ nodes,
          (isMeasInfo "RRC/RRC Connection Establishment" node = true ∨
            isMeasInfo "RRC/RRC Connection Re-establishment" node = true) ∧
          ∃ mv ∈ rowsOf node, subRUOf (objLdnOf mv) = some p) →
        p ∈ (nodes.foldl processNode st).rrcMap.keys) := by
  intro nodes
  induction nodes with
  | nil => intro st h; exact ⟨h, fun p hp => hp, fun p hp => by simp at hp⟩
  | cons node rest ih =>
      intro st h
      obtain ⟨s₁, s₂, s₃⟩ := processNode_keys st node h
      obtain ⟨r₁, r₂, r₃⟩ := ih (processNode st node) s₁
      refine ⟨r₁, fun p hp => r₂ p (s₂ p hp), ?_⟩
      rintro p ⟨nd, hnd, hor, hmv⟩
      rcases List.mem_cons.1 hnd with rfl | hrest
      · exact r₂ p (s₃ p hor hmv)
      · exact r₃ p ⟨nd, hrest, hor, hmv⟩

theorem processNode_parsed (st : ParseState) (node : XMLElement) :
    (processNode st node).parsed = st.parsed ∨
      ∃ name rows, (processNode st node).parsed = st.parsed ++ [⟨name, rows⟩] ∧
        name ≠ "RRC" := by
  unfold processNode
  by_cases herr : node.Err.isSome = true
  · rw [if_pos herr]
    exact Or.inl rfl
  rw [if_neg herr]
  by_cases h₁ : node.Name = "measCollec"
  · rw [if_pos h₁]
    cases node.Attrs.find "endTime" <;> exact Or.inl rfl
  rw [if_neg h₁]
  by_cases h₂ : node.Name = "managedElement"
  · rw [if_pos h₂]
    cases node.Attrs.find "localDn" <;> exact Or.inl rfl
  rw [if_neg h₂]
  by_cases h₃ : node.Name = "measInfo"
  swap
  · rw [if_neg h₃]
    exact Or.inl rfl
  rw [if_pos h₃]
  simp only []
  by_cases c0 : node.Attrs.read "measInfoId" "" = "Resource Management/RU Power Consumption"
  · rw [if_pos c0]
    exact Or.inr ⟨"POWER", _, rfl, by decide⟩
  rw [if_neg c0]
  by_cases c1 : node.Attrs.read "measInfoId" "" = "RRC/RRC Connection Number"
  · rw [if_pos c1]
    exact Or.inr ⟨"MAXUE", _, rfl, by decide⟩
  rw [if_neg c1]
  by_cases c2 : node.Attrs.read "measInfoId" "" = "Packet Statistics/Air MAC Packet"
  · rw [if_pos c2]
    exact Or.inr ⟨"MAC", _, rfl, by decide⟩
  rw [if_neg c2]
  by_cases c3 : node.Attrs.read "measInfoId" "" = "E-UTRA-NR Dual Connectivity/EN-DC Addition Information"
  · rw [if_pos c3]
    exact Or.inr ⟨"ENDC", _, rfl, by decide⟩
  rw [if_neg c3]
  by_cases c4 : node.Attrs.read "measInfoId" "" = "RRU/Total PRB Usage"
  · rw [if_pos c4]
    exact Or.inr ⟨"PRB", _, rfl, by decide⟩
  rw [if_neg c4]
  by_cases c5 : node.Attrs.read "measInfoId" "" = "RRC/RRC Connection Establishment"
  · rw [if_pos c5]
    exact Or.inl rfl
  rw [if_neg c5]
  by_cases c6 : node.Attrs.read "measInfoId" "" = "RRC/RRC Connection Re-establishment"
  · rw [if_pos c6]
    exact Or.inl rfl
  rw [if_neg c6]
  exact Or.inl rfl

theorem stream_parsed_ne_RRC :
    ∀ (nodes : List XMLElement) (st : ParseState),
      (∀ mr ∈ st.parsed, mr.MontypeName ≠ "RRC") →
      ∀ mr ∈ (nodes.foldl processNode st).parsed, mr.MontypeName ≠ "RRC" := by
  intro nodes
  induction nodes with
  | nil => intro st h; exact h
  | cons node rest ih =>
      intro st h
      rw [List.foldl_cons]
      apply ih
      intro mr hmr
      rcases processNode_parsed st node with h' | ⟨name, rows, h', hne⟩
      · rw [h'] at hmr
        exact h mr hmr
      · rw [h'] at hmr
        rcases List.mem_append.1 hmr with hm | hm
        · exact h mr hm
        · simp only [List.mem_singleton] at hm
          subst hm
          exact hne

theorem slash_append_inj (a b : String) (h : "/" ++ a = "/" ++ b) : a = b := by
  have hd := congrArg String.data h
  simp only [String.data_append, List.append_cancel_left_eq] at hd
  exact String.ext hd

theorem rrcEntry_eq (key : String) (v : GoMap ℚ) :
    rrcEntry key v =
      [("RU", "/" ++ key),
        ("RRCATTEMPT", floatToString (v.read "ConnEstabAtt" 0 + v.read "ConnReEstabAtt" 0)),
        ("RRCSUCCRATE", floatToString
          (if v.read "ConnEstabAtt" 0 + v.read "ConnReEstabAtt" 0 > 0 then
            (v.read "ConnEstabSucc" 0 + v.read "ConnReEstabSucc" 0) /
              (v.read "ConnEstabAtt" 0 + v.read "ConnReEstabAtt" 0) * 100
          else 0))] := by
  simp [rrcEntry, GoMap.assign]

theorem parseFloat_floatToString_nonneg (q : ℚ) (h : 0 ≤ q) :
    parseFloat (floatToString q) = (roundHalfEven (q * 100) : ℚ) / 100 := by
  rw [parseFloat_floatToString, if_neg (not_lt.2 h), abs_of_nonneg h, one_mul]

/-! ## Count fields -/

theorem truncate_neg (x : ℚ) : truncate (-x) = -truncate x := by
  unfold truncate
  simp [Int.neg_tdiv]

theorem truncate_of_nonpos (x : ℚ) (h : x ≤ 0) : truncate x = ⌈x⌉ := by
  have h₁ : truncate x = -truncate (-x) := by rw [truncate_neg, neg_neg]
  rw [h₁, truncate_eq_floor _ (neg_nonneg.2 h), Int.floor_neg, neg_neg]

theorem parseFloat_floatToString_near (q : ℚ) :
    (∃ z : ℤ, parseFloat (floatToString q) = z / 100) ∧
      |parseFloat (floatToString q) - q| ≤ 1 / 200 := by
  rw [parseFloat_floatToString]
  have hnear := roundHalfEven_near (|q| * 100) (mul_nonneg (abs_nonneg q) (by norm_num))
  rw [abs_le] at hnear
  by_cases hq : q < 0
  · rw [if_pos hq]
    have habs : |q| = -q := abs_of_neg hq
    rw [habs] at hnear ⊢
    refine ⟨⟨-(roundHalfEven (-q * 100) : ℤ), by push_cast; ring⟩, ?_⟩
    rw [abs_le]
    constructor <;> linarith [hnear.1, hnear.2]
  · rw [if_neg hq]
    have habs : |q| = q := abs_of_nonneg (not_lt.1 hq)
    rw [habs] at hnear ⊢
    refine ⟨⟨(roundHalfEven (q * 100) : ℤ), by push_cast; ring⟩, ?_⟩
    rw [abs_le]
    constructor <;> linarith [hnear.1, hnear.2]

theorem parseFloat_floatToString_hundredths (q : ℚ) (h : ∃ z : ℤ, q = z / 100) :
    parseFloat (floatToString q) = q := by
  obtain ⟨z, rfl⟩ := h
  rw [parseFloat_floatToString]
  have habs : |(z : ℚ) / 100| * 100 = ((z.natAbs : ℕ) : ℚ) := by
    rw [abs_div, abs_of_pos (by norm_num : (0 : ℚ) < 100)]
    have : |(z : ℚ)| = ((z.natAbs : ℕ) : ℚ) := by
      rw [Nat.cast_natAbs]
      push_cast
      rfl
    rw [this]
    field_simp
  rw [habs, roundHalfEven_natCast]
  by_cases hz : (z : ℚ) / 100 < 0
  · rw [if_pos hz]
    have hz' : z < 0 := by
      have : (z : ℚ) < 0 := by
        by_contra hge
        have := div_nonneg (not_lt.1 hge) (by norm_num : (0 : ℚ) ≤ 100)
        linarith
      exact_mod_cast this
    have hn : ((z.natAbs : ℕ) : ℚ) = -(z : ℚ) := by
      rw [Nat.cast_natAbs, abs_of_neg hz']
      push_cast
      rfl
    rw [hn]
    ring
  · rw [if_neg hz]
    have hz' : 0 ≤ z := by
      have : (0 : ℚ) ≤ z := by
        by_contra hlt
        exact hz (div_neg_of_neg_of_pos (not_le.1 hlt) (by norm_num))
      exact_mod_cast this
    have hn : ((z.natAbs : ℕ) : ℚ) = (z : ℚ) := by
      rw [Nat.cast_natAbs, abs_of_nonneg hz']
    rw [hn]
    ring

theorem endc_row_of_prefix (typeText : String) (mvs : List XMLElement) (pfx : String)
    (hgroup : ∃ mv ∈ mvs, prefixRuOf (objLdnOf mv) = some pfx) :
    ∃ row, (endcRows typeText mvs).filter (fun r => r.find "RU" = some pfx) = [row] ∧
      row.read "RU" "" = pfx ∧
      ∀ k, k ≠ "RU" →
        parseFloat (row.read k "") = parseFloat (floatToString (endcSum typeText k pfx mvs)) := by
  have hkeys := endc_fold_keys typeText mvs [] List.nodup_nil
  have hinner := endc_fold_inner typeText mvs []
    (fun q => by simp [GoMap.read, GoMap.find, GoMap.keys])
  have hread := fun k => endc_fold_read typeText pfx k mvs []
  have hmem : pfx ∈ (mvs.foldl (endcRow typeText) []).keys :=
    (hkeys.2 pfx).2 (Or.inr hgroup)
  obtain ⟨vals, hvals⟩ := Option.isSome_iff_exists.1 ((GoMap.find_isSome_iff _ _).2 hmem)
  have hreadvals : (mvs.foldl (endcRow typeText) []).read pfx [] = vals := by
    simp [GoMap.read, hvals]
  have hvn := hinner pfx
  rw [hreadvals] at hvn
  have hfilter : (endcRows typeText mvs).filter (fun r => r.find "RU" = some pfx) =
      [endcEntry pfx vals] := by
    unfold endcRows
    simp only []
    rw [List.filter_map]
    have hcongr : List.filter ((fun r : GoMap String => decide (r.find "RU" = some pfx)) ∘
          fun e : String × GoMap ℚ => endcEntry e.1 e.2) (mvs.foldl (endcRow typeText) []) =
        List.filter (fun e => decide (e.1 = pfx)) (mvs.foldl (endcRow typeText) []) := by
      apply List.filter_congr
      intro e he
      have hfe := GoMap.find_of_mem _ hkeys.1 e he
      have hin := hinner e.1
      have hre : (mvs.foldl (endcRow typeText) []).read e.1 [] = e.2 := by
        simp [GoMap.read, hfe]
      rw [hre] at hin
      simp only [Function.comp, endcEntry_find_RU e.1 e.2 hin.1 hin.2, Option.some.injEq]
    rw [hcongr, GoMap.filter_key _ hkeys.1 pfx vals hvals]
    rfl
  refine ⟨endcEntry pfx vals, hfilter, ?_, ?_⟩
  · simp [GoMap.read, endcEntry_find_RU pfx vals hvn.1 hvn.2]
  · intro k hk
    have hr := hread k
    rw [hreadvals] at hr
    simp only [GoMap.read, GoMap.find, Option.getD_none, zero_add] at hr
    simp only [GoMap.read, endcEntry_find pfx vals hvn.1 k hk]
    cases hv : vals.find k with
    | none =>
        rw [hv] at hr
        simp only [Option.getD_none] at hr
        rw [← hr]
        have h0 := parseFloat_floatToString_natCast 0
        simp only [Nat.cast_zero] at h0
        simp [parseFloat_empty, h0]
    | some v =>
        rw [hv] at hr
        simp only [Option.getD_some] at hr
        simp only [Option.map_some', Option.getD_some]
        rw [hr]

theorem rrc_row_of_sub (nodes : List XMLElement) (sub : String)
    (hrow : ∃ node ∈ nodes,
      (isMeasInfo "RRC/RRC Connection Establishment" node = true ∨
        isMeasInfo "RRC/RRC Connection Re-establishment" node = true) ∧
      ∃ mv ∈ rowsOf node, subRUOf (objLdnOf mv) = some sub) :
    ∃ row, ((nodes.foldl processNode initialState).rrcMap.map
          fun e => rrcEntry e.1 e.2).filter (fun x => x.find "RU" = some ("/" ++ sub)) =
        [row] ∧
      row.read "RU" "" = "/" ++ sub ∧
      row.read "RRCATTEMPT" "" = floatToString
        (rrcSum "RRC/RRC Connection Establishment" "ConnEstabAtt" sub nodes +
          rrcSum "RRC/RRC Connection Re-establishment" "ConnReEstabAtt" sub nodes) := by
  obtain ⟨hnd, _, hmem⟩ := rrc_stream_keys nodes initialState List.nodup_nil
  have hsub := hmem sub hrow
  obtain ⟨v, hv⟩ := Option.isSome_iff_exists.1 ((GoMap.find_isSome_iff _ _).2 hsub)
  have hreadv : (nodes.foldl processNode initialState).rrcMap.read sub [] = v := by
    simp [GoMap.read, hv]
  have hinit : ∀ k, (initialState.rrcMap.read sub []).read k 0 = (0 : ℚ) := fun k => rfl
  have r₁ := rrc_stream_read "RRC/RRC Connection Establishment" "ConnEstabAtt" sub
    (processNode_read_est sub _ (Or.inl rfl)) nodes initialState
  have r₂ := rrc_stream_read "RRC/RRC Connection Re-establishment" "ConnReEstabAtt" sub
    (processNode_read_reest sub _ (Or.inl rfl)) nodes initialState
  rw [hreadv, hinit, zero_add] at r₁
  rw [hreadv, hinit, zero_add] at r₂
  have hfilter : ((nodes.foldl processNode initialState).rrcMap.map
        fun e => rrcEntry e.1 e.2).filter (fun x => x.find "RU" = some ("/" ++ sub)) =
      [rrcEntry sub v] := by
    rw [List.filter_map]
    have hcongr : List.filter
          ((fun x : GoMap String => decide (x.find "RU" = some ("/" ++ sub))) ∘
            fun e : String × GoMap ℚ => rrcEntry e.1 e.2)
          (nodes.foldl processNode initialState).rrcMap =
        List.filter (fun e => decide (e.1 = sub))
          (nodes.foldl processNode initialState).rrcMap := by
      apply List.filter_congr
      intro e _
      have hiff : ("/" ++ e.1 = "/" ++ sub) ↔ e.1 = sub :=
        ⟨slash_append_inj _ _, fun h => by rw [h]⟩
      simp only [Function.comp, rrcEntry_eq, GoMap.find, if_true, Option.some.injEq,
        decide_eq_decide]
      exact hiff
    rw [hcongr, GoMap.filter_key _ hnd sub v hv]
    rfl
  refine ⟨rrcEntry sub v, hfilter, ?_, ?_⟩
  · simp [rrcEntry_eq, GoMap.read, GoMap.find]
  · rw [← r₁, ← r₂]
    simp [rrcEntry_eq, GoMap.read, GoMap.find]
/-! ## Enrichment fan-out (C1) -/

/-- C1. For every sample and every cache snapshot: when the lookup of the radio-unit key
finds rows, `emitDocs` sends exactly one document per row, in row order (so `N` rows give
`N` documents); when the key is not found, it sends exactly one document whose five
enrichment identifiers `ems_id`, `du_id`, `cell_id`, `cell_num` and `RU_NAME` are all the
non-nil string `"UNKNOWN"`. -/
theorem emitDocs_fanout (store : Store)
    (ruParam managementElement measDate endTime ts collected mType field : String)
    (val : Result) :
    (∀ rows, (store.Get ruParam).2 = (rows, true) →
      (emitDocs store ruParam managementElement measDate endTime ts collected mType field
        val).length = rows.length ∧
      emitDocs store ruParam managementElement measDate endTime ts collected mType field val =
        rows.map fun r =>
          buildDoc (some r) ruParam managementElement measDate endTime ts collected mType
            field val) ∧
    ((store.Get ruParam).2.2 = false →
      ∃ d, emitDocs store ruParam managementElement measDate endTime ts collected mType field
          val = [d] ∧
        d.EmsID = some "UNKNOWN" ∧ d.DuId = some "UNKNOWN" ∧ d.CellId = some "UNKNOWN" ∧
        d.CellNum = some "UNKNOWN" ∧ d.RUName = some "UNKNOWN") := by
  constructor
  · intro rows h
    simp [emitDocs, h]
  · intro h
    rcases hg : (store.Get ruParam).2 with ⟨params, ok⟩
    rw [hg] at h
    simp only at h
    subst h
    exact ⟨buildDoc none ruParam managementElement measDate endTime ts collected mType field
      val, by simp [emitDocs, hg], rfl, rfl, rfl, rfl, rfl⟩

/-- The sample snapshot holds three rows under `"DU1/RU1"`: a sample for that key gives
three documents, a sample for an unknown key gives one document of `"UNKNOWN"`s. -/
theorem emitDocs_fanout_witness :
    (emitDocs sampleStore "DU1/RU1" "DU1" "202401021504" "2024-01-02 15:04"
      "2024-01-02T06:04:05.000Z" "2024-01-02 15:10" "MAXUE" "UEMax" (.int 7)).length = 3 ∧
    ∃ d, emitDocs sampleStore "DU1/RU9" "DU1" "202401021504" "2024-01-02 15:04"
        "2024-01-02T06:04:05.000Z" "2024-01-02 15:10" "MAXUE" "UEMax" (.int 7) = [d] ∧
      d.EmsID = some "UNKNOWN" ∧ d.DuId = some "UNKNOWN" ∧ d.CellId = some "UNKNOWN" ∧
      d.CellNum = some "UNKNOWN" ∧ d.RUName = some "UNKNOWN" :=
  ⟨((emitDocs_fanout sampleStore "DU1/RU1" _ _ _ _ _ _ _ _).1
      [sampleMapping "c1" "1", sampleMapping "c2" "2", emptyMapping] (by decide)).1,
   (emitDocs_fanout sampleStore "DU1/RU9" _ _ _ _ _ _ _ _).2 (by decide)⟩

/-! ## Reload of the enrichment cache (C9, C10) -/

/-- C9. If a reload (`Store.Update`, and likewise `Store.Init`) fails at the query, at
scanning any row, or at row iteration, it returns an error and leaves the snapshot exactly
as it was: the store is unchanged, so for every key the lookup returns the same rows and
the same found-flag as before the call. -/
theorem reload_failure_keeps_snapshot (s : Store) (db : QueryResult)
    (h : (∃ e, db = .error e) ∨
      ∃ rows, db = .ok rows ∧ ((∃ e, ScanResult.scanErr e ∈ rows.items) ∨ rows.err ≠ none)) :
    ((s.Update db).2 ≠ none ∧ (s.Update db).1 = s ∧
      ∀ key, ((s.Update db).1.Get key).2 = (s.Get key).2) ∧
    ((s.Init db).2 ≠ none ∧ (s.Init db).1 = s ∧
      ∀ key, ((s.Init db).1.Get key).2 = (s.Get key).2) := by
  have hi := Init_failure s db h
  rw [Update_eq_Init]
  exact ⟨⟨hi.1, hi.2, fun key => by rw [hi.2]⟩, ⟨hi.1, hi.2, fun key => by rw [hi.2]⟩⟩

/-- A reload whose second row fails to scan, after a first row for a new key was read: an
error is returned, and the key of the first row is still not found in the snapshot. -/
theorem reload_failure_keeps_snapshot_witness :
    (sampleStore.Update (.ok ⟨[.scanned "DU1/RU2" (sampleDAO "c9" "9"), .scanErr "bad row"],
      none⟩)).2 ≠ none ∧
    ((sampleStore.Update (.ok ⟨[.scanned "DU1/RU2" (sampleDAO "c9" "9"), .scanErr "bad row"],
      none⟩)).1.Get "DU1/RU2").2 = ([], false) ∧
    ((sampleStore.Update (.ok ⟨[.scanned "DU1/RU2" (sampleDAO "c9" "9"), .scanErr "bad row"],
      none⟩)).1.Get "DU1/RU1").2 =
      ([sampleMapping "c1" "1", sampleMapping "c2" "2", emptyMapping], true) :=
  have h := (reload_failure_keeps_snapshot sampleStore
    (.ok ⟨[.scanned "DU1/RU2" (sampleDAO "c9" "9"), .scanErr "bad row"], none⟩)
    (Or.inr ⟨_, rfl, Or.inl ⟨"bad row", by simp⟩⟩)).1
  ⟨h.1, (h.2.2 "DU1/RU2").trans (by decide), (h.2.2 "DU1/RU1").trans (by decide)⟩

/-- C10. After a successful load (`Store.Init`, and likewise `Store.Update`) from a
sequence `R` of reference-store rows, the snapshot is fully replaced: for every key `k`,
the lookup reports found if and only if some row of `R` has key `k`, and it then returns
exactly the rows of `R` with key `k`, in the order of `R` (so a found list is never
empty); a key with no row in `R` is not found, whatever the previous snapshot held; and
the lookup leaves the snapshot unchanged. -/
theorem load_replaces_snapshot (s : Store) (R : List (String × RuMappingDAO)) (k : String) :
    (s.Init (.ok ⟨R.map fun r => ScanResult.scanned r.1 r.2, none⟩)).2 = none ∧
    s.Update (.ok ⟨R.map fun r => ScanResult.scanned r.1 r.2, none⟩) =
      s.Init (.ok ⟨R.map fun r => ScanResult.scanned r.1 r.2, none⟩) ∧
    ((((s.Init (.ok ⟨R.map fun r => ScanResult.scanned r.1 r.2, none⟩)).1.Get k).2.2 = true) ↔
      ∃ r ∈ R, r.1 = k) ∧
    ((∃ r ∈ R, r.1 = k) →
      ((s.Init (.ok ⟨R.map fun r => ScanResult.scanned r.1 r.2, none⟩)).1.Get k).2 =
        (((R.filter fun r => r.1 = k).map fun r => mappingOfDAO r.2), true) ∧
      ((R.filter fun r => r.1 = k).map fun r => mappingOfDAO r.2) ≠ []) ∧
    ((¬ ∃ r ∈ R, r.1 = k) →
      ((s.Init (.ok ⟨R.map fun r => ScanResult.scanned r.1 r.2, none⟩)).1.Get k).2 =
        ([], false)) ∧
    ((s.Init (.ok ⟨R.map fun r => ScanResult.scanned r.1 r.2, none⟩)).1.Get k).1 =
      (s.Init (.ok ⟨R.map fun r => ScanResult.scanned r.1 r.2, none⟩)).1 := by
  obtain ⟨temp', h₁, h₂⟩ := scanLoop_scanned R []
  have hInit : s.Init (.ok ⟨R.map fun r => ScanResult.scanned r.1 r.2, none⟩) =
      ({ s with ruMapping := temp' }, none) := by
    simp [Store.Init, h₁]
  have hfilter : (R.filter fun r => r.1 = k) = [] ↔ ¬ ∃ r ∈ R, r.1 = k := by
    rw [List.filter_eq_nil_iff]
    constructor
    · rintro h ⟨r, hr, hk⟩
      exact h r hr (by simpa using hk)
    · intro h r hr hk
      exact h ⟨r, hr, by simpa using hk⟩
  rw [Update_eq_Init, hInit]
  have hk := h₂ k
  by_cases hex : ∃ r ∈ R, r.1 = k
  · have hne : ¬ (R.filter fun r => r.1 = k) = [] := fun e => (hfilter.1 e) hex
    rw [if_neg hne] at hk
    refine ⟨rfl, rfl, ?_, ?_, fun hn => absurd hex hn, ?_⟩
    · simp [Store.Get, hk, hex]
    · intro _
      refine ⟨by simp [Store.Get, hk, GoMap.read, GoMap.find], ?_⟩
      simpa using hne
    · simp [Store.Get, hk]
  · have hnil : (R.filter fun r => r.1 = k) = [] := hfilter.2 hex
    rw [if_pos hnil] at hk
    refine ⟨rfl, rfl, ?_, fun h => absurd h hex, fun _ => ?_, ?_⟩
    · simp [Store.Get, hk, GoMap.find, hex]
    · simp [Store.Get, hk, GoMap.find]
    · simp [Store.Get, hk, GoMap.find]

/-- A load of three rows over the sample snapshot: the two rows of `"DU2/RU1"` come back
in order, and the key `"DU1/RU1"` of the previous snapshot is gone. -/
theorem load_replaces_snapshot_witness :
    ((sampleStore.Init (.ok ⟨[.scanned "DU2/RU1" (sampleDAO "a" "1"),
        .scanned "DU2/RU2" (sampleDAO "b" "2"), .scanned "DU2/RU1" (sampleDAO "c" "3")],
        none⟩)).1.Get "DU2/RU1").2 = ([sampleMapping "a" "1", sampleMapping "c" "3"], true) ∧
    ((sampleStore.Init (.ok ⟨[.scanned "DU2/RU1" (sampleDAO "a" "1"),
        .scanned "DU2/RU2" (sampleDAO "b" "2"), .scanned "DU2/RU1" (sampleDAO "c" "3")],
        none⟩)).1.Get "DU1/RU1").2 = ([], false) :=
  ⟨(((load_replaces_snapshot sampleStore
      [("DU2/RU1", sampleDAO "a" "1"), ("DU2/RU2", sampleDAO "b" "2"),
        ("DU2/RU1", sampleDAO "c" "3")] "DU2/RU1").2.2.2.1
      ⟨("DU2/RU1", sampleDAO "a" "1"), by simp, rfl⟩).1).trans (by decide),
   (load_replaces_snapshot sampleStore
      [("DU2/RU1", sampleDAO "a" "1"), ("DU2/RU2", sampleDAO "b" "2"),
        ("DU2/RU1", sampleDAO "c" "3")] "DU1/RU1").2.2.2.2.1 (by decide)⟩

/-! ## Document identifier (C7) -/

/-- C7. For every document the computed identifier is
`safe(ru_param) + "-" + safe(cell_num) + "-" + safe(RU_NAME) + "-" + data.field + "-" +
safe(measdate)`, where `safe` maps nil and the empty string to `"NULL"` and is the identity
otherwise.  Hence two documents that agree on these five fields get the same identifier
whatever their other fields, and processing the same file against the same snapshot at two
different times (two values of the collection stamp) yields the same identifiers. -/
theorem bulkID_reproducible :
    (safeStr none = "NULL" ∧ safeStr (some "") = "NULL" ∧
      ∀ s, s ≠ "" → safeStr (some s) = s) ∧
    (∀ doc : ElasticDocument,
      bulkID doc = safeStr doc.RuParam ++ "-" ++ safeStr doc.CellNum ++ "-" ++
        safeStr doc.RUName ++ "-" ++ doc.Data.Field ++ "-" ++ safeStr doc.MeasDate) ∧
    (∀ d₁ d₂ : ElasticDocument, d₁.RuParam = d₂.RuParam → d₁.CellNum = d₂.CellNum →
      d₁.RUName = d₂.RUName → d₁.Data.Field = d₂.Data.Field → d₁.MeasDate = d₂.MeasDate →
      bulkID d₁ = bulkID d₂) ∧
    (∀ (tl : TimeLib) (c₁ c₂ : String) (cfg : Config) (store : Store)
        (file : Except String (List XMLElement)),
      (ProcessXML tl c₁ cfg store file).map bulkID =
        (ProcessXML tl c₂ cfg store file).map bulkID) := by
  refine ⟨⟨rfl, rfl, fun s hs => by simp [safeStr, hs]⟩, fun _ => rfl, ?_, ?_⟩
  · intro d₁ d₂ h₁ h₂ h₃ h₄ h₅
    simp [bulkID, h₁, h₂, h₃, h₄, h₅]
  · intro tl c₁ c₂ cfg store file
    unfold ProcessXML
    cases file with
    | error e => rfl
    | ok nodes =>
        simp only []
        cases tl.Parse (nodes.foldl processNode initialState).EndTime with
        | error e => rfl
        | ok t =>
            simp only [List.map_flatMap]
            exact congrArg _ (funext fun mr => emitBlock_map_bulkID cfg store _ _ _ _ c₁ c₂ mr)

/-- Two documents of the sample file with different values, stamps and enrichment fields
but the same five identifier fields receive the identifier
`DU1/RU1-1-ru1-pmConsumedEnergy-202401021504`. -/
theorem bulkID_reproducible_witness :
    bulkID (buildDoc (some (sampleMapping "c1" "1")) "DU1/RU1" "DU1" "202401021504"
        "2024-01-02 15:04" "2024-01-02T06:04:05.000Z" "2024-01-02 15:10" "POWER"
        "pmConsumedEnergy" (.float 12)) =
      bulkID (buildDoc (some (sampleMapping "c7" "1")) "DU1/RU1" "DU9" "202401021504"
        "2024-01-02 15:05" "2024-01-02T06:05:00.000Z" "2030-01-01 00:00" "MAXUE"
        "pmConsumedEnergy" (.int 3)) :=
  bulkID_reproducible.2.2.1 _ _ rfl rfl rfl rfl rfl

/-! ## Index name (C8) -/

/-- C8, as stated, fails: a date key whose first eight characters are not a
year/month/day is not replaced by the current date.  For the key `"abcdefgh"` the index
name is `lsm-abcd.ef.gh`, not `lsm-2026.11.04`. -/
theorem bulkIndex_nondate_key :
    bulkIndex "2026.11.04" "lsm"
        (buildDoc none "DU1/RU1" "DU1" "abcdefgh" "" "" "" "POWER" "pmConsumedEnergy"
          (.int 0)) = "lsm-abcd.ef.gh" ∧
    bulkIndex "2026.11.04" "lsm"
        (buildDoc none "DU1/RU1" "DU1" "abcdefgh" "" "" "" "POWER" "pmConsumedEnergy"
          (.int 0)) ≠ "lsm" ++ "-" ++ "2026.11.04" := by
  decide

/-- C8, amended. The index name is the base name, `"-"` and a date suffix.  When the date
key has at least eight characters, the first eight being ASCII, the suffix is characters
1 to 4, `"."`, characters 5 and 6, `"."`, characters 7 and 8 of the key, whether or not they
form a date (so a key starting with `YYYYMMDD` gives `YYYY.MM.DD`).  The current date is
the suffix only when the key is shorter than eight bytes or missing (a missing or empty
key is read as `"NULL"`). -/
theorem bulkIndex_spec (today indexName : String) (doc : ElasticDocument) :
    (∀ a b c rest : List Char, a.length = 4 → b.length = 2 → c.length = 2 →
      (∀ ch ∈ a ++ b ++ c, ch.toNat < 128) →
      doc.MeasDate = some (String.mk (a ++ b ++ c ++ rest)) →
      bulkIndex today indexName doc =
        indexName ++ "-" ++ (String.mk a ++ "." ++ String.mk b ++ "." ++ String.mk c)) ∧
    (∀ s, doc.MeasDate = some s → s.utf8ByteSize < 8 →
      bulkIndex today indexName doc = indexName ++ "-" ++ today) ∧
    (doc.MeasDate = none → bulkIndex today indexName doc = indexName ++ "-" ++ today) := by
  have hnull : ¬ "NULL".utf8ByteSize ≥ 8 := by decide
  refine ⟨?_, ?_, ?_⟩
  · intro a b c rest ha hb hc hascii hdoc
    have hla : String.utf8Len a = 4 := by
      rw [utf8Len_of_ascii a fun ch h => hascii ch (by simp [h]), ha]
    have hlb : String.utf8Len b = 2 := by
      rw [utf8Len_of_ascii b fun ch h => hascii ch (by simp [h]), hb]
    have hlc : String.utf8Len c = 2 := by
      rw [utf8Len_of_ascii c fun ch h => hascii ch (by simp [h]), hc]
    have hne : String.mk (a ++ b ++ c ++ rest) ≠ "" := by
      intro h
      have h' : a ++ b ++ c ++ rest = [] := congrArg String.data h
      have hlen := congrArg List.length h'
      simp only [List.length_append, ha, hb, hc, List.length_nil] at hlen
      omega
    have hsize : (String.mk (a ++ b ++ c ++ rest)).utf8ByteSize ≥ 8 := by
      show 8 ≤ String.utf8Len (a ++ b ++ c ++ rest)
      simp only [String.utf8Len_append, hla, hlb, hlc]
      omega
    have e₁ : byteSlice (String.mk (a ++ b ++ c ++ rest)) 0 4 = String.mk a := by
      have h := String.extract_of_valid [] a (b ++ c ++ rest)
      simp only [String.utf8Len_nil, hla, List.nil_append, Nat.zero_add] at h
      simpa [byteSlice, List.append_assoc] using h
    have e₂ : byteSlice (String.mk (a ++ b ++ c ++ rest)) 4 6 = String.mk b := by
      have h := String.extract_of_valid a b (c ++ rest)
      simp only [hla, hlb] at h
      simpa [byteSlice, List.append_assoc] using h
    have e₃ : byteSlice (String.mk (a ++ b ++ c ++ rest)) 6 8 = String.mk c := by
      have h := String.extract_of_valid (a ++ b) c rest
      simp only [String.utf8Len_append, hla, hlb, hlc] at h
      simpa [byteSlice, List.append_assoc] using h
    simp only [bulkIndex, hdoc, safeStr, if_neg hne, indexDateSuffix, if_pos hsize, e₁, e₂, e₃]
  · intro s hdoc hs
    have hlt : ¬ s.utf8ByteSize ≥ 8 := by omega
    by_cases he : s = ""
    · subst he
      simp only [bulkIndex, hdoc, safeStr, indexDateSuffix, if_true, if_neg hnull]
    · simp [bulkIndex, hdoc, safeStr, he, indexDateSuffix, hlt]
  · intro hdoc
    simp only [bulkIndex, hdoc, safeStr, indexDateSuffix, if_neg hnull]

/-- The key `202401021504` of the sample file gives the index `lsm-2024.01.02`. -/
theorem bulkIndex_spec_witness :
    bulkIndex "2026.11.04" "lsm"
        (buildDoc none "DU1/RU1" "DU1" "202401021504" "" "" "" "POWER" "pmConsumedEnergy"
          (.int 0)) = "lsm-2024.01.02" :=
  (bulkIndex_spec "2026.11.04" "lsm" _).1 ['2', '0', '2', '4'] ['0', '1'] ['0', '2']
    ['1', '5', '0', '4'] rfl rfl rfl (by decide) rfl

/-! ## Fatal timestamp (C3) -/

/-- C3. If the envelope end-time does not parse against the layout
`2006-01-02T15:04:05.000-07:00`, `ProcessXML` emits zero documents, whatever the number and
content of the measurement blocks of the file.  In particular, with the reference instance
of the `time` calls, a file whose end-time is the empty string emits nothing. -/
theorem unparsed_endTime_emits_nothing (tl : TimeLib) (collected : String) (cfg : Config)
    (store : Store) (nodes : List XMLElement)
    (h : ∃ e, tl.Parse (nodes.foldl processNode initialState).EndTime = .error e) :
    ProcessXML tl collected cfg store (.ok nodes) = [] ∧
    ((nodes.foldl processNode initialState).EndTime = "" →
      ProcessXML goTime collected cfg store (.ok nodes) = []) := by
  obtain ⟨e, he⟩ := h
  refine ⟨ProcessXML_error tl collected cfg store nodes e he, fun h0 => ?_⟩
  exact ProcessXML_error goTime collected cfg store nodes "cannot parse" (by rw [h0]; rfl)

/-- The sample file with five measurement blocks and an empty end-time: no document. -/
theorem unparsed_endTime_emits_nothing_witness :
    ProcessXML goTime "2024-01-02 15:10" ⟨⟨15⟩⟩ sampleStore (.ok (sampleNodes "")) = [] :=
  (unparsed_endTime_emits_nothing goTime "2024-01-02 15:10" ⟨⟨15⟩⟩ sampleStore
    (sampleNodes "") ⟨"cannot parse", rfl⟩).1

/-! ## Gating by the collection period (C2) -/

/-- C2. For every file whose end-time parses: with collection period 60 every document
emitted by `ProcessXML` belongs to the POWER family, and the documents emitted are exactly
the POWER documents emitted with any other period (same documents, same order), the
documents of the MAXUE, MAC, ENDC, PRB and RRC families being suppressed; with a period
other than 60 the documents of all six families are emitted: for every block of the file
and every row of it, the documents that `emitDocs` produces for each field of the family
are among the output. -/
theorem collection_period_gating (tl : TimeLib) (collected : String) (store : Store)
    (nodes : List XMLElement) (p : ℤ) (hp : p ≠ 60) (t : tl.Time)
    (ht : tl.Parse (nodes.foldl processNode initialState).EndTime = .ok t) :
    (∀ d ∈ ProcessXML tl collected ⟨⟨60⟩⟩ store (.ok nodes), d.MontypeName = some "POWER") ∧
    ProcessXML tl collected ⟨⟨60⟩⟩ store (.ok nodes) =
      (ProcessXML tl collected ⟨⟨p⟩⟩ store (.ok nodes)).filter
        (fun d => d.MontypeName = some "POWER") ∧
    (∀ mr ∈ measResultOf (nodes.foldl processNode initialState), ∀ value ∈ mr.Values,
      ∀ field val,
        (mr.MontypeName = "POWER" ∧ field = "pmConsumedEnergy" ∧
            val = .float (roundToTwoDecimalPlaces
              (parseFloat (value.read "pmConsumedEnergy" ""))) ∨
          mr.MontypeName = "MAXUE" ∧ field = "UEMax" ∧
            val = .int (truncate (parseFloat (value.read "UEMax" ""))) ∨
          mr.MontypeName = "MAC" ∧ field = "MACUL" ∧
            val = .float (roundToTwoDecimalPlaces
              (parseFloat (value.read "AirMacULKB" "") / 1024)) ∨
          mr.MontypeName = "MAC" ∧ field = "MACDL" ∧
            val = .float (roundToTwoDecimalPlaces
              (parseFloat (value.read "AirMacDLKB" "") / 1024)) ∨
          mr.MontypeName = "ENDC" ∧ field = "ENDCATTEMPT" ∧
            val = .int (truncate (parseFloat (value.read "EnDc_AddAtt" ""))) ∨
          mr.MontypeName = "ENDC" ∧ field = "ENDCSUCCRATE" ∧
            val = .float (roundToTwoDecimalPlaces
              (if parseFloat (value.read "EnDc_AddAtt" "") > 0 then
                parseFloat (value.read "EnDc_AddSucc" "") /
                  parseFloat (value.read "EnDc_AddAtt" "") * 100
              else 0)) ∨
          mr.MontypeName = "PRB" ∧ field = "PRBDL" ∧
            val = .float (roundToTwoDecimalPlaces
              (parseFloat (value.read "PRBDownLinkAverage" ""))) ∨
          mr.MontypeName = "PRB" ∧ field = "PRBUL" ∧
            val = .float (roundToTwoDecimalPlaces
              (parseFloat (value.read "PRBUpLinkAverage" ""))) ∨
          mr.MontypeName = "RRC" ∧ field = "RRCATTEMPT" ∧
            val = .int (truncate (parseFloat (value.read "RRCATTEMPT" ""))) ∨
          mr.MontypeName = "RRC" ∧ field = "RRCSUCCRATE" ∧
            val = .float (roundToTwoDecimalPlaces
              (parseFloat (value.read "RRCSUCCRATE" "")))) →
        ∀ d ∈ emitDocs store
            ((nodes.foldl processNode initialState).ManagementElement ++ value.read "RU" "")
            (nodes.foldl processNode initialState).ManagementElement
            (tl.FormatCompact t) (tl.FormatMinute t) (tl.FormatUTC t) collected
            mr.MontypeName field val,
          d ∈ ProcessXML tl collected ⟨⟨p⟩⟩ store (.ok nodes)) := by
  rw [ProcessXML_ok tl collected ⟨⟨60⟩⟩ store nodes t ht,
    ProcessXML_ok tl collected ⟨⟨p⟩⟩ store nodes t ht]
  refine ⟨?_, ?_, ?_⟩
  · intro d hd
    obtain ⟨mr, _, hmr⟩ := List.mem_flatMap.1 hd
    have hm := emitBlock_montype _ _ _ _ _ _ _ mr d hmr
    by_cases hpow : mr.MontypeName = "POWER"
    · rw [hm, hpow]
    · rw [emitBlock_of_period_60 _ _ _ _ _ _ _ mr rfl hpow] at hmr
      exact absurd hmr (List.not_mem_nil _)
  · symm
    apply filter_flatMap_eq
    intro mr _
    by_cases hpow : mr.MontypeName = "POWER"
    · rw [emitBlock_of_power ⟨⟨60⟩⟩ ⟨⟨p⟩⟩ _ _ _ _ _ _ mr hpow]
      apply List.filter_eq_self.2
      intro d hd
      have hm := emitBlock_montype _ _ _ _ _ _ _ mr d hd
      simp [hm, hpow]
    · rw [emitBlock_of_period_60 ⟨⟨60⟩⟩ _ _ _ _ _ _ mr rfl hpow]
      apply List.filter_eq_nil_iff.2
      intro d hd
      have hm := emitBlock_montype _ _ _ _ _ _ _ mr d hd
      simp [hm, hpow]
  · intro mr hmr value hvalue field val hcase d hd
    refine List.mem_flatMap.2 ⟨mr, hmr, ?_⟩
    have hp' : (⟨⟨p⟩⟩ : Config).Logging.CollectionPeriod ≠ 60 := hp
    unfold emitBlock
    simp only []
    rcases hcase with ⟨hn, rfl, rfl⟩ | ⟨hn, rfl, rfl⟩ | ⟨hn, rfl, rfl⟩ | ⟨hn, rfl, rfl⟩ |
      ⟨hn, rfl, rfl⟩ | ⟨hn, rfl, rfl⟩ | ⟨hn, rfl, rfl⟩ | ⟨hn, rfl, rfl⟩ | ⟨hn, rfl, rfl⟩ |
      ⟨hn, rfl, rfl⟩ <;>
      simp only [hn, hp', String.reduceEq, ne_eq, not_false_eq_true, and_self, and_true,
        if_true, if_false, false_and, List.mem_flatMap, List.mem_append] <;>
      first
        | exact ⟨value, hvalue, by rw [hn] at hd; exact hd⟩
        | exact ⟨value, hvalue, Or.inl (by rw [hn] at hd; exact hd)⟩
        | exact ⟨value, hvalue, Or.inr (by rw [hn] at hd; exact hd)⟩

/-- The sample file read with period 60 and with period 15: only the three POWER documents
remain with period 60, and they are the POWER documents of the other run. -/
theorem collection_period_gating_witness :
    (∀ d ∈ ProcessXML goTime "2024-01-02 15:10" ⟨⟨60⟩⟩ sampleStore
        (.ok (sampleNodes "2024-01-02T15:04:05.000+09:00")), d.MontypeName = some "POWER") ∧
    ProcessXML goTime "2024-01-02 15:10" ⟨⟨60⟩⟩ sampleStore
        (.ok (sampleNodes "2024-01-02T15:04:05.000+09:00")) =
      (ProcessXML goTime "2024-01-02 15:10" ⟨⟨15⟩⟩ sampleStore
        (.ok (sampleNodes "2024-01-02T15:04:05.000+09:00"))).filter
        (fun d => d.MontypeName = some "POWER") :=
  have h := collection_period_gating goTime "2024-01-02 15:10" sampleStore
    (sampleNodes "2024-01-02T15:04:05.000+09:00") 15 (by decide)
    ({ year := 2024, month := 1, day := 2, hour := 15, minute := 4, second := 5, millis := 0,
       offset := 32400 } : CivilTime) rfl
  ⟨h.1, h.2.1⟩

/-! ## Token pairing (C6) -/

/-- C6. For every metric-name string and value string, `zipResults` splits both on white
space and pairs the tokens by position.  The dictionary has the twelve entries listed; the
result has a field exactly for the canonical names of the name tokens found in the
dictionary, so a token outside the dictionary produces no field; the field holds the value
token at the position of its name token (of the last one, should the name be repeated),
which is the empty string when the value list has no token at that position; and
`parseFloat` reads the empty string as `0`. -/
theorem zipResults_pairs (typesStr resultsStr : String) :
    (∀ t f, metricField t = some f ↔
      (t, f) ∈ [("RuPowerAvg(W)", "pmConsumedEnergy"), ("ConnNoMax(count)", "UEMax"),
        ("AirMacULByte(Kbytes)", "AirMacULKB"), ("AirMacDLByte(Kbytes)", "AirMacDLKB"),
        ("EnDc_AddAtt(count)", "EnDc_AddAtt"), ("EnDc_AddSucc(count)", "EnDc_AddSucc"),
        ("TotPrbDLAvg(%)", "PRBDownLinkAverage"), ("TotPrbULAvg(%)", "PRBUpLinkAverage"),
        ("ConnEstabAtt(count)", "ConnEstabAtt"), ("ConnEstabSucc(count)", "ConnEstabSucc"),
        ("ConnReEstabAtt(count)", "ConnReEstabAtt"),
        ("ConnReEstabSucc(count)", "ConnReEstabSucc")]) ∧
    (∀ f, ((zipResults typesStr resultsStr).find f).isSome = true ↔
      ∃ t ∈ Fields typesStr, metricField t = some f) ∧
    (∀ f v, (zipResults typesStr resultsStr).find f = some v ↔
      ∃ i, i < (Fields typesStr).length ∧
        metricField ((Fields typesStr).getD i "") = some f ∧
        v = (Fields resultsStr).getD i "" ∧
        ∀ j, i < j → j < (Fields typesStr).length →
          metricField ((Fields typesStr).getD j "") ≠ some f) ∧
    (∀ i, (Fields resultsStr).length ≤ i → (Fields resultsStr).getD i "" = "") ∧
    parseFloat "" = 0 := by
  refine ⟨metricField_iff, ?_, fun f v => zipLoop_find_iff _ f v _, ?_, parseFloat_empty⟩
  · intro f
    constructor
    · intro h
      obtain ⟨v, hv⟩ := Option.isSome_iff_exists.1 h
      obtain ⟨i, hi, h₁, _, _⟩ := (zipLoop_find_iff _ f v _).1 hv
      refine ⟨(Fields typesStr).getD i "", ?_, h₁⟩
      rw [List.getD_eq_getElem _ _ hi]
      exact List.getElem_mem hi
    · intro h
      obtain ⟨i, hi, h₁, h₂⟩ :=
        exists_last_index (fun t => metricField t = some f) (Fields typesStr) h
      have hv := (zipLoop_find_iff (Fields resultsStr) f ((Fields resultsStr).getD i "")
        (Fields typesStr)).2 ⟨i, hi, h₁, rfl, h₂⟩
      exact Option.isSome_iff_exists.2 ⟨_, hv⟩
  · intro i hi
    simp [List.getElem?_eq_none hi]

/-- Four name tokens, one of them unknown, against three value tokens: the third name is
paired with the third value, and the fourth, which has no value, is paired with the empty
string. -/
theorem zipResults_pairs_witness :
    (∃ i, i < (Fields "EnDc_AddAtt(count) foo  EnDc_AddSucc(count) ConnNoMax(count)").length ∧
      metricField ((Fields "EnDc_AddAtt(count) foo  EnDc_AddSucc(count) ConnNoMax(count)").getD
        i "") = some "EnDc_AddSucc" ∧
      "8" = (Fields " 10 3\t8 ").getD i "" ∧
      ∀ j, i < j →
        j < (Fields "EnDc_AddAtt(count) foo  EnDc_AddSucc(count) ConnNoMax(count)").length →
        metricField ((Fields "EnDc_AddAtt(count) foo  EnDc_AddSucc(count) ConnNoMax(count)").getD
          j "") ≠ some "EnDc_AddSucc") ∧
    zipResults "EnDc_AddAtt(count) foo  EnDc_AddSucc(count) ConnNoMax(count)" " 10 3\t8 " =
      [("EnDc_AddAtt", "10"), ("EnDc_AddSucc", "8"), ("UEMax", "")] :=
  ⟨((zipResults_pairs "EnDc_AddAtt(count) foo  EnDc_AddSucc(count) ConnNoMax(count)"
      " 10 3\t8 ").2.2.1 "EnDc_AddSucc" "8").1 (by decide), by decide⟩

/-! ## Dual-connectivity aggregation (C4) -/

/-- C4, as stated, fails for counters that are not whole numbers: the aggregated row keeps
its sums as text with two decimals.  A row with attempt 0.004 and success 0.004 sums to
0.004 each, the row of the prefix holds `"0.00"` twice, and the documents are
`ENDCATTEMPT = 0` and `ENDCSUCCRATE = 0`, although the summed attempt is not `0` and summed
success / summed attempt x 100 is 100. -/
theorem endc_fractional_counters :
    endcRows sampleEndcTypes [measValue "/a/b/1" "0.004 0.004"] =
      [[("RU", "/a/b"), ("EnDc_AddAtt", "0.00"), ("EnDc_AddSucc", "0.00")]] ∧
    emitBlock ⟨⟨15⟩⟩ NewStore "DU1" "202401021504" "2024-01-02 15:04"
        "2024-01-02T06:04:05.000Z" "2024-01-02 15:10"
        ⟨"ENDC", endcRows sampleEndcTypes [measValue "/a/b/1" "0.004 0.004"]⟩ =
      [buildDoc none "DU1/a/b" "DU1" "202401021504" "2024-01-02 15:04"
          "2024-01-02T06:04:05.000Z" "2024-01-02 15:10" "ENDC" "ENDCATTEMPT" (.int 0),
        buildDoc none "DU1/a/b" "DU1" "202401021504" "2024-01-02 15:04"
          "2024-01-02T06:04:05.000Z" "2024-01-02 15:10" "ENDC" "ENDCSUCCRATE" (.float 0)] ∧
    endcSum sampleEndcTypes "EnDc_AddAtt" "/a/b" [measValue "/a/b/1" "0.004 0.004"] = 1 / 250 ∧
    endcSum sampleEndcTypes "EnDc_AddSucc" "/a/b" [measValue "/a/b/1" "0.004 0.004"] = 1 / 250 ∧
    roundToTwoDecimalPlaces ((1 / 250 : ℚ) / (1 / 250) * 100) = 100 := by
  decide!

/-- C4, amended. For every EN-DC measurement block and every three-segment prefix carried
by one of its rows, whose rows have whole-number attempt and success counters: the block's
output holds exactly one row keyed by that prefix; its attempt and success counters are the
sums over the rows sharing the prefix; the emitted `ENDCATTEMPT` is the summed attempt
count; and the emitted `ENDCSUCCRATE` is summed success / summed attempt x 100 rounded to
two decimals (a multiple of 1/100 within 1/200 of the quotient), `0` when the summed
attempt is `0`. -/
theorem endc_aggregation (typeText : String) (mvs : List XMLElement) (pfx : String)
    (hgroup : ∃ mv ∈ mvs, prefixRuOf (objLdnOf mv) = some pfx)
    (hcount : ∀ mv ∈ mvs, prefixRuOf (objLdnOf mv) = some pfx →
      (∃ a : ℕ, rowCounter typeText "EnDc_AddAtt" mv = a) ∧
      (∃ s : ℕ, rowCounter typeText "EnDc_AddSucc" mv = s)) :
    ∃ row, (endcRows typeText mvs).filter (fun r => r.find "RU" = some pfx) = [row] ∧
      parseFloat (row.read "EnDc_AddAtt" "") = endcSum typeText "EnDc_AddAtt" pfx mvs ∧
      parseFloat (row.read "EnDc_AddSucc" "") = endcSum typeText "EnDc_AddSucc" pfx mvs ∧
      ((truncate (endcSum typeText "EnDc_AddAtt" pfx mvs) : ℤ) : ℚ) =
        endcSum typeText "EnDc_AddAtt" pfx mvs ∧
      (∀ (cfg : Config) (store : Store) (me md et ts c : String),
        cfg.Logging.CollectionPeriod ≠ 60 →
        emitBlock cfg store me md et ts c ⟨"ENDC", [row]⟩ =
          emitDocs store (me ++ pfx) me md et ts c "ENDC" "ENDCATTEMPT"
              (.int (truncate (endcSum typeText "EnDc_AddAtt" pfx mvs))) ++
            emitDocs store (me ++ pfx) me md et ts c "ENDC" "ENDCSUCCRATE"
              (.float (roundToTwoDecimalPlaces
                (if endcSum typeText "EnDc_AddAtt" pfx mvs = 0 then 0
                 else endcSum typeText "EnDc_AddSucc" pfx mvs /
                   endcSum typeText "EnDc_AddAtt" pfx mvs * 100)))) ∧
      |roundToTwoDecimalPlaces
          (if endcSum typeText "EnDc_AddAtt" pfx mvs = 0 then 0
           else endcSum typeText "EnDc_AddSucc" pfx mvs /
             endcSum typeText "EnDc_AddAtt" pfx mvs * 100) -
        (if endcSum typeText "EnDc_AddAtt" pfx mvs = 0 then 0
         else endcSum typeText "EnDc_AddSucc" pfx mvs /
           endcSum typeText "EnDc_AddAtt" pfx mvs * 100)| ≤ 1 / 200 ∧
      ∃ z : ℤ, roundToTwoDecimalPlaces
          (if endcSum typeText "EnDc_AddAtt" pfx mvs = 0 then 0
           else endcSum typeText "EnDc_AddSucc" pfx mvs /
             endcSum typeText "EnDc_AddAtt" pfx mvs * 100) = z / 100 := by
  -- the sums are whole numbers
  obtain ⟨A, hA⟩ : ∃ n : ℕ, endcSum typeText "EnDc_AddAtt" pfx mvs = n := by
    unfold endcSum
    apply sum_natCast_of_forall
    intro mv hmv
    have hm := List.mem_filter.1 hmv
    exact (hcount mv hm.1 (by simpa using hm.2)).1
  obtain ⟨S, hS⟩ : ∃ n : ℕ, endcSum typeText "EnDc_AddSucc" pfx mvs = n := by
    unfold endcSum
    apply sum_natCast_of_forall
    intro mv hmv
    have hm := List.mem_filter.1 hmv
    exact (hcount mv hm.1 (by simpa using hm.2)).2
  -- the table at the end of the row loop
  have hkeys := endc_fold_keys typeText mvs [] List.nodup_nil
  have hinner := endc_fold_inner typeText mvs []
    (fun q => by simp [GoMap.read, GoMap.find, GoMap.keys]) 
  have hread := fun k => endc_fold_read typeText pfx k mvs []
  have hmem : pfx ∈ (mvs.foldl (endcRow typeText) []).keys :=
    (hkeys.2 pfx).2 (Or.inr hgroup)
  obtain ⟨vals, hvals⟩ := Option.isSome_iff_exists.1 ((GoMap.find_isSome_iff _ _).2 hmem)
  have hreadvals : (mvs.foldl (endcRow typeText) []).read pfx [] = vals := by
    simp [GoMap.read, hvals]
  have hvn := hinner pfx
  rw [hreadvals] at hvn
  have hfilter : (endcRows typeText mvs).filter (fun r => r.find "RU" = some pfx) =
      [endcEntry pfx vals] := by
    unfold endcRows
    simp only []
    rw [List.filter_map]
    have hcongr : List.filter ((fun r : GoMap String => decide (r.find "RU" = some pfx)) ∘
          fun e : String × GoMap ℚ => endcEntry e.1 e.2) (mvs.foldl (endcRow typeText) []) =
        List.filter (fun e => decide (e.1 = pfx)) (mvs.foldl (endcRow typeText) []) := by
      apply List.filter_congr
      intro e he
      have hfe := GoMap.find_of_mem _ hkeys.1 e he
      have hin := hinner e.1
      have hre : (mvs.foldl (endcRow typeText) []).read e.1 [] = e.2 := by
        simp [GoMap.read, hfe]
      rw [hre] at hin
      simp only [Function.comp, endcEntry_find_RU e.1 e.2 hin.1 hin.2, Option.some.injEq]
    rw [hcongr, GoMap.filter_key _ hkeys.1 pfx vals hvals]
    rfl
  have hcounter : ∀ (k : String) (n : ℕ), k ≠ "RU" → endcSum typeText k pfx mvs = n →
      parseFloat ((endcEntry pfx vals).read k "") = endcSum typeText k pfx mvs := by
    intro k n hk hn
    have hr := hread k
    rw [hreadvals] at hr
    simp only [GoMap.read, GoMap.find, Option.getD_none, zero_add] at hr
    simp only [GoMap.read, endcEntry_find pfx vals hvn.1 k hk]
    cases hv : vals.find k with
    | none =>
        rw [hv] at hr
        simp only [Option.getD_none] at hr
        simp [parseFloat_empty, ← hr]
    | some v =>
        rw [hv] at hr
        simp only [Option.getD_some] at hr
        simp only [Option.map_some', Option.getD_some]
        rw [hr, hn, parseFloat_floatToString_natCast]
  have hatt := hcounter "EnDc_AddAtt" A (by decide) hA
  have hsucc := hcounter "EnDc_AddSucc" S (by decide) hS
  have hrate0 : (0 : ℚ) ≤ if endcSum typeText "EnDc_AddAtt" pfx mvs = 0 then 0
      else endcSum typeText "EnDc_AddSucc" pfx mvs /
        endcSum typeText "EnDc_AddAtt" pfx mvs * 100 := by
    rw [hA, hS]
    split_ifs
    · exact le_refl 0
    · positivity
  have hnear := roundToTwoDecimalPlaces_near _ hrate0
  refine ⟨endcEntry pfx vals, hfilter, hatt, hsucc, ?_, ?_, hnear.1, hnear.2⟩
  · rw [hA, truncate_natCast]
    simp
  · intro cfg store me md et ts c hp
    have hRU : (endcEntry pfx vals).read "RU" "" = pfx := by
      simp [GoMap.read, endcEntry_find_RU pfx vals hvn.1 hvn.2]
    have hpos : (endcSum typeText "EnDc_AddAtt" pfx mvs > 0) ↔
        ¬ endcSum typeText "EnDc_AddAtt" pfx mvs = 0 := by
      rw [hA]
      constructor
      · intro h
        exact ne_of_gt h
      · intro h
        exact lt_of_le_of_ne (Nat.cast_nonneg A) (Ne.symm h)
    unfold emitBlock
    simp only [String.reduceEq, false_and, if_false, hp, ne_eq, not_false_eq_true, and_self,
      if_true, List.flatMap_cons, List.flatMap_nil, List.append_nil, hRU, hatt, hsucc]
    by_cases hz : endcSum typeText "EnDc_AddAtt" pfx mvs = 0
    · have hng : ¬ endcSum typeText "EnDc_AddAtt" pfx mvs > 0 := fun h => (hpos.1 h) hz
      rw [if_neg hng, if_pos hz]
    · rw [if_pos (hpos.2 hz), if_neg hz]

/-- Attempts 10 and 5 and successes 8 and 4 under the prefix `/a/b`: one row, attempt 15,
success 12, and the documents `ENDCATTEMPT = 15` and `ENDCSUCCRATE = 80.00`. -/
theorem endc_aggregation_witness :
    ∃ row, (endcRows sampleEndcTypes sampleEndcRows).filter
        (fun r => r.find "RU" = some "/a/b") = [row] ∧
      parseFloat (row.read "EnDc_AddAtt" "") = 15 ∧
      parseFloat (row.read "EnDc_AddSucc" "") = 12 ∧
      emitBlock ⟨⟨15⟩⟩ sampleStore "DU1" "202401021504" "2024-01-02 15:04"
          "2024-01-02T06:04:05.000Z" "2024-01-02 15:10" ⟨"ENDC", [row]⟩ =
        [buildDoc none "DU1/a/b" "DU1" "202401021504" "2024-01-02 15:04"
            "2024-01-02T06:04:05.000Z" "2024-01-02 15:10" "ENDC" "ENDCATTEMPT" (.int 15),
          buildDoc none "DU1/a/b" "DU1" "202401021504" "2024-01-02 15:04"
            "2024-01-02T06:04:05.000Z" "2024-01-02 15:10" "ENDC" "ENDCSUCCRATE"
            (.float 80)] := by
  have hA : endcSum sampleEndcTypes "EnDc_AddAtt" "/a/b" sampleEndcRows = 15 := by decide!
  have hS : endcSum sampleEndcTypes "EnDc_AddSucc" "/a/b" sampleEndcRows = 12 := by decide!
  obtain ⟨row, h₁, h₂, h₃, _, h₅, _⟩ :=
    endc_aggregation sampleEndcTypes sampleEndcRows "/a/b"
      ⟨measValue "/a/b/1" "10 8", by simp [sampleEndcRows], by decide⟩
      (by
        intro mv hmv _
        simp only [sampleEndcRows, List.mem_cons, List.mem_singleton, List.not_mem_nil,
          or_false] at hmv
        rcases hmv with rfl | rfl
        · exact ⟨⟨10, by decide!⟩, ⟨8, by decide!⟩⟩
        · exact ⟨⟨5, by decide!⟩, ⟨4, by decide!⟩⟩)
  refine ⟨row, h₁, h₂.trans hA, h₃.trans hS, ?_⟩
  rw [h₅ ⟨⟨15⟩⟩ sampleStore _ _ _ _ _ (by decide), hA, hS]
  decide!

/-! ## RRC merge (C5) -/

/-- C5, as stated, fails: the emitted success rate is not the quotient itself.  With an
establishment block of 3 attempts and 1 success (and a re-establishment block of zeros),
`RRCATTEMPT` is 3 and `RRCSUCCRATE` is 33.33, not 1/3 x 100. -/
theorem rrc_rate_not_exact :
    ProcessXML goTime "2024-01-02 15:10" ⟨⟨15⟩⟩ NewStore (.ok (sampleRrcNodes "3 1" "0 0")) =
      [buildDoc none "DU1/cell/1" "DU1" "202401021504" "2024-01-02 15:04"
          "2024-01-02T06:04:05.000Z" "2024-01-02 15:10" "RRC" "RRCATTEMPT" (.int 3),
        buildDoc none "DU1/cell/1" "DU1" "202401021504" "2024-01-02 15:04"
          "2024-01-02T06:04:05.000Z" "2024-01-02 15:10" "RRC" "RRCSUCCRATE"
          (.float (3333 / 100))] ∧
    (3333 / 100 : ℚ) ≠ (1 + 0) / (3 + 0) * 100 := by
  decide!

/-- C5, amended. For every file and every sub-path carried by a row of an establishment or
re-establishment block, with whole-number counter totals: the RRC side table merges the two
kinds of block per sub-path and is emitted once, as the last block of the file, with exactly
one row keyed by `"/" + sub-path`; `RRCATTEMPT` is the establishment attempts plus the
re-establishment attempts, and `RRCSUCCRATE` is (establishment successes + re-establishment
successes) / total attempts x 100 rounded to two decimals (a multiple of 1/100 within 1/200
of the quotient), and `0` when the total attempts are `0`. -/
theorem rrc_merge (nodes : List XMLElement) (sub : String) (a₁ a₂ s₁ s₂ : ℕ)
    (hrow : ∃ node ∈ nodes,
      (isMeasInfo "RRC/RRC Connection Establishment" node = true ∨
        isMeasInfo "RRC/RRC Connection Re-establishment" node = true) ∧
      ∃ mv ∈ rowsOf node, subRUOf (objLdnOf mv) = some sub)
    (h₁ : rrcSum "RRC/RRC Connection Establishment" "ConnEstabAtt" sub nodes = a₁)
    (h₂ : rrcSum "RRC/RRC Connection Re-establishment" "ConnReEstabAtt" sub nodes = a₂)
    (h₃ : rrcSum "RRC/RRC Connection Establishment" "ConnEstabSucc" sub nodes = s₁)
    (h₄ : rrcSum "RRC/RRC Connection Re-establishment" "ConnReEstabSucc" sub nodes = s₂) :
    ∃ (rrcRows : List (GoMap String)) (row : GoMap String) (r : ℚ),
      measResultOf (nodes.foldl processNode initialState) =
        (nodes.foldl processNode initialState).parsed ++ [⟨"RRC", rrcRows⟩] ∧
      (∀ mr ∈ (nodes.foldl processNode initialState).parsed, mr.MontypeName ≠ "RRC") ∧
      rrcRows.filter (fun x => x.find "RU" = some ("/" ++ sub)) = [row] ∧
      (∀ (cfg : Config) (store : Store) (me md et ts c : String),
        cfg.Logging.CollectionPeriod ≠ 60 →
        emitBlock cfg store me md et ts c ⟨"RRC", [row]⟩ =
          emitDocs store (me ++ ("/" ++ sub)) me md et ts c "RRC" "RRCATTEMPT"
              (.int ((a₁ + a₂ : ℕ) : ℤ)) ++
            emitDocs store (me ++ ("/" ++ sub)) me md et ts c "RRC" "RRCSUCCRATE"
              (.float r)) ∧
      |r - (if a₁ + a₂ = 0 then 0
          else ((s₁ + s₂ : ℕ) : ℚ) / ((a₁ + a₂ : ℕ) : ℚ) * 100)| ≤ 1 / 200 ∧
      (∃ z : ℤ, r = z / 100) ∧
      (a₁ + a₂ = 0 → r = 0) := by
  obtain ⟨hnd, _, hmem⟩ := rrc_stream_keys nodes initialState List.nodup_nil
  have hsub := hmem sub hrow
  obtain ⟨v, hv⟩ := Option.isSome_iff_exists.1 ((GoMap.find_isSome_iff _ _).2 hsub)
  have hreadv : (nodes.foldl processNode initialState).rrcMap.read sub [] = v := by
    simp [GoMap.read, hv]
  have hinit : ∀ k, (initialState.rrcMap.read sub []).read k 0 = (0 : ℚ) := fun k => rfl
  have r₁ := rrc_stream_read "RRC/RRC Connection Establishment" "ConnEstabAtt" sub
    (processNode_read_est sub _ (Or.inl rfl)) nodes initialState
  have r₂ := rrc_stream_read "RRC/RRC Connection Re-establishment" "ConnReEstabAtt" sub
    (processNode_read_reest sub _ (Or.inl rfl)) nodes initialState
  have r₃ := rrc_stream_read "RRC/RRC Connection Establishment" "ConnEstabSucc" sub
    (processNode_read_est sub _ (Or.inr rfl)) nodes initialState
  have r₄ := rrc_stream_read "RRC/RRC Connection Re-establishment" "ConnReEstabSucc" sub
    (processNode_read_reest sub _ (Or.inr rfl)) nodes initialState
  rw [hreadv, hinit, zero_add, h₁] at r₁
  rw [hreadv, hinit, zero_add, h₂] at r₂
  rw [hreadv, hinit, zero_add, h₃] at r₃
  rw [hreadv, hinit, zero_add, h₄] at r₄
  have hfilter : ((nodes.foldl processNode initialState).rrcMap.map
        fun e => rrcEntry e.1 e.2).filter (fun x => x.find "RU" = some ("/" ++ sub)) =
      [rrcEntry sub v] := by
    rw [List.filter_map]
    have hcongr : List.filter
          ((fun x : GoMap String => decide (x.find "RU" = some ("/" ++ sub))) ∘
            fun e : String × GoMap ℚ => rrcEntry e.1 e.2)
          (nodes.foldl processNode initialState).rrcMap =
        List.filter (fun e => decide (e.1 = sub))
          (nodes.foldl processNode initialState).rrcMap := by
      apply List.filter_congr
      intro e _
      have hiff : ("/" ++ e.1 = "/" ++ sub) ↔ e.1 = sub :=
        ⟨slash_append_inj _ _, fun h => by rw [h]⟩
      simp only [Function.comp, rrcEntry_eq, GoMap.find, if_true, Option.some.injEq,
        decide_eq_decide]
      exact hiff
    rw [hcongr, GoMap.filter_key _ hnd sub v hv]
    rfl
  -- the rate before and after its trip through text
  have hA : v.read "ConnEstabAtt" 0 + v.read "ConnReEstabAtt" 0 = ((a₁ + a₂ : ℕ) : ℚ) := by
    rw [r₁, r₂]
    push_cast
    rfl
  have hS : v.read "ConnEstabSucc" 0 + v.read "ConnReEstabSucc" 0 = ((s₁ + s₂ : ℕ) : ℚ) := by
    rw [r₃, r₄]
    push_cast
    rfl
  have hrate : (if v.read "ConnEstabAtt" 0 + v.read "ConnReEstabAtt" 0 > 0 then
        (v.read "ConnEstabSucc" 0 + v.read "ConnReEstabSucc" 0) /
          (v.read "ConnEstabAtt" 0 + v.read "ConnReEstabAtt" 0) * 100
      else 0) =
      if a₁ + a₂ = 0 then 0 else ((s₁ + s₂ : ℕ) : ℚ) / ((a₁ + a₂ : ℕ) : ℚ) * 100 := by
    rw [hA, hS]
    by_cases hz : a₁ + a₂ = 0
    · rw [if_pos hz, hz]
      simp
    · have hpos : ((a₁ + a₂ : ℕ) : ℚ) > 0 := by
        exact_mod_cast Nat.pos_of_ne_zero hz
      rw [if_neg hz, if_pos hpos]
  have hrate0 : (0 : ℚ) ≤
      if a₁ + a₂ = 0 then 0 else ((s₁ + s₂ : ℕ) : ℚ) / ((a₁ + a₂ : ℕ) : ℚ) * 100 := by
    split_ifs
    · exact le_refl 0
    · positivity
  have hnear := roundHalfEven_near _
    (mul_nonneg hrate0 (by norm_num : (0 : ℚ) ≤ 100))
  refine ⟨_, rrcEntry sub v,
    (roundHalfEven ((if a₁ + a₂ = 0 then 0
      else ((s₁ + s₂ : ℕ) : ℚ) / ((a₁ + a₂ : ℕ) : ℚ) * 100) * 100) : ℚ) / 100,
    rfl, stream_parsed_ne_RRC nodes initialState (fun mr hmr => by simp [initialState] at hmr),
    hfilter, ?_, ?_, ⟨_, by push_cast; rfl⟩, ?_⟩
  · intro cfg store me md et ts c hp
    have e₁ : (rrcEntry sub v).read "RU" "" = "/" ++ sub := by
      simp [rrcEntry_eq, GoMap.read, GoMap.find]
    have e₂ : parseFloat ((rrcEntry sub v).read "RRCATTEMPT" "") = ((a₁ + a₂ : ℕ) : ℚ) := by
      have : (rrcEntry sub v).read "RRCATTEMPT" "" =
          floatToString (v.read "ConnEstabAtt" 0 + v.read "ConnReEstabAtt" 0) := by
        simp [rrcEntry_eq, GoMap.read, GoMap.find]
      rw [this, hA, parseFloat_floatToString_natCast]
    have e₃ : parseFloat ((rrcEntry sub v).read "RRCSUCCRATE" "") =
        (roundHalfEven ((if a₁ + a₂ = 0 then 0
          else ((s₁ + s₂ : ℕ) : ℚ) / ((a₁ + a₂ : ℕ) : ℚ) * 100) * 100) : ℚ) / 100 := by
      have : (rrcEntry sub v).read "RRCSUCCRATE" "" =
          floatToString (if v.read "ConnEstabAtt" 0 + v.read "ConnReEstabAtt" 0 > 0 then
            (v.read "ConnEstabSucc" 0 + v.read "ConnReEstabSucc" 0) /
              (v.read "ConnEstabAtt" 0 + v.read "ConnReEstabAtt" 0) * 100
          else 0) := by
        simp [rrcEntry_eq, GoMap.read, GoMap.find]
      rw [this, hrate, parseFloat_floatToString_nonneg _ hrate0]
    unfold emitBlock
    simp only [String.reduceEq, false_and, if_false, hp, ne_eq, not_false_eq_true, and_self,
      if_true, List.flatMap_cons, List.flatMap_nil, List.append_nil, e₁, e₂, e₃,
      truncate_natCast, roundToTwoDecimalPlaces_hundredth]
  · rw [abs_le] at hnear ⊢
    constructor <;> linarith [hnear.1, hnear.2]
  · intro hz
    rw [if_pos hz]
    simp [roundHalfEven]

/-- Establishment (attempt 100, success 90) and re-establishment (attempt 20, success 15)
on the sub-path `cell/1`: attempt 120 and success rate 87.50. -/
theorem rrc_merge_witness :
    (∃ (row : GoMap String) (r : ℚ),
      emitBlock ⟨⟨15⟩⟩ NewStore "DU1" "202401021504" "2024-01-02 15:04"
          "2024-01-02T06:04:05.000Z" "2024-01-02 15:10" ⟨"RRC", [row]⟩ =
        emitDocs NewStore ("DU1" ++ ("/" ++ "cell/1")) "DU1" "202401021504" "2024-01-02 15:04"
            "2024-01-02T06:04:05.000Z" "2024-01-02 15:10" "RRC" "RRCATTEMPT"
            (.int ((100 + 20 : ℕ) : ℤ)) ++
          emitDocs NewStore ("DU1" ++ ("/" ++ "cell/1")) "DU1" "202401021504"
            "2024-01-02 15:04" "2024-01-02T06:04:05.000Z" "2024-01-02 15:10" "RRC"
            "RRCSUCCRATE" (.float r) ∧
      |r - 175 / 2| ≤ 1 / 200) ∧
    ProcessXML goTime "2024-01-02 15:10" ⟨⟨15⟩⟩ NewStore
        (.ok (sampleRrcNodes "100 90" "20 15")) =
      [buildDoc none "DU1/cell/1" "DU1" "202401021504" "2024-01-02 15:04"
          "2024-01-02T06:04:05.000Z" "2024-01-02 15:10" "RRC" "RRCATTEMPT" (.int 120),
        buildDoc none "DU1/cell/1" "DU1" "202401021504" "2024-01-02 15:04"
          "2024-01-02T06:04:05.000Z" "2024-01-02 15:10" "RRC" "RRCSUCCRATE"
          (.float (175 / 2))] := by
  obtain ⟨_, row, r, _, _, _, h₄, h₅, _, _⟩ :=
    rrc_merge (sampleRrcNodes "100 90" "20 15") "cell/1" 100 20 90 15
      ⟨measInfo "RRC/RRC Connection Establishment" "ConnEstabAtt(count) ConnEstabSucc(count)"
          [measValue "x/cell/1" "100 90"],
        List.mem_cons_of_mem _ (List.mem_cons_of_mem _ (List.mem_cons_self _ _)),
        Or.inl (by decide),
        ⟨measValue "x/cell/1" "100 90", List.mem_cons_self _ _, by decide⟩⟩
      (by decide!) (by decide!) (by decide!) (by decide!)
  refine ⟨⟨row, r, h₄ ⟨⟨15⟩⟩ NewStore _ _ _ _ _ (by decide), ?_⟩, by decide!⟩
  have e : (if 100 + 20 = 0 then (0 : ℚ)
      else ((90 + 15 : ℕ) : ℚ) / ((100 + 20 : ℕ) : ℚ) * 100) = 175 / 2 := by norm_num
  rw [e] at h₅
  exact h₅

/-! ## Admission: the stability check (C11, C12) -/

theorem waitStableFrom_quiet (stableDur : ℤ) (size : ℕ) (start : ℤ) (ns : List ℤ) :
    waitStableFrom stableDur (ticksOf (ns.map fun n => (size, n))) size (some start) =
      if ∃ n ∈ ns, n - start ≥ stableDur then some .stable else none := by
  induction ns with
  | nil => simp [ticksOf, waitStableFrom]
  | cons n rest ih =>
      by_cases h : n - start ≥ stableDur
      · have hex : ∃ m ∈ n :: rest, m - start ≥ stableDur := ⟨n, List.mem_cons_self _ _, h⟩
        rw [if_pos hex]
        simp [ticksOf, waitStableFrom, h]
      · have hiff : (∃ m ∈ n :: rest, m - start ≥ stableDur) ↔
            ∃ m ∈ rest, m - start ≥ stableDur := by
          constructor
          · rintro ⟨m, hm, hge⟩
            rcases List.mem_cons.1 hm with rfl | hm'
            · exact absurd hge h
            · exact ⟨m, hm', hge⟩
          · rintro ⟨m, hm, hge⟩
            exact ⟨m, List.mem_cons_of_mem _ hm, hge⟩
        have hstep : waitStableFrom stableDur (ticksOf ((n :: rest).map fun n => (size, n)))
            size (some start) =
            waitStableFrom stableDur (ticksOf (rest.map fun n => (size, n))) size
              (some start) := by
          simp only [ticksOf, List.map_cons, waitStableFrom, if_true, if_neg h]
        rw [hstep, ih]
        exact if_congr hiff.symm rfl rfl

theorem waitStableFrom_growing (stableDur : ℤ) :
    ∀ (polls : List (ℕ × ℤ)) (prev : ℤ) (start : Option ℤ) (rest : List SelectEvent),
      (∀ p, polls.head? = some p → (p.1 : ℤ) ≠ prev) →
      List.Chain' (fun a b : ℕ × ℤ => a.1 ≠ b.1) polls →
      waitStableFrom stableDur (ticksOf polls ++ .timeout :: rest) prev start =
          some .timedOut ∧
        ∀ k, waitStableFrom stableDur ((ticksOf polls).take k) prev start ≠ some .stable := by
  intro polls
  induction polls with
  | nil =>
      intro prev start rest _ _
      refine ⟨rfl, fun k => ?_⟩
      simp [ticksOf, waitStableFrom]
  | cons p ps ih =>
      intro prev start rest hhead hchain
      have hne : (p.1 : ℤ) ≠ prev := hhead p rfl
      have hnext : ∀ q, ps.head? = some q → (q.1 : ℤ) ≠ (p.1 : ℤ) := by
        intro q hq
        cases ps with
        | nil => simp at hq
        | cons q' qs =>
            simp only [List.head?_cons, Option.some.injEq] at hq
            subst hq
            have h := (List.chain'_cons.1 hchain).1
            exact_mod_cast (Ne.symm h)
      have htail : List.Chain' (fun a b : ℕ × ℤ => a.1 ≠ b.1) ps := List.Chain'.tail hchain
      obtain ⟨h₁, h₂⟩ := ih (p.1 : ℤ) none rest hnext htail
      constructor
      · simpa [ticksOf, waitStableFrom, hne] using h₁
      · intro k
        cases k with
        | zero => simp [waitStableFrom]
        | succ k =>
            have := h₂ k
            simpa [ticksOf, waitStableFrom, hne] using this

/-- C11, as stated, fails: with polls at 1s, 2s, 3s and 4s of a file whose size last
changes at 2s, `waitStable` has not returned at the poll of 4s; it returns success at the
poll of 5s. -/
theorem stable_not_at_fourth_poll :
    waitStable 2000 (ticksOf [(20, 1000), (30, 2000), (30, 3000), (30, 4000)]) = none ∧
    waitStable 2000 (ticksOf [(20, 1000), (30, 2000), (30, 3000), (30, 4000), (30, 5000)]) =
      some .stable := by
  decide

/-- C11, amended. A poll that finds a size different from the previous poll's records the
size and clears the quiet-window clock; the clock starts at the first poll that finds the
size unchanged, and `waitStable` reports the file stable at the first later poll that comes
at least the quiet duration after that start.  With polls once per second and a quiet
duration of 2s, a file whose size changes at 0s, 1s and 2s and then holds is not yet
reported at the poll of 4s and is reported stable at the poll of 5s. -/
theorem waitStable_quiet_window (stableDur : ℤ) (size : ℕ) (start : ℤ) (ns : List ℤ)
    (a b : ℕ) (hab : a ≠ b) :
    (∀ (cur : ℕ) (now prev : ℤ) (st : Option ℤ) (events : List SelectEvent),
      (cur : ℤ) ≠ prev →
      waitStableFrom stableDur (.tick (.ok cur) now :: events) prev st =
        waitStableFrom stableDur events cur none) ∧
    waitStableFrom stableDur (ticksOf ((start :: ns).map fun n => (size, n))) size none =
      (if ∃ n ∈ ns, n - start ≥ stableDur then some .stable else none) ∧
    waitStable 2000 (ticksOf [(a, 1000), (b, 2000), (b, 3000), (b, 4000)]) = none ∧
    waitStable 2000 (ticksOf [(a, 1000), (b, 2000), (b, 3000), (b, 4000), (b, 5000)]) =
      some .stable := by
  have hq := waitStableFrom_quiet stableDur size start ns
  have ha : ¬ ((a : ℤ) = -1) := by omega
  have hb : ¬ ((b : ℤ) = (a : ℤ)) := by exact_mod_cast (Ne.symm hab)
  refine ⟨?_, ?_, ?_, ?_⟩
  · intro cur now prev st events hne
    simp [waitStableFrom, hne]
  · rw [← hq]
    simp [ticksOf, waitStableFrom]
  · simp [waitStable, ticksOf, waitStableFrom, ha, hb]
  · simp [waitStable, ticksOf, waitStableFrom, ha, hb]

/-- Sizes 10 and 25 at the polls of 1s and 2s, then 25 at the polls of 3s, 4s and 5s:
success at the poll of 5s, none at the poll of 4s. -/
theorem waitStable_quiet_window_witness :
    waitStable 2000 (ticksOf [(10, 1000), (25, 2000), (25, 3000), (25, 4000)]) = none ∧
    waitStable 2000 (ticksOf [(10, 1000), (25, 2000), (25, 3000), (25, 4000), (25, 5000)]) =
      some .stable :=
  (waitStable_quiet_window 2000 25 3000 [4000, 5000] 10 25 (by decide)).2.2

/-- C12. For every file whose polled size differs from the previously polled size at every
poll before the timeout fires, `waitStable` never returns success: no poll returns it, the
timeout turn returns the stabilisation-timeout error, and the goroutine of `main` then
returns without calling `ProcessXML`. -/
theorem growing_file_times_out (polls : List (ℕ × ℤ)) (rest : List SelectEvent)
    (hgrow : List.Chain' (fun a b : ℕ × ℤ => a.1 ≠ b.1) polls) :
    waitStable 2000 (ticksOf polls ++ .timeout :: rest) = some .timedOut ∧
    (∀ k, waitStable 2000 ((ticksOf polls).take k) ≠ some .stable) ∧
    ∀ (tl : TimeLib) (collected : String) (cfg : Config) (store : Store)
        (file : Except String (List XMLElement)),
      runJob tl collected cfg store (ticksOf polls ++ .timeout :: rest) file =
        .abandoned .timedOut := by
  have hhead : ∀ p : ℕ × ℤ, polls.head? = some p → (p.1 : ℤ) ≠ -1 := by
    intro p _
    omega
  obtain ⟨h₁, h₂⟩ := waitStableFrom_growing 2000 polls (-1) none rest hhead hgrow
  refine ⟨h₁, h₂, fun tl collected cfg store file => ?_⟩
  unfold runJob
  rw [show waitStable 2000 (ticksOf polls ++ .timeout :: rest) = some .timedOut from h₁]

/-- A file that grows by one byte at each of three polls: the timeout turn makes
`waitStable` return the timeout error, and the sample file is not parsed. -/
theorem growing_file_times_out_witness :
    waitStable 2000 (ticksOf [(1, 1000), (2, 2000), (3, 3000)] ++ [.timeout]) =
      some .timedOut ∧
    runJob goTime "2024-01-02 15:10" ⟨⟨15⟩⟩ sampleStore
        (ticksOf [(1, 1000), (2, 2000), (3, 3000)] ++ [.timeout])
        (.ok (sampleNodes "2024-01-02T15:04:05.000+09:00")) = .abandoned .timedOut :=
  have h := growing_file_times_out [(1, 1000), (2, 2000), (3, 3000)] []
    (by simp [List.chain'_cons])
  ⟨h.1, h.2.2 _ _ _ _ _⟩

/-! ## Two-decimal rounding (C13) -/

theorem roundToTwoDecimalPlaces_of_nonneg (v : ℚ) (h : 0 ≤ v) :
    roundToTwoDecimalPlaces v = roundHalfAwayTwoDecimals v := by
  have h100 : (0 : ℚ) ≤ v * 100 := mul_nonneg h (by norm_num)
  unfold roundToTwoDecimalPlaces roundHalfAwayTwoDecimals roundHalfAwayFromZero
  simp only []
  rw [if_pos h100, truncate_eq_floor _ (by positivity)]

/-- C13 fails on the code for negative values: `roundToTwoDecimalPlaces` adds one half and
truncates toward zero, so `-1` becomes `-0.99` and `-0.126` becomes `-0.12`, where
round-half-away-from-zero on the value scaled by 100 gives `-1` and `-0.13`. -/
theorem roundToTwoDecimalPlaces_negative :
    roundToTwoDecimalPlaces (-1) = -99 / 100 ∧
    roundHalfAwayTwoDecimals (-1) = -1 ∧
    roundToTwoDecimalPlaces (-126 / 1000) = -12 / 100 ∧
    roundHalfAwayTwoDecimals (-126 / 1000) = -13 / 100 ∧
    emitBlock ⟨⟨15⟩⟩ NewStore "DU1" "202401021504" "2024-01-02 15:04"
        "2024-01-02T06:04:05.000Z" "2024-01-02 15:10"
        ⟨"POWER", plainRows "RuPowerAvg(W)" [measValue "/RU1" "-1"]⟩ =
      [buildDoc none "DU1/RU1" "DU1" "202401021504" "2024-01-02 15:04"
        "2024-01-02T06:04:05.000Z" "2024-01-02 15:10" "POWER" "pmConsumedEnergy"
        (.float (-99 / 100))] := by
  decide!

/-! ## Count fields are truncated (C14) -/

/-- C14, as stated, fails for `ENDCATTEMPT` (and likewise `RRCATTEMPT`): the summed counter
is first written as text with two decimals.  A row with attempt 0.999 sums to 0.999, whose
truncation is `0`, but the emitted `ENDCATTEMPT` is `1`. -/
theorem endc_attempt_not_plain_truncation :
    emitBlock ⟨⟨15⟩⟩ NewStore "DU1" "202401021504" "2024-01-02 15:04"
        "2024-01-02T06:04:05.000Z" "2024-01-02 15:10"
        ⟨"ENDC", endcRows sampleEndcTypes [measValue "/a/b/1" "0.999 0"]⟩ =
      [buildDoc none "DU1/a/b" "DU1" "202401021504" "2024-01-02 15:04"
          "2024-01-02T06:04:05.000Z" "2024-01-02 15:10" "ENDC" "ENDCATTEMPT" (.int 1),
        buildDoc none "DU1/a/b" "DU1" "202401021504" "2024-01-02 15:04"
          "2024-01-02T06:04:05.000Z" "2024-01-02 15:10" "ENDC" "ENDCSUCCRATE" (.float 0)] ∧
    endcSum sampleEndcTypes "EnDc_AddAtt" "/a/b" [measValue "/a/b/1" "0.999 0"] =
      999 / 1000 ∧
    truncate (999 / 1000 : ℚ) = 0 := by
  decide!

/-- C14, amended. The emitted count fields are truncated toward zero, not rounded: `UEMax`
is the truncation of the row's parsed value; `ENDCATTEMPT` is the truncation of the summed
attempt counter of its prefix as the side table stores it, that is after rounding to two
decimals, and `RRCATTEMPT` is the truncation of the sum of the establishment and
re-establishment attempt counters of its sub-path, rounded to two decimals in the same
way.  When the sum has at most two decimals (in particular for whole-number counters), the
stored value is the sum itself. -/
theorem count_fields_truncated (cfg : Config) (store : Store) (me md et ts c : String)
    (hp : cfg.Logging.CollectionPeriod ≠ 60) :
    (∀ x : ℚ, (0 ≤ x → truncate x = ⌊x⌋) ∧ (x ≤ 0 → truncate x = ⌈x⌉)) ∧
    (∀ value : GoMap String,
      emitBlock cfg store me md et ts c ⟨"MAXUE", [value]⟩ =
        emitDocs store (me ++ value.read "RU" "") me md et ts c "MAXUE" "UEMax"
          (.int (truncate (parseFloat (value.read "UEMax" ""))))) ∧
    (∀ (typeText : String) (mvs : List XMLElement) (pfx : String),
      (∃ mv ∈ mvs, prefixRuOf (objLdnOf mv) = some pfx) →
      ∃ (row : GoMap String) (r : ℚ) (rateDocs : List ElasticDocument),
        (endcRows typeText mvs).filter (fun x => x.find "RU" = some pfx) = [row] ∧
        emitBlock cfg store me md et ts c ⟨"ENDC", [row]⟩ =
          emitDocs store (me ++ pfx) me md et ts c "ENDC" "ENDCATTEMPT" (.int (truncate r)) ++
            rateDocs ∧
        (∃ z : ℤ, r = z / 100) ∧
        |r - endcSum typeText "EnDc_AddAtt" pfx mvs| ≤ 1 / 200 ∧
        ((∃ z : ℤ, endcSum typeText "EnDc_AddAtt" pfx mvs = z / 100) →
          r = endcSum typeText "EnDc_AddAtt" pfx mvs)) ∧
    (∀ (nodes : List XMLElement) (sub : String),
      (∃ node ∈ nodes,
        (isMeasInfo "RRC/RRC Connection Establishment" node = true ∨
          isMeasInfo "RRC/RRC Connection Re-establishment" node = true) ∧
        ∃ mv ∈ rowsOf node, subRUOf (objLdnOf mv) = some sub) →
      ∃ (row : GoMap String) (r : ℚ) (rateDocs : List ElasticDocument),
        ((nodes.foldl processNode initialState).rrcMap.map
            fun e => rrcEntry e.1 e.2).filter (fun x => x.find "RU" = some ("/" ++ sub)) =
          [row] ∧
        emitBlock cfg store me md et ts c ⟨"RRC", [row]⟩ =
          emitDocs store (me ++ ("/" ++ sub)) me md et ts c "RRC" "RRCATTEMPT"
              (.int (truncate r)) ++ rateDocs ∧
        (∃ z : ℤ, r = z / 100) ∧
        |r - (rrcSum "RRC/RRC Connection Establishment" "ConnEstabAtt" sub nodes +
            rrcSum "RRC/RRC Connection Re-establishment" "ConnReEstabAtt" sub nodes)| ≤
          1 / 200 ∧
        ((∃ z : ℤ, rrcSum "RRC/RRC Connection Establishment" "ConnEstabAtt" sub nodes +
            rrcSum "RRC/RRC Connection Re-establishment" "ConnReEstabAtt" sub nodes =
              z / 100) →
          r = rrcSum "RRC/RRC Connection Establishment" "ConnEstabAtt" sub nodes +
            rrcSum "RRC/RRC Connection Re-establishment" "ConnReEstabAtt" sub nodes)) := by
  refine ⟨fun x => ⟨truncate_eq_floor x, truncate_of_nonpos x⟩, ?_, ?_, ?_⟩
  · intro value
    unfold emitBlock
    simp only [String.reduceEq, false_and, if_false, hp, ne_eq, not_false_eq_true, and_self,
      if_true, List.flatMap_cons, List.flatMap_nil, List.append_nil]
  · intro typeText mvs pfx hgroup
    obtain ⟨row, hfilter, hRU, hk⟩ := endc_row_of_prefix typeText mvs pfx hgroup
    have hatt := hk "EnDc_AddAtt" (by decide)
    have hnear := parseFloat_floatToString_near (endcSum typeText "EnDc_AddAtt" pfx mvs)
    refine ⟨row, parseFloat (floatToString (endcSum typeText "EnDc_AddAtt" pfx mvs)),
      emitDocs store (me ++ pfx) me md et ts c "ENDC" "ENDCSUCCRATE"
        (.float (roundToTwoDecimalPlaces
          (if parseFloat (floatToString (endcSum typeText "EnDc_AddAtt" pfx mvs)) > 0 then
            parseFloat (row.read "EnDc_AddSucc" "") /
              parseFloat (floatToString (endcSum typeText "EnDc_AddAtt" pfx mvs)) * 100
          else 0))),
      hfilter, ?_, hnear.1, hnear.2, parseFloat_floatToString_hundredths _⟩
    unfold emitBlock
    simp only [String.reduceEq, false_and, if_false, hp, ne_eq, not_false_eq_true, and_self,
      if_true, List.flatMap_cons, List.flatMap_nil, List.append_nil, hRU, hatt]
  · intro nodes sub hrow
    obtain ⟨row, hfilter, hRU, hatt⟩ := rrc_row_of_sub nodes sub hrow
    have hnear := parseFloat_floatToString_near
      (rrcSum "RRC/RRC Connection Establishment" "ConnEstabAtt" sub nodes +
        rrcSum "RRC/RRC Connection Re-establishment" "ConnReEstabAtt" sub nodes)
    refine ⟨row, parseFloat (floatToString
        (rrcSum "RRC/RRC Connection Establishment" "ConnEstabAtt" sub nodes +
          rrcSum "RRC/RRC Connection Re-establishment" "ConnReEstabAtt" sub nodes)),
      emitDocs store (me ++ ("/" ++ sub)) me md et ts c "RRC" "RRCSUCCRATE"
        (.float (roundToTwoDecimalPlaces (parseFloat (row.read "RRCSUCCRATE" "")))),
      hfilter, ?_, hnear.1, hnear.2, parseFloat_floatToString_hundredths _⟩
    unfold emitBlock
    simp only [String.reduceEq, false_and, if_false, hp, ne_eq, not_false_eq_true, and_self,
      if_true, List.flatMap_cons, List.flatMap_nil, List.append_nil, hRU, hatt]

/-- A connection-count row with the value 7.9 is emitted as `UEMax = 7`. -/
theorem count_fields_truncated_witness :
    emitBlock ⟨⟨15⟩⟩ NewStore "DU1" "202401021504" "2024-01-02 15:04"
        "2024-01-02T06:04:05.000Z" "2024-01-02 15:10"
        ⟨"MAXUE", plainRows "ConnNoMax(count)" [measValue "/RU1" "7.9"]⟩ =
      [buildDoc none "DU1/RU1" "DU1" "202401021504" "2024-01-02 15:04"
        "2024-01-02T06:04:05.000Z" "2024-01-02 15:10" "MAXUE" "UEMax" (.int 7)] :=
  ((count_fields_truncated ⟨⟨15⟩⟩ NewStore "DU1" "202401021504" "2024-01-02 15:04"
      "2024-01-02T06:04:05.000Z" "2024-01-02 15:10" (by decide)).2.1
    [("UEMax", "7.9"), ("RU", "/RU1")]).trans (by decide!)

/-! ## The RRC sub-path key (C15) -/

theorem splitFrom_append (sep : Char) (a : List Char) (h : ∀ x ∈ a, x ≠ sep) :
    ∀ (rest cur : List Char),
      splitFrom sep (a ++ rest) cur = splitFrom sep rest (cur ++ a) := by
  induction a with
  | nil => intro rest cur; simp
  | cons x xs ih =>
      intro rest cur
      have hx : ¬ x = sep := h x (List.mem_cons_self _ _)
      rw [List.cons_append, splitFrom, if_neg hx,
        ih (fun y hy => h y (List.mem_cons_of_mem _ hy))]
      simp

theorem splitFrom_three (a b c tail : List Char)
    (ha : ∀ x ∈ a, x ≠ '/') (hb : ∀ x ∈ b, x ≠ '/') (hc : ∀ x ∈ c, x ≠ '/')
    (htail : tail = [] ∨ ∃ more, tail = '/' :: more) :
    ∃ others, splitFrom '/' (a ++ '/' :: (b ++ '/' :: (c ++ tail))) [] =
      a :: b :: c :: others := by
  rw [splitFrom_append '/' a ha, List.nil_append, splitFrom, if_pos rfl,
    splitFrom_append '/' b hb, List.nil_append, splitFrom, if_pos rfl,
    splitFrom_append '/' c hc, List.nil_append]
  rcases htail with rfl | ⟨more, rfl⟩
  · exact ⟨[], by simp [splitFrom]⟩
  · exact ⟨splitFrom '/' more [], by simp [splitFrom]⟩

theorem subRUOf_three (a b c tail : List Char)
    (ha : ∀ x ∈ a, x ≠ '/') (hb : ∀ x ∈ b, x ≠ '/') (hc : ∀ x ∈ c, x ≠ '/')
    (htail : tail = [] ∨ ∃ more, tail = '/' :: more) :
    subRUOf (String.mk (a ++ '/' :: (b ++ '/' :: (c ++ tail)))) =
      some (String.mk b ++ "/" ++ String.mk c) := by
  obtain ⟨others, hs⟩ := splitFrom_three a b c tail ha hb hc htail
  unfold subRUOf SplitSlash
  simp [hs]

/-- C15, as stated, fails: the key is made of segments 1 and 2 counted from 0, not of
segments 2 and 3, and it is the path without its first segment only when the path has
exactly three segments.  For the object path `a/b/c/d` the key is `b/c`. -/
theorem rrc_key_segments :
    SplitSlash "a/b/c/d" = ["a", "b", "c", "d"] ∧
    subRUOf "a/b/c/d" = some "b/c" ∧
    subRUOf "a/b/c/d" ≠ some ("c" ++ "/" ++ "d") ∧
    subRUOf "a/b/c/d" ≠ some "b/c/d" ∧
    (rrcRow "ConnEstabAtt(count) ConnEstabSucc(count)" "ConnEstabAtt" "ConnEstabSucc" []
      (measValue "a/b/c/d" "3 1")).keys = ["b/c"] := by
  decide

/-- C15, amended. For every row of an RRC connection establishment or re-establishment
block whose object path has at least three segments, the side-table key is formed from
segments 1 and 2, counted from 0, of the object path split on `/`, joined by `/`: the row's
counters are added under that key and no other entry changes, and the merged row carries
`"/" + key` as the family-specific part of the radio-unit key.  For a path of exactly three
segments the key is the path with its first segment dropped.  A row whose path has fewer
than three segments is skipped. -/
theorem rrc_key_of_row (typeText att succ : String) (rrcMap : GoMap (GoMap ℚ))
    (mv : XMLElement) :
    (∀ a b c tail : List Char, (∀ x ∈ a, x ≠ '/') → (∀ x ∈ b, x ≠ '/') →
      (∀ x ∈ c, x ≠ '/') → (tail = [] ∨ ∃ more, tail = '/' :: more) →
      objLdnOf mv = String.mk (a ++ '/' :: (b ++ '/' :: (c ++ tail))) →
      subRUOf (objLdnOf mv) = some (String.mk b ++ "/" ++ String.mk c) ∧
      (String.mk b ++ "/" ++ String.mk c) ∈ (rrcRow typeText att succ rrcMap mv).keys ∧
      (∀ q, q ≠ String.mk b ++ "/" ++ String.mk c →
        (rrcRow typeText att succ rrcMap mv).read q [] = rrcMap.read q []) ∧
      (∀ v : GoMap ℚ, (rrcEntry (String.mk b ++ "/" ++ String.mk c) v).read "RU" "" =
        "/" ++ (String.mk b ++ "/" ++ String.mk c)) ∧
      (tail = [] →
        objLdnOf mv = String.mk a ++ "/" ++ (String.mk b ++ "/" ++ String.mk c))) ∧
    ((SplitSlash (objLdnOf mv)).length < 3 → rrcRow typeText att succ rrcMap mv = rrcMap) := by
  constructor
  · intro a b c tail ha hb hc htail hobj
    have hsub : subRUOf (objLdnOf mv) = some (String.mk b ++ "/" ++ String.mk c) := by
      rw [hobj]
      exact subRUOf_three a b c tail ha hb hc htail
    have hkeys := rrcRow_keys typeText att succ rrcMap mv
    rw [hsub] at hkeys
    refine ⟨hsub, ?_, ?_, ?_, ?_⟩
    · rw [hkeys]
      simp only []
      split_ifs with h
      · exact h
      · simp
    · intro q hq
      rw [rrcRow_eq, hsub]
      simp only [read_addInto, if_neg hq, read_ensureKey]
    · intro v
      simp [rrcEntry_eq, GoMap.read, GoMap.find]
    · intro ht
      rw [hobj, ht]
      apply String.ext
      simp [String.data_append]
  · intro hlen
    rw [rrcRow_eq]
    have hnone : subRUOf (objLdnOf mv) = none := by
      unfold subRUOf
      rw [if_pos hlen]
    rw [hnone]

/-- The row of the sample file on the object path `x/cell/1` is keyed by `cell/1`. -/
theorem rrc_key_of_row_witness :
    subRUOf (objLdnOf (measValue "x/cell/1" "100 90")) = some "cell/1" :=
  ((rrc_key_of_row "ConnEstabAtt(count) ConnEstabSucc(count)" "ConnEstabAtt"
      "ConnEstabSucc" [] (measValue "x/cell/1" "100 90")).1
    ['x'] ['c', 'e', 'l', 'l'] ['1'] [] (by decide) (by decide) (by decide) (Or.inl rfl)
    (by decide)).1

/-! ## Identifier collisions within a fan-out (C16) -/

/-- C16. The documents of one sample's fan-out need not get distinct identifiers: whenever
the two mapping rows of a key agree on `cell_num` and `ru_id`, the two documents `emitDocs`
sends receive the same identifier, whatever the other columns hold; and for the snapshot
`collidingStore`, whose two rows differ in `cell_id`, the two documents differ in content
(in `cell_id`) and share the identifier. -/
theorem fanout_identifier_collision :
    (∀ (store : Store) (ruParam me md et ts c mType field : String) (val : Result)
        (r₁ r₂ : RuMapping),
      (store.Get ruParam).2 = ([r₁, r₂], true) → r₁.CELL_NUM = r₂.CELL_NUM →
      r₁.RUId = r₂.RUId →
      ∃ d₁ d₂, emitDocs store ruParam me md et ts c mType field val = [d₁, d₂] ∧
        bulkID d₁ = bulkID d₂) ∧
    ∃ d₁ d₂, emitDocs collidingStore "DU1/RU1" "DU1" "202401021504" "2024-01-02 15:04"
        "2024-01-02T06:04:05.000Z" "2024-01-02 15:10" "MAXUE" "UEMax" (.int 7) = [d₁, d₂] ∧
      d₁ ≠ d₂ ∧ d₁.CellId = some "c1" ∧ d₂.CellId = some "c2" ∧
      bulkID d₁ = "DU1/RU1-1-ru1-UEMax-202401021504" ∧
      bulkID d₂ = "DU1/RU1-1-ru1-UEMax-202401021504" := by
  constructor
  · intro store ruParam me md et ts c mType field val r₁ r₂ hget h₁ h₂
    refine ⟨buildDoc (some r₁) ruParam me md et ts c mType field val,
      buildDoc (some r₂) ruParam me md et ts c mType field val, ?_, ?_⟩
    · simp [emitDocs, hget]
    · simp [bulkID, buildDoc, h₁, h₂]
  · exact ⟨buildDoc (some (sampleMapping "c1" "1")) "DU1/RU1" "DU1" "202401021504"
        "2024-01-02 15:04" "2024-01-02T06:04:05.000Z" "2024-01-02 15:10" "MAXUE" "UEMax"
        (.int 7),
      buildDoc (some (sampleMapping "c2" "1")) "DU1/RU1" "DU1" "202401021504"
        "2024-01-02 15:04" "2024-01-02T06:04:05.000Z" "2024-01-02 15:10" "MAXUE" "UEMax"
        (.int 7), by decide, by decide, by decide, by decide, by decide, by decide⟩

/-- The two rows of `collidingStore` give two documents with one identifier. -/
theorem fanout_identifier_collision_witness :
    ∃ d₁ d₂, emitDocs collidingStore "DU1/RU1" "DU1" "202401021504" "2024-01-02 15:04"
        "2024-01-02T06:04:05.000Z" "2024-01-02 15:10" "POWER" "pmConsumedEnergy"
        (.int 0) = [d₁, d₂] ∧ bulkID d₁ = bulkID d₂ :=
  fanout_identifier_collision.1 collidingStore "DU1/RU1" _ _ _ _ _ _ _ _
    (sampleMapping "c1" "1") (sampleMapping "c2" "1") (by decide) rfl rfl

end LsmParser
